import Mathlib

/-!
Hydraulic erosion core (`ErosionMaker`): shallow embedding and verified properties.

The embedding follows `src/src/ErosionMaker.cpp` and `src/src/ErosionMaker.h`.

Modelling conventions

* `float` values are elements of a linearly ordered field `α` and every float operation is the
  exact field operation (no rounding, no infinities, no NaN).  `sqrtf` is a function argument
  `sqrt : α → α`; theorems that depend on what a square root is assume `IsSqrt sqrt`.
  The definitions are computable for a computable field (for instance `ℚ`), and every theorem
  can be instantiated with `ℝ` and `Real.sqrt`.
* `int` values are unbounded integers `ℤ`; C `/` and `%` are `Int.tdiv` and `Int.tmod`; the cast
  `(int)f` truncates toward zero.
* `std::vector<T>` is `List T`.  The unchecked `operator[]` is made total: a read outside the
  vector yields `0` and a write outside the vector is dropped.  The checked `at` returns `none`
  outside the vector.
* `rand()` is a stream `rnd : ℕ → ℕ` of the non-negative values it returns, in call order;
  `time(0)` is an argument `now`.
-/

namespace ErosionSpec

/-! ## Vectors and casts -/

/-- Unchecked read `v[i]` of a vector at an `int` index. -/
def readAt {β : Type} [Zero β] (v : List β) (i : ℤ) : β :=
  if 0 ≤ i then v.getD i.toNat 0 else 0

/-- Unchecked write `v[i] = a` of a vector at an `int` index. -/
def writeAt {β : Type} (v : List β) (i : ℤ) (a : β) : List β :=
  if 0 ≤ i then v.set i.toNat a else v

/-- Unchecked read `table[i]` of a vector of vectors at an `int` index; outside the table the
entry read is empty. -/
def entryAt {β : Type} (table : List (List β)) (i : ℤ) : List β :=
  if 0 ≤ i then table.getD i.toNat [] else []

/-- The values of `for (int v = lo; v <= hi; v++)`. -/
def closedRange (lo hi : ℤ) : List ℤ :=
  (List.range (hi + 1 - lo).toNat).map (fun (k : ℕ) => lo + (k : ℤ))

/-- Modelled from the spec: function `Lerp` of raymath (`raymath.h` is not among the repository
sources), the linear interpolation `start + amount * (end - start)`. -/
def Lerp {α : Type} [LinearOrderedField α] (start stop amount : α) : α :=
  start + amount * (stop - start)

/-- What the development assumes of `sqrtf` on exact numbers: the non-negative root. -/
structure IsSqrt {α : Type} [LinearOrderedField α] (sqrt : α → α) : Prop where
  nonneg : ∀ x, 0 ≤ sqrt x
  mul_self : ∀ x, 0 ≤ x → sqrt x * sqrt x = x

section Brush

variable {α : Type} [LinearOrderedField α]

/-! ## `InitializeBrushIndices` -/

/-- The locals of `InitializeBrushIndices` that live across the cell loop: the three scratch
vectors, `weightSum` and `addIndex`. -/
structure BrushScratch (α : Type) where
  xOffsets : List ℤ
  yOffsets : List ℤ
  weights : List α
  weightSum : α
  addIndex : ℕ

/-- Body of the innermost loop of `InitializeBrushIndices` (lines 227-243) for the offset
`(x, y)` around the centre `(centreX, centreY)`. -/
def scanOffset (sqrt : α → α) (mapSize radius centreX centreY : ℤ)
    (s : BrushScratch α) (y x : ℤ) : BrushScratch α :=
  let sqrDst : α := ((x * x + y * y : ℤ) : α)
  if sqrDst < ((radius * radius : ℤ) : α) then
    let coordX := centreX + x
    let coordY := centreY + y
    if 0 ≤ coordX ∧ coordX < mapSize ∧ 0 ≤ coordY ∧ coordY < mapSize then
      let weight := 1 - sqrt sqrDst / (radius : α)
      { xOffsets := s.xOffsets.set s.addIndex x
        yOffsets := s.yOffsets.set s.addIndex y
        weights := s.weights.set s.addIndex weight
        weightSum := s.weightSum + weight
        addIndex := s.addIndex + 1 }
    else s
  else s

/-- The neighbour scan of one border cell (lines 221-245): reset `weightSum` and `addIndex`,
then visit the offsets `y = -radius..radius`, `x = -radius..radius`. -/
def scanBrush (sqrt : α → α) (mapSize radius centreX centreY : ℤ)
    (s : BrushScratch α) : BrushScratch α :=
  (closedRange (-radius) radius).foldl
    (fun s y => (closedRange (-radius) radius).foldl
      (fun s x => scanOffset sqrt mapSize radius centreX centreY s y x) s)
    { s with weightSum := 0, addIndex := 0 }

/-- One iteration of the cell loop (lines 216-256): the scratch state after the cell and the
two vectors stored for cell `i`. -/
def brushCell (sqrt : α → α) (mapSize radius : ℤ) (s : BrushScratch α) (i : ℕ) :
    BrushScratch α × List ℤ × List α :=
  let centreX := Int.tmod (i : ℤ) mapSize
  let centreY := Int.tdiv (i : ℤ) mapSize
  let s1 :=
    if centreY ≤ radius ∨ centreY ≥ mapSize - radius ∨
        centreX ≤ radius ∨ centreX ≥ mapSize - radius then
      scanBrush sqrt mapSize radius centreX centreY s
    else s
  let numEntries := s1.addIndex
  (s1,
   (List.range numEntries).map
     (fun j => (s1.yOffsets.getD j 0 + centreY) * mapSize + s1.xOffsets.getD j 0 + centreX),
   (List.range numEntries).map (fun j => s1.weights.getD j 0 / s1.weightSum))

/-- The cell loop of `InitializeBrushIndices` over the cell indices `cells`, threading the
scratch state; returns the index table and the weight table. -/
def brushCells (sqrt : α → α) (mapSize radius : ℤ) :
    List ℕ → BrushScratch α → List (List ℤ) × List (List α)
  | [], _ => ([], [])
  | i :: rest, s =>
    let r := brushCell sqrt mapSize radius s i
    let t := brushCells sqrt mapSize radius rest r.1
    (r.2.1 :: t.1, r.2.2 :: t.2)

/-- Method `ErosionMaker::InitializeBrushIndices(mapSize, radius)`: the pair
`(erosionBrushIndices, erosionBrushWeights)` it builds. -/
def InitializeBrushIndices (sqrt : α → α) (mapSize radius : ℤ) :
    List (List ℤ) × List (List α) :=
  let scratch : BrushScratch α :=
    { xOffsets := List.replicate (radius * radius * 4).toNat 0
      yOffsets := List.replicate (radius * radius * 4).toNat 0
      weights := List.replicate (radius * radius * 4).toNat 0
      weightSum := 0
      addIndex := 0 }
  brushCells sqrt mapSize radius (List.range (mapSize * mapSize).toNat) scratch

/-! ### The naive brush of the specification -/

/-- Offsets `(dx, dy)` of the square `[-radius, radius]²` in row-major order (`dy` outer). -/
def squareOffsets (radius : ℤ) : List (ℤ × ℤ) :=
  (closedRange (-radius) radius).flatMap
    (fun dy => (closedRange (-radius) radius).map (fun dx => (dx, dy)))

/-- The offset `o = (dx, dy)` is within Euclidean distance `radius` and the cell
`(cx + dx, cy + dy)` lies inside the grid. -/
def inBrush (mapSize radius cx cy : ℤ) (o : ℤ × ℤ) : Bool :=
  decide (o.1 * o.1 + o.2 * o.2 < radius * radius) &&
    decide (0 ≤ cx + o.1 ∧ cx + o.1 < mapSize ∧ 0 ≤ cy + o.2 ∧ cy + o.2 < mapSize)

/-- Offsets of the cells within Euclidean distance `radius` of `(cx, cy)` that lie inside the
grid, in row-major offset order. -/
def naiveOffsets (mapSize radius cx cy : ℤ) : List (ℤ × ℤ) :=
  (squareOffsets radius).filter (inBrush mapSize radius cx cy)

/-- Raw weight `1 - sqrt(dx² + dy²) / radius` of an offset. -/
def rawWeight (sqrt : α → α) (radius : ℤ) (o : ℤ × ℤ) : α :=
  1 - sqrt ((o.1 * o.1 + o.2 * o.2 : ℤ) : α) / (radius : α)

/-- Cell indices of the naive brush entry of `(cx, cy)`. -/
def naiveBrushIndices (mapSize radius cx cy : ℤ) : List ℤ :=
  (naiveOffsets mapSize radius cx cy).map (fun o => (cy + o.2) * mapSize + (cx + o.1))

/-- Weights of the naive brush entry of `(cx, cy)`: every raw weight divided by the sum of the
raw weights of that cell. -/
def naiveBrushWeights (sqrt : α → α) (mapSize radius cx cy : ℤ) : List α :=
  ((naiveOffsets mapSize radius cx cy).map (rawWeight sqrt radius)).map
    (fun w => w / ((naiveOffsets mapSize radius cx cy).map (rawWeight sqrt radius)).sum)

/-! ### Predicates on the scratch state -/

/-- The first `addIndex` entries of the scratch vectors hold the offsets `offs` and their raw
weights, `weightSum` is the sum of these weights, and the vectors have `cap` entries. -/
structure ScratchHolds (sqrt : α → α) (radius : ℤ) (cap : ℕ) (s : BrushScratch α)
    (offs : List (ℤ × ℤ)) : Prop where
  lenX : s.xOffsets.length = cap
  lenY : s.yOffsets.length = cap
  lenW : s.weights.length = cap
  count : s.addIndex = offs.length
  xs : s.xOffsets.take s.addIndex = offs.map Prod.fst
  ys : s.yOffsets.take s.addIndex = offs.map Prod.snd
  ws : s.weights.take s.addIndex = offs.map (rawWeight sqrt radius)
  total : s.weightSum = (offs.map (rawWeight sqrt radius)).sum

/-- Cell `i` is recomputed by `InitializeBrushIndices` (condition of line 219). -/
def recomputed (mapSize radius : ℤ) (i : ℕ) : Prop :=
  Int.tdiv (i : ℤ) mapSize ≤ radius ∨ Int.tdiv (i : ℤ) mapSize ≥ mapSize - radius ∨
    Int.tmod (i : ℤ) mapSize ≤ radius ∨ Int.tmod (i : ℤ) mapSize ≥ mapSize - radius

/-! ## `RemapValue` and `Remap` -/

/-- The raylib type `Vector2`. -/
structure Vector2 (α : Type) where
  x : α
  y : α

/-- The constant array `point` of `RemapValue`: `0.15f`, `0.16f` and `0.2f` are the exact
decimals. -/
def remapPoints : List (Vector2 α) :=
  [⟨0, 0⟩, ⟨15 / 100, 16 / 100⟩, ⟨2 / 10, 16 / 100⟩, ⟨1, 1⟩]

/-- Read `point[i]`. -/
def pointAt (point : List (Vector2 α)) (i : ℕ) : Vector2 α :=
  point.getD i ⟨0, 0⟩

/-- The loop `for (i = 1; i < points; i++)` of `RemapValue` over the remaining indices. -/
def remapScan (point : List (Vector2 α)) (value : α) : List ℕ → α
  | [] => value
  | i :: rest =>
    if value < (pointAt point i).x then
      Lerp (pointAt point (i - 1)).y (pointAt point i).y
        ((value - (pointAt point (i - 1)).x) / ((pointAt point i).x - (pointAt point (i - 1)).x))
    else remapScan point value rest

/-- Method `ErosionMaker::RemapValue`: negative values pass, the others go through the loop. -/
def RemapValue (value : α) : α :=
  if value < 0 then value
  else remapScan remapPoints value (List.range' 1 3)

/-- The loop of `ErosionMaker::Remap` over the cell indices `cells`; `at` fails outside the
vector. -/
def remapCells : List ℕ → List α → Option (List α)
  | [], map => some map
  | i :: rest, map =>
    match map[i]? with
    | none => none
    | some v => remapCells rest (map.set i (RemapValue v))

/-- Method `ErosionMaker::Remap(map, mapSize)`: `none` when `at` throws. -/
def Remap (map : List α) (mapSize : ℤ) : Option (List α) :=
  remapCells (List.range (mapSize * mapSize).toNat) map

end Brush

section Droplets

variable {α : Type} [LinearOrderedField α] [FloorRing α]

/-! ## The droplet simulation -/

/-- The cast `(int)f` of a float: truncation toward zero. -/
def truncInt (f : α) : ℤ :=
  if 0 ≤ f then ⌊f⌋ else ⌈f⌉

/-- Result type of `CalculateHeightAndGradient`. -/
structure HeightAndGradient (α : Type) where
  height : α
  gradientX : α
  gradientY : α

/-- Method `ErosionMaker::CalculateHeightAndGradient`. -/
def CalculateHeightAndGradient (mapData : List α) (mapSize : ℤ) (posX posY : α) :
    HeightAndGradient α :=
  let coordX := truncInt posX
  let coordY := truncInt posY
  let x := posX - (coordX : α)
  let y := posY - (coordY : α)
  let nodeIndexNW := coordY * mapSize + coordX
  let heightNW := readAt mapData nodeIndexNW
  let heightNE := readAt mapData (nodeIndexNW + 1)
  let heightSW := readAt mapData (nodeIndexNW + mapSize)
  let heightSE := readAt mapData (nodeIndexNW + mapSize + 1)
  let gradientX := (heightNE - heightNW) * (1 - y) + (heightSE - heightSW) * y
  let gradientY := (heightSW - heightNW) * (1 - x) + (heightSE - heightNE) * x
  let height := heightNW * (1 - x) * (1 - y) + heightNE * x * (1 - y) +
    heightSW * (1 - x) * y + heightSE * x * y
  { height := height, gradientX := gradientX, gradientY := gradientY }

/-- The state of the singleton `ErosionMaker`: the brush cache (`none` is `nullptr`), the
recorded seed, radius and map size, and the public parameters. -/
structure ErosionMaker (α : Type) where
  erosionBrushIndices : Option (List (List ℤ))
  erosionBrushWeights : Option (List (List α))
  currentSeed : ℤ
  currentErosionRadius : ℤ
  currentMapSize : ℤ
  erosionRadius : ℤ
  inertia : α
  sedimentCapacityFactor : α
  minSedimentCapacity : α
  erodeSpeed : α
  depositSpeed : α
  evaporateSpeed : α
  gravity : α
  maxDropletLifetime : ℤ
  initialWaterVolume : α
  initialSpeed : α

/-- Method `ErosionMaker::GetInstance()` at first use: no cache, the members without an initialiser
zero (static storage), the others at the defaults of the header. -/
def GetInstance : ErosionMaker α :=
  { erosionBrushIndices := none
    erosionBrushWeights := none
    currentSeed := 0
    currentErosionRadius := 0
    currentMapSize := 0
    erosionRadius := 6
    inertia := 5 / 100
    sedimentCapacityFactor := 6
    minSedimentCapacity := 1 / 100
    erodeSpeed := 3 / 10
    depositSpeed := 3 / 10
    evaporateSpeed := 1 / 100
    gravity := 4
    maxDropletLifetime := 60
    initialWaterVolume := 1
    initialSpeed := 1 }

/-- Method `ErosionMaker::Initialize(mapSize, resetSeed)`; `now` is the value of `time(0)`. -/
def Initialize (sqrt : α → α) (em : ErosionMaker α) (mapSize : ℤ) (resetSeed : Bool)
    (now : ℕ) : ErosionMaker α :=
  let em1 := if resetSeed then { em with currentSeed := (now : ℤ) } else em
  if em1.erosionBrushIndices.isNone ∨ em1.currentErosionRadius ≠ em1.erosionRadius ∨
      em1.currentMapSize ≠ mapSize then
    let t := InitializeBrushIndices sqrt mapSize em1.erosionRadius
    { em1 with
      erosionBrushIndices := some t.1
      erosionBrushWeights := some t.2
      currentErosionRadius := em1.erosionRadius
      currentMapSize := mapSize }
  else em1

/-- The local variables of one droplet that live across the lifetime loop. -/
structure Droplet (α : Type) where
  posX : α
  posY : α
  dirX : α
  dirY : α
  speed : α
  water : α
  sediment : α

/-- The droplet created by iteration `iteration` of `Erode` (lines 38-44): it draws the two
random values number `2 * iteration` and `2 * iteration + 1`.  The embedding follows the source
for `mapSize ≥ 2`; at `mapSize = 1` the source evaluates `rand() % 0`, which is undefined,
where `Int.tmod` returns its first argument. -/
def spawnDroplet (em : ErosionMaker α) (mapSize : ℤ) (rnd : ℕ → ℕ) (iteration : ℕ) :
    Droplet α :=
  { posX := ((Int.tmod (rnd (2 * iteration) : ℤ) (mapSize - 1) + 0 : ℤ) : α)
    posY := ((Int.tmod (rnd (2 * iteration + 1) : ℤ) (mapSize - 1) + 0 : ℤ) : α)
    dirX := 0
    dirY := 0
    speed := em.initialSpeed
    water := em.initialWaterVolume
    sediment := 0 }

/-- Direction update and normalisation (lines 60-69); `0.0001f` is the exact decimal. -/
def updateDirection (sqrt : α → α) (inertia : α) (hg : HeightAndGradient α)
    (dirX dirY : α) : α × α :=
  let dirX1 := dirX * inertia - hg.gradientX * (1 - inertia)
  let dirY1 := dirY * inertia - hg.gradientY * (1 - inertia)
  let len := sqrt (dirX1 * dirX1 + dirY1 * dirY1)
  if len > 1 / 10000 then (dirX1 / len, dirY1 / len) else (dirX1, dirY1)

/-- The droplet's direction after the update of this step. -/
def stepDir (sqrt : α → α) (em : ErosionMaker α) (mapData : List α) (mapSize : ℤ)
    (d : Droplet α) : α × α :=
  updateDirection sqrt em.inertia (CalculateHeightAndGradient mapData mapSize d.posX d.posY)
    d.dirX d.dirY

/-- The droplet's position after the move of this step (lines 71-72). -/
def stepPos (sqrt : α → α) (em : ErosionMaker α) (mapData : List α) (mapSize : ℤ)
    (d : Droplet α) : α × α :=
  (d.posX + (stepDir sqrt em mapData mapSize d).1, d.posY + (stepDir sqrt em mapData mapSize d).2)

/-- The condition of the `break` at line 75. -/
def stepStops (sqrt : α → α) (em : ErosionMaker α) (mapData : List α) (mapSize : ℤ)
    (d : Droplet α) : Prop :=
  ((stepDir sqrt em mapData mapSize d).1 = 0 ∧ (stepDir sqrt em mapData mapSize d).2 = 0) ∨
    (stepPos sqrt em mapData mapSize d).1 < 0 ∨
    (stepPos sqrt em mapData mapSize d).1 ≥ ((mapSize - 1 : ℤ) : α) ∨
    (stepPos sqrt em mapData mapSize d).2 < 0 ∨
    (stepPos sqrt em mapData mapSize d).2 ≥ ((mapSize - 1 : ℤ) : α)

instance (sqrt : α → α) (em : ErosionMaker α) (mapData : List α) (mapSize : ℤ)
    (d : Droplet α) : Decidable (stepStops sqrt em mapData mapSize d) := by
  unfold stepStops; infer_instance

/-- The value `deltaHeight` of this step (lines 81-82). -/
def stepDeltaHeight (sqrt : α → α) (em : ErosionMaker α) (mapData : List α) (mapSize : ℤ)
    (d : Droplet α) : α :=
  (CalculateHeightAndGradient mapData mapSize (stepPos sqrt em mapData mapSize d).1
      (stepPos sqrt em mapData mapSize d).2).height -
    (CalculateHeightAndGradient mapData mapSize d.posX d.posY).height

/-- The value `sedimentCapacity` (line 85). -/
def sedimentCapacity (em : ErosionMaker α) (d : Droplet α) (deltaHeight : α) : α :=
  max (-deltaHeight * d.speed * d.water * em.sedimentCapacityFactor) em.minSedimentCapacity

/-- The value `amountToDeposit` (line 93). -/
def amountToDeposit (em : ErosionMaker α) (d : Droplet α) (deltaHeight : α) : α :=
  if deltaHeight > 0 then min deltaHeight d.sediment
  else (d.sediment - sedimentCapacity em d deltaHeight) * em.depositSpeed

/-- The value `amountToErode` (line 109). -/
def amountToErode (em : ErosionMaker α) (d : Droplet α) (deltaHeight : α) : α :=
  min ((sedimentCapacity em d deltaHeight - d.sediment) * em.erodeSpeed) (-deltaHeight)

/-- The four writes of the deposit branch (lines 98-101). -/
def depositSediment (mapData : List α) (mapSize dropletIndex : ℤ)
    (cellOffsetX cellOffsetY amount : α) : List α :=
  let m1 := writeAt mapData dropletIndex
    (readAt mapData dropletIndex + amount * (1 - cellOffsetX) * (1 - cellOffsetY))
  let m2 := writeAt m1 (dropletIndex + 1)
    (readAt m1 (dropletIndex + 1) + amount * cellOffsetX * (1 - cellOffsetY))
  let m3 := writeAt m2 (dropletIndex + mapSize)
    (readAt m2 (dropletIndex + mapSize) + amount * (1 - cellOffsetX) * cellOffsetY)
  writeAt m3 (dropletIndex + mapSize + 1)
    (readAt m3 (dropletIndex + mapSize + 1) + amount * cellOffsetX * cellOffsetY)

/-- Body of the brush loop (lines 114-118) for brush point `brushPointIndex`; the state is the
heightmap and the carried sediment. -/
def erodePoint (indices : List ℤ) (weights : List α) (amount : α) (st : List α × α)
    (brushPointIndex : ℕ) : List α × α :=
  let nodeIndex := indices.getD brushPointIndex 0
  let weighedErodeAmount := amount * weights.getD brushPointIndex 0
  let deltaSediment :=
    if readAt st.1 nodeIndex < weighedErodeAmount then readAt st.1 nodeIndex
    else weighedErodeAmount
  (writeAt st.1 nodeIndex (readAt st.1 nodeIndex - deltaSediment), st.2 + deltaSediment)

/-- The brush loop of the erode branch (lines 112-119) over one brush entry. -/
def erodeBrush (indices : List ℤ) (weights : List α) (amount : α) (mapData : List α)
    (sediment : α) : List α × α :=
  (List.range indices.length).foldl (erodePoint indices weights amount) (mapData, sediment)

/-- Speed update (lines 123-125): `sqrtf` of a negative number is NaN, which is replaced
by `0`. -/
def updateSpeed (sqrt : α → α) (speed deltaHeight gravity : α) : α :=
  if speed * speed + deltaHeight * gravity < 0 then 0
  else sqrt (speed * speed + deltaHeight * gravity)

/-- How one pass through the body of the lifetime loop ends: at the `break`, or after the
deposit branch, or after the erode branch, with the droplet and heightmap it leaves. -/
inductive StepResult (α : Type) where
  | stopped : StepResult α
  | deposited : Droplet α → List α → StepResult α
  | eroded : Droplet α → List α → StepResult α

/-- One pass through the body of the lifetime loop of `Erode` (lines 48-126). -/
def dropletStep (sqrt : α → α) (em : ErosionMaker α) (mapData : List α) (mapSize : ℤ)
    (d : Droplet α) : StepResult α :=
  let nodeX := truncInt d.posX
  let nodeY := truncInt d.posY
  let dropletIndex := nodeY * mapSize + nodeX
  let cellOffsetX := d.posX - (nodeX : α)
  let cellOffsetY := d.posY - (nodeY : α)
  let dir := stepDir sqrt em mapData mapSize d
  let pos := stepPos sqrt em mapData mapSize d
  if stepStops sqrt em mapData mapSize d then StepResult.stopped
  else
    let deltaHeight := stepDeltaHeight sqrt em mapData mapSize d
    let speed1 := updateSpeed sqrt d.speed deltaHeight em.gravity
    let water1 := d.water * (1 - em.evaporateSpeed)
    if d.sediment > sedimentCapacity em d deltaHeight ∨ deltaHeight > 0 then
      StepResult.deposited
        { posX := pos.1, posY := pos.2, dirX := dir.1, dirY := dir.2, speed := speed1
          water := water1, sediment := d.sediment - amountToDeposit em d deltaHeight }
        (depositSediment mapData mapSize dropletIndex cellOffsetX cellOffsetY
          (amountToDeposit em d deltaHeight))
    else
      let r := erodeBrush
        (entryAt (em.erosionBrushIndices.getD []) dropletIndex)
        (entryAt (em.erosionBrushWeights.getD []) dropletIndex)
        (amountToErode em d deltaHeight) mapData d.sediment
      StepResult.eroded
        { posX := pos.1, posY := pos.2, dirX := dir.1, dirY := dir.2, speed := speed1
          water := water1, sediment := r.2 }
        r.1

/-- The lifetime loop of one droplet (lines 46-127) with `lifetime` iterations left: the
heightmap when the droplet is destroyed. -/
def dropletLoop (sqrt : α → α) (em : ErosionMaker α) (mapSize : ℤ) :
    ℕ → List α → Droplet α → List α
  | 0, mapData, _ => mapData
  | lifetime + 1, mapData, d =>
    match dropletStep sqrt em mapData mapSize d with
    | StepResult.stopped => mapData
    | StepResult.deposited d1 map1 => dropletLoop sqrt em mapSize lifetime map1 d1
    | StepResult.eroded d1 map1 => dropletLoop sqrt em mapSize lifetime map1 d1

/-- The droplet loop of `Erode` (lines 35-128) for the iterations `0 .. dropletAmount - 1`,
with the cache of `em` already initialised. -/
def erodeDroplets (sqrt : α → α) (em : ErosionMaker α) (mapSize : ℤ) (rnd : ℕ → ℕ)
    (dropletAmount : ℕ) (mapData : List α) : List α :=
  (List.range dropletAmount).foldl
    (fun m iteration =>
      dropletLoop sqrt em mapSize em.maxDropletLifetime.toNat m
        (spawnDroplet em mapSize rnd iteration))
    mapData

/-- Method `ErosionMaker::Erode(mapData, mapSize, dropletAmount, resetSeed)`: the state of the
singleton and the heightmap after the call. -/
def Erode (sqrt : α → α) (em : ErosionMaker α) (mapData : List α) (mapSize dropletAmount : ℤ)
    (resetSeed : Bool) (now : ℕ) (rnd : ℕ → ℕ) : ErosionMaker α × List α :=
  let em1 := Initialize sqrt em mapSize resetSeed now
  (em1, erodeDroplets sqrt em1 mapSize rnd dropletAmount.toNat mapData)

end Droplets

section Predicates

variable {α : Type} [LinearOrderedField α]

/-! ## Predicates on the simulation state -/

/-- The cache of `em` is the pair of tables `InitializeBrushIndices` builds for `mapSize` and the
current `erosionRadius`. -/
def CacheFor (sqrt : α → α) (em : ErosionMaker α) (mapSize : ℤ) : Prop :=
  em.erosionBrushIndices = some (InitializeBrushIndices sqrt mapSize em.erosionRadius).1 ∧
    em.erosionBrushWeights = some (InitializeBrushIndices sqrt mapSize em.erosionRadius).2

/-- The private members of `em` are consistent: there is no cache, or the cache is the one built
for the recorded map size and radius. -/
def CacheValid (sqrt : α → α) (em : ErosionMaker α) : Prop :=
  em.erosionBrushIndices = none ∨
    (em.erosionBrushIndices =
        some (InitializeBrushIndices sqrt em.currentMapSize em.currentErosionRadius).1 ∧
      em.erosionBrushWeights =
        some (InitializeBrushIndices sqrt em.currentMapSize em.currentErosionRadius).2)

/-- What the droplet loop maintains between two steps: heights and carried sediment are
non-negative and the position has non-negative coordinates. -/
def StepInv (mapData : List α) (d : Droplet α) : Prop :=
  (∀ x ∈ mapData, 0 ≤ x) ∧ 0 ≤ d.posX ∧ 0 ≤ d.posY ∧ 0 ≤ d.sediment

end Predicates

section Scenarios

variable {α : Type} [LinearOrderedField α]

/-! ## Inputs of the test scenarios and the interpolation of the specification -/

/-- The heightmap of scenario B: the 16×16 ramp `height[x, y] = 1 - x / 15`. -/
def rampMap : List α :=
  (List.range 256).map (fun (i : ℕ) => 1 - ((i % 16 : ℕ) : α) / 15)

/-- A droplet at the grid point `(px, py)` that carries `sediment`, at rest and with the default
`initialSpeed` and `initialWaterVolume`; with `sediment = 0` it is a droplet as `Erode`
creates it. -/
def dropletAt (px py : ℕ) (sediment : α) : Droplet α :=
  { posX := (px : α), posY := (py : α), dirX := 0, dirY := 0, speed := 1, water := 1,
    sediment := sediment }

/-- Linear interpolation through the control points `p` and `q`, evaluated at `x`. -/
def segmentValue (p q : Vector2 α) (x : α) : α :=
  p.y + (x - p.x) / (q.x - p.x) * (q.y - p.y)

end Scenarios

section GradientDefs

variable {α : Type} [LinearOrderedField α]

/-! ## `Gradient` -/

/-- The enumeration `GradientType` of the header. -/
inductive GradientType where
  | SQUARE : GradientType
  | CIRCLE : GradientType
  | DIAMOND : GradientType
  | STAR : GradientType

/-- The value `gradient` that the `switch` of `Gradient` (lines 141-165) computes for the cell
`(x, y)`, before it is inverted; `radius` is `(float)mapSize / 2.0f`.  The `default` branch
is not reached by an enumerator. -/
def gradientDistance (mapSize : ℤ) (gradientType : GradientType) (x y : ℕ) : α :=
  let radius : α := (mapSize : α) / 2
  match gradientType with
  | GradientType.SQUARE => max (abs ((x : α) - radius)) (abs ((y : α) - radius)) / radius
  | GradientType.CIRCLE =>
    min ((((x : α) - radius) * ((x : α) - radius) + ((y : α) - radius) * ((y : α) - radius)) /
      (radius * radius)) 1
  | GradientType.DIAMOND => min ((abs ((x : α) - radius) + abs ((y : α) - radius)) / radius) 1
  | GradientType.STAR =>
    Lerp (min ((abs ((x : α) - radius) + abs ((y : α) - radius)) / radius) 1)
      (max (abs ((x : α) - radius)) (abs ((y : α) - radius)) / radius) (7 / 10)

/-- Body of the inner loop of `Gradient` (lines 139-167) for the cell `(x, y)`. -/
def gradientCell (mapSize : ℤ) (gradientType : GradientType) (y : ℕ) (mapData : List α)
    (x : ℕ) : List α :=
  writeAt mapData ((y : ℤ) * mapSize + (x : ℤ))
    (readAt mapData ((y : ℤ) * mapSize + (x : ℤ)) *
      (1 - gradientDistance mapSize gradientType x y))

/-- Method `ErosionMaker::Gradient(mapData, mapSize, normalizedOffset, gradientType)`; the
argument `normalizedOffset` is not used by the body. -/
def Gradient (mapData : List α) (mapSize : ℤ) (_normalizedOffset : α)
    (gradientType : GradientType) : List α :=
  (List.range mapSize.toNat).foldl
    (fun m y => (List.range mapSize.toNat).foldl (gradientCell mapSize gradientType y) m)
    mapData

/-- The factor by which `Gradient` multiplies the cell with index `j` of an `n × n` map. -/
def cellFactor (n : ℕ) (gradientType : GradientType) (j : ℕ) : α :=
  1 - gradientDistance (n : ℤ) gradientType (j % n) (j / n)

/-! ## `GetNormal` -/

/-- The raylib type `Vector3`. -/
structure Vector3 (α : Type) where
  x : α
  y : α
  z : α

/-- Modelled from the spec: function `Vector3Normalize` of raymath (`raymath.h` is not among
the repository sources), which scales a vector of non-zero length by the inverse of its length
and returns a vector of length zero as it is. -/
def Vector3Normalize (sqrt : α → α) (v : Vector3 α) : Vector3 α :=
  let length := sqrt (v.x * v.x + v.y * v.y + v.z * v.z)
  if length ≠ 0 then
    { x := v.x * (1 / length), y := v.y * (1 / length), z := v.z * (1 / length) }
  else v

/-- Checked read `v.at(i)` of a vector at an `int` index: `none` stands for the exception
`std::out_of_range`. -/
def atIndex (v : List α) (i : ℤ) : Option α :=
  if 0 ≤ i then v[i.toNat]? else none

/-- Method `ErosionMaker::GetNormal(mapData, mapSize, x, y)`; each of the eight lookups is
written with the values of `u` and `v` assigned just before it. -/
def GetNormal (sqrt : α → α) (mapData : List α) (mapSize x y : ℤ) : Option (Vector3 α) :=
  (atIndex mapData
    (min (max (y + 1) 0) (mapSize - 1) * mapSize + min (max (x - 1) 0) (mapSize - 1))).bind
  fun bl =>
  (atIndex mapData
    (min (max (y + 1) 0) (mapSize - 1) * mapSize + min (max x 0) (mapSize - 1))).bind
  fun b =>
  (atIndex mapData
    (min (max (y + 1) 0) (mapSize - 1) * mapSize + min (max (x + 1) 0) (mapSize - 1))).bind
  fun br =>
  (atIndex mapData
    (min (max y 0) (mapSize - 1) * mapSize + min (max (x - 1) 0) (mapSize - 1))).bind
  fun l =>
  (atIndex mapData
    (min (max y 0) mapSize * mapSize + min (max (x + 1) 0) (mapSize - 1))).bind
  fun r =>
  (atIndex mapData
    (min (max (y - 1) 0) (mapSize - 1) * mapSize + min (max (x - 1) 0) (mapSize - 1))).bind
  fun tl =>
  (atIndex mapData
    (min (max (y - 1) 0) (mapSize - 1) * mapSize + min (max x 0) (mapSize - 1))).bind
  fun t =>
  (atIndex mapData
    (min (max (y - 1) 0) (mapSize - 1) * mapSize + min (max (x + 1) 0) (mapSize - 1))).bind
  fun tr =>
  some (Vector3Normalize sqrt
    { x := -(tr + 2 * r + br - tl - 2 * l - bl)
      y := 1 / 20
      z := -(bl + 2 * b + br - tl - 2 * t - tr) })

/-! ### The clamped neighbourhood of the specification -/

/-- A coordinate clamped to the grid: `clamp(c, 0, mapSize - 1)`. -/
def clampCoord (mapSize c : ℤ) : ℤ :=
  min (max c 0) (mapSize - 1)

/-- Height of the neighbour of `(x, y)` at offset `(dx, dy)`, both coordinates clamped to the
grid. -/
def clampedHeight (mapData : List α) (mapSize x y dx dy : ℤ) : α :=
  readAt mapData (clampCoord mapSize (y + dy) * mapSize + clampCoord mapSize (x + dx))

/-- Horizontal Sobel sum of the eight clamped neighbours of `(x, y)`. -/
def sobelX (mapData : List α) (mapSize x y : ℤ) : α :=
  clampedHeight mapData mapSize x y 1 (-1) + 2 * clampedHeight mapData mapSize x y 1 0 +
    clampedHeight mapData mapSize x y 1 1 - clampedHeight mapData mapSize x y (-1) (-1) -
    2 * clampedHeight mapData mapSize x y (-1) 0 - clampedHeight mapData mapSize x y (-1) 1

/-- Vertical Sobel sum of the eight clamped neighbours of `(x, y)`. -/
def sobelY (mapData : List α) (mapSize x y : ℤ) : α :=
  clampedHeight mapData mapSize x y (-1) 1 + 2 * clampedHeight mapData mapSize x y 0 1 +
    clampedHeight mapData mapSize x y 1 1 - clampedHeight mapData mapSize x y (-1) (-1) -
    2 * clampedHeight mapData mapSize x y 0 (-1) - clampedHeight mapData mapSize x y 1 (-1)

end GradientDefs

section SessionDefs

variable {α : Type} [LinearOrderedField α] [FloorRing α]

/-! ## Sequences of `Erode` calls and states of the droplet loop -/

/-- The singleton after the caller has assigned its public members: the public members are
those of `params`, the private members (cache, recorded seed, radius and map size) stay those
of `em`. -/
def setPublic (em params : ErosionMaker α) : ErosionMaker α :=
  { params with
    erosionBrushIndices := em.erosionBrushIndices
    erosionBrushWeights := em.erosionBrushWeights
    currentSeed := em.currentSeed
    currentErosionRadius := em.currentErosionRadius
    currentMapSize := em.currentMapSize }

/-- One call of `Erode` by a client: the public members it has set before the call, the
arguments, and the values that `time` and `rand` return during the call. -/
structure ErodeCall (α : Type) where
  params : ErosionMaker α
  mapData : List α
  mapSize : ℤ
  dropletAmount : ℤ
  resetSeed : Bool
  now : ℕ
  rnd : ℕ → ℕ

/-- The singleton after a sequence of `Erode` calls, starting from the state `em`. -/
def erodeCalls (sqrt : α → α) (em : ErosionMaker α) : List (ErodeCall α) → ErosionMaker α
  | [] => em
  | c :: rest =>
    erodeCalls sqrt
      (Erode sqrt (setPublic em c.params) c.mapData c.mapSize c.dropletAmount c.resetSeed c.now
        c.rnd).1 rest

/-- The value `len` of this step (line 64): the length of the updated direction before it is
normalised. -/
def stepLen (sqrt : α → α) (em : ErosionMaker α) (mapData : List α) (mapSize : ℤ)
    (d : Droplet α) : α :=
  sqrt
    ((d.dirX * em.inertia -
          (CalculateHeightAndGradient mapData mapSize d.posX d.posY).gradientX *
            (1 - em.inertia)) *
        (d.dirX * em.inertia -
          (CalculateHeightAndGradient mapData mapSize d.posX d.posY).gradientX *
            (1 - em.inertia)) +
      (d.dirY * em.inertia -
          (CalculateHeightAndGradient mapData mapSize d.posX d.posY).gradientY *
            (1 - em.inertia)) *
        (d.dirY * em.inertia -
          (CalculateHeightAndGradient mapData mapSize d.posX d.posY).gradientY *
            (1 - em.inertia)))

/-- A 2×2 heightmap that falls by `0.0001` from the column `x = 0` to the column `x = 1`. -/
def gentleMap : List α :=
  [1 / 10000, 0, 1 / 10000, 0]

/-- The droplet position `(posX, posY)` lies in `[0, mapSize - 1)²`. -/
def InGrid (mapSize : ℤ) (posX posY : α) : Prop :=
  (0 ≤ posX ∧ posX < ((mapSize - 1 : ℤ) : α)) ∧ (0 ≤ posY ∧ posY < ((mapSize - 1 : ℤ) : α))

/-- The four node indices that `CalculateHeightAndGradient` and the deposit branch use for the
position `(posX, posY)` all lie in `[0, mapSize * mapSize)`. -/
def NodesInRange (mapSize : ℤ) (posX posY : α) : Prop :=
  0 ≤ truncInt posY * mapSize + truncInt posX ∧
    truncInt posY * mapSize + truncInt posX + mapSize + 1 < mapSize * mapSize

/-- The pairs (heightmap, droplet) with which a pass through the body of the lifetime loop can
start during `Erode` on `mapData0`: a droplet is created on the heightmap its predecessors
left, and a pass that does not end at the `break` starts the next one. -/
inductive LoopState (sqrt : α → α) (em : ErosionMaker α) (mapSize : ℤ) (rnd : ℕ → ℕ)
    (mapData0 : List α) : List α → Droplet α → Prop where
  | spawn (iteration : ℕ) :
    LoopState sqrt em mapSize rnd mapData0
      (erodeDroplets sqrt em mapSize rnd iteration mapData0)
      (spawnDroplet em mapSize rnd iteration)
  | deposited (m m1 : List α) (d d1 : Droplet α) :
    LoopState sqrt em mapSize rnd mapData0 m d →
    dropletStep sqrt em m mapSize d = StepResult.deposited d1 m1 →
    LoopState sqrt em mapSize rnd mapData0 m1 d1
  | eroded (m m1 : List α) (d d1 : Droplet α) :
    LoopState sqrt em mapSize rnd mapData0 m d →
    dropletStep sqrt em m mapSize d = StepResult.eroded d1 m1 →
    LoopState sqrt em mapSize rnd mapData0 m1 d1

end SessionDefs


section BrushLoopDefs

variable {α : Type} [LinearOrderedField α]

/-! ## Values inside the loops -/

/-- The value `deltaSediment` (line 115) of brush point `brushPointIndex`, computed in the state
`st` (heightmap, carried sediment) that the brush loop has reached. -/
def deltaSediment (indices : List ℤ) (weights : List α) (amount : α) (st : List α × α)
    (brushPointIndex : ℕ) : α :=
  if readAt st.1 (indices.getD brushPointIndex 0) < amount * weights.getD brushPointIndex 0 then
    readAt st.1 (indices.getD brushPointIndex 0)
  else amount * weights.getD brushPointIndex 0

/-- The scratch state of `InitializeBrushIndices` inside the neighbour scan of the cell
`(centreX, centreY)`, after the offsets `done` (pairs `(x, y)` in visiting order) have been
visited, starting from the scratch state `s`. -/
def scanPrefix (sqrt : α → α) (mapSize radius centreX centreY : ℤ) (s : BrushScratch α)
    (done : List (ℤ × ℤ)) : BrushScratch α :=
  done.foldl (fun s o => scanOffset sqrt mapSize radius centreX centreY s o.2 o.1)
    { s with weightSum := 0, addIndex := 0 }

end BrushLoopDefs
section BrushLemmas

variable {α : Type} [LinearOrderedField α]

/-! ## The neighbour scan -/

theorem foldl_flatMap_eq {β γ δ : Type} (f : δ → γ → δ) (g : β → List γ) (l : List β) (s : δ) :
    (l.flatMap g).foldl f s = l.foldl (fun s a => (g a).foldl f s) s := by
  induction l generalizing s with
  | nil => rfl
  | cons a l ih => simp [List.flatMap_cons, List.foldl_append, ih]

theorem scanOffset_eq (sqrt : α → α) (mapSize radius cx cy : ℤ) (s : BrushScratch α)
    (y x : ℤ) :
    scanOffset sqrt mapSize radius cx cy s y x =
      if inBrush mapSize radius cx cy (x, y) = true then
        { xOffsets := s.xOffsets.set s.addIndex x
          yOffsets := s.yOffsets.set s.addIndex y
          weights := s.weights.set s.addIndex (rawWeight sqrt radius (x, y))
          weightSum := s.weightSum + rawWeight sqrt radius (x, y)
          addIndex := s.addIndex + 1 }
      else s := by
  unfold scanOffset inBrush rawWeight
  simp only [Int.cast_lt, Bool.and_eq_true, decide_eq_true_eq]
  by_cases h1 : x * x + y * y < radius * radius
  · by_cases h2 : 0 ≤ cx + x ∧ cx + x < mapSize ∧ 0 ≤ cy + y ∧ cy + y < mapSize
    · simp [h1, h2]
    · simp [h1, h2]
  · simp [h1]

theorem scanBrush_eq (sqrt : α → α) (mapSize radius cx cy : ℤ) (s : BrushScratch α) :
    scanBrush sqrt mapSize radius cx cy s =
      (squareOffsets radius).foldl
        (fun s o => scanOffset sqrt mapSize radius cx cy s o.2 o.1)
        { s with weightSum := 0, addIndex := 0 } := by
  unfold scanBrush squareOffsets
  rw [foldl_flatMap_eq]
  simp only [List.foldl_map]

theorem take_succ_set {β : Type} (l : List β) (n : ℕ) (a : β) (h : n < l.length) :
    (l.set n a).take (n + 1) = l.take n ++ [a] := by
  have h1 : (l.set n a).take n = l.take n := by
    rw [List.set_take]
    apply List.set_eq_of_length_le
    simp
  rw [List.take_succ, h1, List.getElem?_set_self h]
  rfl

theorem scan_foldl (sqrt : α → α) (mapSize radius cx cy : ℤ) (cap : ℕ) (l : List (ℤ × ℤ)) :
    ∀ (s : BrushScratch α) (done : List (ℤ × ℤ)),
      ScratchHolds sqrt radius cap s done →
      done.length + (l.filter (inBrush mapSize radius cx cy)).length ≤ cap →
      ScratchHolds sqrt radius cap
        (l.foldl (fun s o => scanOffset sqrt mapSize radius cx cy s o.2 o.1) s)
        (done ++ l.filter (inBrush mapSize radius cx cy)) := by
  induction l with
  | nil => intro s done h _; simpa using h
  | cons o l ih =>
    intro s done h hcap
    rw [List.foldl_cons, scanOffset_eq]
    by_cases ho : inBrush mapSize radius cx cy o = true
    · have ho' : inBrush mapSize radius cx cy (o.1, o.2) = true := ho
      rw [List.filter_cons_of_pos ho] at hcap ⊢
      rw [if_pos ho']
      simp only [List.length_cons] at hcap
      have hlt : s.addIndex < cap := by rw [h.count]; omega
      have hstep : ScratchHolds sqrt radius cap
          { xOffsets := s.xOffsets.set s.addIndex o.1
            yOffsets := s.yOffsets.set s.addIndex o.2
            weights := s.weights.set s.addIndex (rawWeight sqrt radius (o.1, o.2))
            weightSum := s.weightSum + rawWeight sqrt radius (o.1, o.2)
            addIndex := s.addIndex + 1 } (done ++ [o]) := by
        refine ⟨?_, ?_, ?_, ?_, ?_, ?_, ?_, ?_⟩
        · simp [h.lenX]
        · simp [h.lenY]
        · simp [h.lenW]
        · simp [h.count]
        · show (s.xOffsets.set s.addIndex o.1).take (s.addIndex + 1) = _
          rw [take_succ_set _ _ _ (by rw [h.lenX]; exact hlt), h.xs]; simp
        · show (s.yOffsets.set s.addIndex o.2).take (s.addIndex + 1) = _
          rw [take_succ_set _ _ _ (by rw [h.lenY]; exact hlt), h.ys]; simp
        · show (s.weights.set s.addIndex _).take (s.addIndex + 1) = _
          rw [take_succ_set _ _ _ (by rw [h.lenW]; exact hlt), h.ws]; simp
        · show s.weightSum + _ = _
          rw [h.total]; simp
      have := ih _ (done ++ [o]) hstep (by simp; omega)
      simpa using this
    · have ho' : ¬ inBrush mapSize radius cx cy (o.1, o.2) = true := ho
      rw [List.filter_cons_of_neg ho] at hcap ⊢
      rw [if_neg ho']
      exact ih s done h hcap

/-! ## The scratch vectors are large enough -/

theorem closedRange_nodup (lo hi : ℤ) : (closedRange lo hi).Nodup := by
  unfold closedRange
  apply List.Nodup.map _ (List.nodup_range _)
  intro a b h
  simpa using h

theorem mem_closedRange {lo hi v : ℤ} : v ∈ closedRange lo hi ↔ lo ≤ v ∧ v ≤ hi := by
  unfold closedRange
  simp only [List.mem_map, List.mem_range]
  constructor
  · rintro ⟨k, hk, rfl⟩
    omega
  · intro h
    exact ⟨(v - lo).toNat, by omega, by omega⟩

theorem squareOffsets_nodup (radius : ℤ) : (squareOffsets radius).Nodup := by
  have h : squareOffsets radius =
      ((closedRange (-radius) radius).product (closedRange (-radius) radius)).map Prod.swap := by
    unfold squareOffsets
    rw [List.product.eq_1, List.map_flatMap]
    simp [Function.comp_def]
  rw [h]
  exact List.Nodup.map Prod.swap_injective
    (List.Nodup.product (closedRange_nodup _ _) (closedRange_nodup _ _))

theorem mem_squareOffsets {radius : ℤ} {o : ℤ × ℤ} :
    o ∈ squareOffsets radius ↔
      (-radius ≤ o.1 ∧ o.1 ≤ radius) ∧ (-radius ≤ o.2 ∧ o.2 ≤ radius) := by
  unfold squareOffsets
  simp only [List.mem_flatMap, List.mem_map, mem_closedRange]
  constructor
  · rintro ⟨dy, hdy, dx, hdx, rfl⟩
    exact ⟨hdx, hdy⟩
  · rintro ⟨hx, hy⟩
    exact ⟨o.2, hy, o.1, hx, rfl⟩

theorem disc_bound {radius x y : ℤ} (hr : 0 ≤ radius) (h : x * x + y * y < radius * radius) :
    -(radius - 1) ≤ x ∧ x ≤ radius - 1 := by
  constructor
  · by_contra hc
    nlinarith [mul_self_nonneg y]
  · by_contra hc
    nlinarith [mul_self_nonneg y]

theorem naiveOffsets_length_le (mapSize radius cx cy : ℤ) (hr : 0 ≤ radius) :
    (naiveOffsets mapSize radius cx cy).length ≤ (radius * radius * 4).toNat := by
  have hnd : (naiveOffsets mapSize radius cx cy).Nodup :=
    List.Nodup.filter _ (squareOffsets_nodup radius)
  have hsub : (naiveOffsets mapSize radius cx cy).toFinset ⊆
      Finset.Icc (-(radius - 1)) (radius - 1) ×ˢ Finset.Icc (-(radius - 1)) (radius - 1) := by
    intro o ho
    rw [List.mem_toFinset] at ho
    have hb : inBrush mapSize radius cx cy o = true := (List.mem_filter.mp ho).2
    unfold inBrush at hb
    simp only [Bool.and_eq_true, decide_eq_true_eq] at hb
    have h1 := disc_bound hr hb.1
    have h2 := disc_bound (x := o.2) (y := o.1) hr (by linarith [hb.1])
    simp only [Finset.mem_product, Finset.mem_Icc]
    exact ⟨h1, h2⟩
  have hcard := Finset.card_le_card hsub
  rw [List.toFinset_card_of_nodup hnd, Finset.card_product, Int.card_Icc] at hcard
  obtain ⟨n, rfl⟩ := Int.eq_ofNat_of_zero_le hr
  have e1 : ((n : ℤ) - 1 + 1 - -((n : ℤ) - 1)).toNat = 2 * n - 1 := by omega
  have e2 : ((n : ℤ) * n * 4).toNat = n * n * 4 := by
    have : ((n : ℤ) * n * 4) = ((n * n * 4 : ℕ) : ℤ) := by push_cast; ring
    rw [this, Int.toNat_natCast]
  rw [e1] at hcard
  rw [e2]
  calc (naiveOffsets mapSize (n : ℤ) cx cy).length ≤ (2 * n - 1) * (2 * n - 1) := hcard
    _ ≤ (2 * n) * (2 * n) := Nat.mul_le_mul (Nat.sub_le _ _) (Nat.sub_le _ _)
    _ = n * n * 4 := by ring

theorem scanBrush_holds (sqrt : α → α) (mapSize radius cx cy : ℤ) (hr : 0 ≤ radius)
    (s : BrushScratch α)
    (hx : s.xOffsets.length = (radius * radius * 4).toNat)
    (hy : s.yOffsets.length = (radius * radius * 4).toNat)
    (hw : s.weights.length = (radius * radius * 4).toNat) :
    ScratchHolds sqrt radius (radius * radius * 4).toNat
      (scanBrush sqrt mapSize radius cx cy s) (naiveOffsets mapSize radius cx cy) := by
  rw [scanBrush_eq]
  have h0 : ScratchHolds sqrt radius (radius * radius * 4).toNat
      { s with weightSum := 0, addIndex := 0 } [] :=
    ⟨hx, hy, hw, rfl, by simp, by simp, by simp, by simp⟩
  have := scan_foldl sqrt mapSize radius cx cy _ (squareOffsets radius) _ [] h0
    (by simpa using naiveOffsets_length_le mapSize radius cx cy hr)
  simpa [naiveOffsets] using this

/-! ## The cell loop -/

theorem getD_of_take {β : Type} (l m : List β) (k : ℕ) (h : l.take k = m) (j : ℕ)
    (hj : j < m.length) (d : β) : l.getD j d = m[j] := by
  have hjk : j < k := by
    rw [← h, List.length_take] at hj
    omega
  have h1 : l[j]? = some m[j] := by
    rw [← List.getElem?_take_of_lt hjk, h, List.getElem?_eq_getElem hj]
  rw [List.getD_eq_getElem?_getD, h1]
  rfl

theorem entry_indices (sqrt : α → α) (mapSize radius cx cy : ℤ) (cap : ℕ)
    (s : BrushScratch α) (offs : List (ℤ × ℤ)) (h : ScratchHolds sqrt radius cap s offs) :
    (List.range s.addIndex).map
        (fun j => (s.yOffsets.getD j 0 + cy) * mapSize + s.xOffsets.getD j 0 + cx) =
      offs.map (fun o => (cy + o.2) * mapSize + (cx + o.1)) := by
  apply List.ext_getElem
  · simp [h.count]
  · intro n h1 h2
    have hn : n < offs.length := by simpa using h2
    have ex := getD_of_take _ _ _ h.xs n (by simpa using hn) 0
    have ey := getD_of_take _ _ _ h.ys n (by simpa using hn) 0
    simp only [List.getElem_map, List.getElem_range, ex, ey]
    ring

theorem entry_weights (sqrt : α → α) (radius : ℤ) (cap : ℕ)
    (s : BrushScratch α) (offs : List (ℤ × ℤ)) (h : ScratchHolds sqrt radius cap s offs) :
    (List.range s.addIndex).map (fun j => s.weights.getD j 0 / s.weightSum) =
      (offs.map (rawWeight sqrt radius)).map
        (fun w => w / (offs.map (rawWeight sqrt radius)).sum) := by
  apply List.ext_getElem
  · simp [h.count]
  · intro n h1 h2
    have hn : n < offs.length := by simpa using h2
    have ew := getD_of_take _ _ _ h.ws n (by simpa using hn) 0
    simp only [List.getElem_map, List.getElem_range, ew, h.total]

theorem interior_offsets_succ (mapSize radius : ℤ) (hm : 1 ≤ mapSize) (hr : 0 ≤ radius)
    (a : ℕ) (hint : ¬ recomputed mapSize radius (a + 1)) :
    naiveOffsets mapSize radius (Int.tmod ((a + 1 : ℕ) : ℤ) mapSize)
        (Int.tdiv ((a + 1 : ℕ) : ℤ) mapSize) =
      naiveOffsets mapSize radius (Int.tmod (a : ℤ) mapSize) (Int.tdiv (a : ℤ) mapSize) := by
  unfold recomputed at hint
  rw [Int.tmod_eq_emod (by positivity) (by omega),
    Int.tdiv_eq_ediv (by positivity) (by omega)] at hint ⊢
  rw [Int.tmod_eq_emod (by positivity) (by omega),
    Int.tdiv_eq_ediv (by positivity) (by omega)]
  have hsum := Int.emod_add_ediv ((a + 1 : ℕ) : ℤ) mapSize
  generalize ((a + 1 : ℕ) : ℤ) % mapSize = c at hint hsum ⊢
  generalize ((a + 1 : ℕ) : ℤ) / mapSize = q at hint hsum ⊢
  have hprev : (a : ℤ) / mapSize = q ∧ (a : ℤ) % mapSize = c - 1 := by
    rw [Int.ediv_emod_unique (by omega)]
    push_cast at hsum
    refine ⟨by linarith, by omega, by omega⟩
  rw [hprev.1, hprev.2]
  unfold naiveOffsets
  apply List.filter_congr
  intro o _
  rw [Bool.eq_iff_iff]
  unfold inBrush
  simp only [Bool.and_eq_true, decide_eq_true_eq]
  constructor
  · rintro ⟨h1, _⟩
    have b1 := disc_bound hr h1
    have b2 := disc_bound (x := o.2) (y := o.1) hr (by linarith)
    exact ⟨h1, by omega⟩
  · rintro ⟨h1, _⟩
    have b1 := disc_bound hr h1
    have b2 := disc_bound (x := o.2) (y := o.1) hr (by linarith)
    exact ⟨h1, by omega⟩

theorem brushCells_spec (sqrt : α → α) (mapSize radius : ℤ) (hm : 1 ≤ mapSize)
    (hr : 0 ≤ radius) (k : ℕ) :
    ∀ (a : ℕ) (s : BrushScratch α),
      s.xOffsets.length = (radius * radius * 4).toNat →
      s.yOffsets.length = (radius * radius * 4).toNat →
      s.weights.length = (radius * radius * 4).toNat →
      (¬ recomputed mapSize radius a →
        ScratchHolds sqrt radius (radius * radius * 4).toNat s
          (naiveOffsets mapSize radius (Int.tmod (a : ℤ) mapSize) (Int.tdiv (a : ℤ) mapSize))) →
      brushCells sqrt mapSize radius (List.range' a k) s =
        ((List.range' a k).map (fun (i : ℕ) => naiveBrushIndices mapSize radius
            (Int.tmod (i : ℤ) mapSize) (Int.tdiv (i : ℤ) mapSize)),
         (List.range' a k).map (fun (i : ℕ) => naiveBrushWeights sqrt mapSize radius
            (Int.tmod (i : ℤ) mapSize) (Int.tdiv (i : ℤ) mapSize))) := by
  induction k with
  | zero => intro a s _ _ _ _; rfl
  | succ k ih =>
    intro a s hx hy hw hinv
    have hcell : ScratchHolds sqrt radius (radius * radius * 4).toNat
        (brushCell sqrt mapSize radius s a).1
        (naiveOffsets mapSize radius (Int.tmod (a : ℤ) mapSize)
          (Int.tdiv (a : ℤ) mapSize)) := by
      unfold brushCell
      by_cases hb : recomputed mapSize radius a
      · simp only [recomputed] at hb
        simp only [if_pos hb]
        exact scanBrush_holds sqrt mapSize radius _ _ hr s hx hy hw
      · have hinv := hinv hb
        simp only [recomputed] at hb
        simp only [if_neg hb]
        exact hinv
    have hidx : (brushCell sqrt mapSize radius s a).2.1 =
        naiveBrushIndices mapSize radius (Int.tmod (a : ℤ) mapSize)
          (Int.tdiv (a : ℤ) mapSize) :=
      entry_indices sqrt mapSize radius _ _ _ _ _ hcell
    have hwts : (brushCell sqrt mapSize radius s a).2.2 =
        naiveBrushWeights sqrt mapSize radius (Int.tmod (a : ℤ) mapSize)
          (Int.tdiv (a : ℤ) mapSize) :=
      entry_weights sqrt radius _ _ _ hcell
    have hrec := ih (a + 1) (brushCell sqrt mapSize radius s a).1 hcell.lenX hcell.lenY
      hcell.lenW (fun hint => by
        rw [interior_offsets_succ mapSize radius hm hr a hint]
        exact hcell)
    rw [List.range'_succ]
    simp only [brushCells, hrec, hidx, hwts, List.map_cons]

/-! ## The tables of `InitializeBrushIndices` -/

theorem InitializeBrushIndices_eq (sqrt : α → α) (mapSize radius : ℤ) (hm : 1 ≤ mapSize)
    (hr : 0 ≤ radius) :
    InitializeBrushIndices sqrt mapSize radius =
      ((List.range (mapSize * mapSize).toNat).map (fun (i : ℕ) =>
          naiveBrushIndices mapSize radius (Int.tmod (i : ℤ) mapSize)
            (Int.tdiv (i : ℤ) mapSize)),
       (List.range (mapSize * mapSize).toNat).map (fun (i : ℕ) =>
          naiveBrushWeights sqrt mapSize radius (Int.tmod (i : ℤ) mapSize)
            (Int.tdiv (i : ℤ) mapSize))) := by
  unfold InitializeBrushIndices
  rw [List.range_eq_range']
  apply brushCells_spec sqrt mapSize radius hm hr
  · simp
  · simp
  · simp
  · intro hint
    exfalso
    apply hint
    unfold recomputed
    right; right; left
    simpa using hr

theorem cell_coords (mapSize cx cy : ℤ) (hx : 0 ≤ cx) (hx' : cx < mapSize) (hy : 0 ≤ cy) :
    Int.tmod (((cy * mapSize + cx).toNat : ℕ) : ℤ) mapSize = cx ∧
      Int.tdiv (((cy * mapSize + cx).toNat : ℕ) : ℤ) mapSize = cy := by
  have h0 : 0 ≤ cy * mapSize + cx := by nlinarith
  rw [Int.toNat_of_nonneg h0, Int.tmod_eq_emod h0 (by omega), Int.tdiv_eq_ediv h0 (by omega)]
  have := (Int.ediv_emod_unique (a := cy * mapSize + cx) (b := mapSize) (r := cx) (q := cy)
    (by omega)).2 ⟨by ring, hx, hx'⟩
  exact ⟨this.2, this.1⟩

theorem cell_index_lt (mapSize cx cy : ℤ) (hx : 0 ≤ cx) (hx' : cx < mapSize) (hy : 0 ≤ cy)
    (hy' : cy < mapSize) : (cy * mapSize + cx).toNat < (mapSize * mapSize).toNat := by
  have h0 : 0 ≤ cy * mapSize + cx := by nlinarith
  have h1 : cy * mapSize + cx < mapSize * mapSize := by nlinarith
  omega

theorem brush_entry_at (sqrt : α → α) (mapSize radius : ℤ) (hm : 1 ≤ mapSize)
    (hr : 0 ≤ radius) (cx cy : ℤ) (hx : 0 ≤ cx) (hx' : cx < mapSize) (hy : 0 ≤ cy)
    (hy' : cy < mapSize) :
    (InitializeBrushIndices sqrt mapSize radius).1[(cy * mapSize + cx).toNat]? =
        some (naiveBrushIndices mapSize radius cx cy) ∧
      (InitializeBrushIndices sqrt mapSize radius).2[(cy * mapSize + cx).toNat]? =
        some (naiveBrushWeights sqrt mapSize radius cx cy) := by
  rw [InitializeBrushIndices_eq sqrt mapSize radius hm hr]
  have hlt := cell_index_lt mapSize cx cy hx hx' hy hy'
  have hc := cell_coords mapSize cx cy hx hx' hy
  simp only [List.getElem?_map, List.getElem?_range hlt, Option.map_some', hc.1, hc.2,
    and_self]

/-! ## Weights of a brush entry -/

theorem rawWeight_pos (sqrt : α → α) (hs : IsSqrt sqrt) (radius : ℤ) (hr : 1 ≤ radius)
    (o : ℤ × ℤ) (ho : o.1 * o.1 + o.2 * o.2 < radius * radius) :
    0 < rawWeight sqrt radius o := by
  unfold rawWeight
  have hrpos : (0 : α) < (radius : α) := by exact_mod_cast (by omega : (0 : ℤ) < radius)
  have hd0 : (0 : α) ≤ ((o.1 * o.1 + o.2 * o.2 : ℤ) : α) := by
    exact_mod_cast (by nlinarith [mul_self_nonneg o.1, mul_self_nonneg o.2] :
      (0 : ℤ) ≤ o.1 * o.1 + o.2 * o.2)
  have hlt : ((o.1 * o.1 + o.2 * o.2 : ℤ) : α) < (radius : α) * (radius : α) := by
    exact_mod_cast ho
  have hsq := hs.mul_self _ hd0
  have hn := hs.nonneg ((o.1 * o.1 + o.2 * o.2 : ℤ) : α)
  have hroot : sqrt ((o.1 * o.1 + o.2 * o.2 : ℤ) : α) < (radius : α) := by
    by_contra hc
    push_neg at hc
    have := mul_le_mul hc hc hrpos.le hn
    linarith
  have : sqrt ((o.1 * o.1 + o.2 * o.2 : ℤ) : α) / (radius : α) < 1 :=
    (div_lt_one hrpos).2 hroot
  linarith

theorem origin_mem_naiveOffsets (mapSize radius cx cy : ℤ) (hr : 1 ≤ radius) (hx : 0 ≤ cx)
    (hx' : cx < mapSize) (hy : 0 ≤ cy) (hy' : cy < mapSize) :
    ((0 : ℤ), (0 : ℤ)) ∈ naiveOffsets mapSize radius cx cy := by
  unfold naiveOffsets
  rw [List.mem_filter]
  refine ⟨mem_squareOffsets.2 ⟨⟨by simp; omega, by simp; omega⟩, ⟨by simp; omega, by simp; omega⟩⟩, ?_⟩
  unfold inBrush
  simp only [Bool.and_eq_true, decide_eq_true_eq]
  refine ⟨by nlinarith, by omega⟩

theorem sum_map_div (l : List α) (c : α) : (l.map (fun w => w / c)).sum = l.sum / c := by
  induction l with
  | nil => simp
  | cons a l ih => simp [ih, add_div]

theorem naiveBrushWeights_normalized (sqrt : α → α) (hs : IsSqrt sqrt) (mapSize radius : ℤ)
    (hr : 1 ≤ radius) (cx cy : ℤ) (hx : 0 ≤ cx) (hx' : cx < mapSize) (hy : 0 ≤ cy)
    (hy' : cy < mapSize) :
    (∀ w ∈ naiveBrushWeights sqrt mapSize radius cx cy, 0 < w) ∧
      (naiveBrushWeights sqrt mapSize radius cx cy).sum = 1 := by
  have hpos : ∀ w ∈ (naiveOffsets mapSize radius cx cy).map (rawWeight sqrt radius), 0 < w := by
    intro w hw
    obtain ⟨o, ho, rfl⟩ := List.mem_map.1 hw
    have hb : inBrush mapSize radius cx cy o = true := (List.mem_filter.mp ho).2
    unfold inBrush at hb
    simp only [Bool.and_eq_true, decide_eq_true_eq] at hb
    exact rawWeight_pos sqrt hs radius hr o hb.1
  have hne : (naiveOffsets mapSize radius cx cy).map (rawWeight sqrt radius) ≠ [] := by
    intro h
    have := origin_mem_naiveOffsets mapSize radius cx cy hr hx hx' hy hy'
    rw [List.map_eq_nil_iff] at h
    rw [h] at this
    simp at this
  have hsum := List.sum_pos _ hpos hne
  unfold naiveBrushWeights
  constructor
  · intro w hw
    obtain ⟨v, hv, rfl⟩ := List.mem_map.1 hw
    exact div_pos (hpos v hv) hsum
  · rw [sum_map_div]
    exact div_self hsum.ne'

end BrushLemmas

section RemapLemmas

variable {α : Type} [LinearOrderedField α]

/-! ## `RemapValue` and `Remap` -/

theorem RemapValue_cases (value : α) :
    RemapValue value =
      if value < 0 then value
      else if value < 15 / 100 then Lerp 0 (16 / 100) ((value - 0) / (15 / 100 - 0))
      else if value < 2 / 10 then
        Lerp (16 / 100) (16 / 100) ((value - 15 / 100) / (2 / 10 - 15 / 100))
      else if value < 1 then Lerp (16 / 100) 1 ((value - 2 / 10) / (1 - 2 / 10))
      else value := by
  simp [RemapValue, remapScan, remapPoints, pointAt, List.range']

theorem RemapValue_linear (value : α) :
    RemapValue value =
      if value < 0 then value
      else if value < 15 / 100 then 16 / 15 * value
      else if value < 2 / 10 then 16 / 100
      else if value < 1 then 16 / 100 + 21 / 20 * (value - 2 / 10)
      else value := by
  rw [RemapValue_cases]
  unfold Lerp
  congr 1
  congr 1
  · ring
  congr 1
  · ring
  congr 1
  · ring

theorem RemapValue_mono (a b : α) (ha : 0 ≤ a) (hab : a ≤ b) :
    RemapValue a ≤ RemapValue b := by
  rw [RemapValue_linear, RemapValue_linear]
  split_ifs <;> linarith

theorem RemapValue_band (x : α) (h1 : 15 / 100 ≤ x) (h2 : x ≤ 2 / 10) :
    RemapValue x = 16 / 100 := by
  rw [RemapValue_linear, if_neg (by linarith), if_neg (by linarith)]
  by_cases h : x < 2 / 10
  · rw [if_pos h]
  · rw [if_neg h, if_pos (by linarith)]
    have : x = 2 / 10 := le_antisymm h2 (not_lt.1 h)
    rw [this]
    norm_num

theorem RemapValue_segment (x : α) (k : ℕ) (hk : k < 3)
    (hp : (pointAt remapPoints k).x ≤ x) (hq : x ≤ (pointAt remapPoints (k + 1)).x) :
    RemapValue x = segmentValue (pointAt remapPoints k) (pointAt remapPoints (k + 1)) x := by
  unfold segmentValue
  interval_cases k
  · simp only [pointAt, remapPoints, List.getD_cons_zero, List.getD_cons_succ] at hp hq ⊢
    rw [RemapValue_linear, if_neg (by linarith)]
    by_cases h : x < 15 / 100
    · rw [if_pos h]
      field_simp
      ring
    · have hx : x = 15 / 100 := le_antisymm hq (not_lt.1 h)
      rw [hx]
      norm_num
  · simp only [pointAt, remapPoints, List.getD_cons_zero, List.getD_cons_succ] at hp hq ⊢
    rw [RemapValue_band x hp hq]
    norm_num
  · simp only [pointAt, remapPoints, List.getD_cons_zero, List.getD_cons_succ] at hp hq ⊢
    rw [RemapValue_linear, if_neg (by linarith), if_neg (by linarith), if_neg (by linarith)]
    by_cases h : x < 1
    · rw [if_pos h]
      field_simp
      ring
    · have hx : x = 1 := le_antisymm hq (not_lt.1 h)
      rw [hx]
      norm_num

theorem remapCells_spec (k : ℕ) :
    ∀ (a : ℕ) (map : List α), a + k ≤ map.length →
      ∃ r, remapCells (List.range' a k) map = some r ∧ r.length = map.length ∧
        ∀ i, r[i]? = if a ≤ i ∧ i < a + k then (map[i]?).map RemapValue else map[i]? := by
  induction k with
  | zero =>
    intro a map _
    exact ⟨map, rfl, rfl, fun i => by rw [if_neg (by omega)]⟩
  | succ k ih =>
    intro a map h
    have ha : a < map.length := by omega
    obtain ⟨r, hr, hlen, hget⟩ := ih (a + 1) (map.set a (RemapValue map[a])) (by simp; omega)
    refine ⟨r, ?_, by simpa using hlen, ?_⟩
    · rw [List.range'_succ]
      simp only [remapCells, List.getElem?_eq_getElem ha]
      exact hr
    · intro i
      rw [hget i, List.getElem?_set]
      by_cases hi : a = i
      · subst hi
        simp [ha]
      · by_cases h2 : a + 1 ≤ i ∧ i < a + 1 + k
        · have h3 : a ≤ i ∧ i < a + (k + 1) := by omega
          simp [hi, h2, h3]
        · have h3 : ¬ (a ≤ i ∧ i < a + (k + 1)) := by omega
          simp [hi, h2, h3]

theorem Remap_spec (map : List α) (mapSize : ℤ) (h : (mapSize * mapSize).toNat ≤ map.length) :
    ∃ r, Remap map mapSize = some r ∧ r.length = map.length ∧
      ∀ i, r[i]? = if i < (mapSize * mapSize).toNat then (map[i]?).map RemapValue
        else map[i]? := by
  unfold Remap
  rw [List.range_eq_range']
  obtain ⟨r, h1, h2, h3⟩ := remapCells_spec (mapSize * mapSize).toNat 0 map (by omega)
  exact ⟨r, h1, h2, fun i => by simpa using h3 i⟩

end RemapLemmas

section VectorLemmas

variable {α : Type} [LinearOrderedField α]

/-! ## Reads and writes of the heightmap -/

theorem length_writeAt {β : Type} (v : List β) (i : ℤ) (a : β) :
    (writeAt v i a).length = v.length := by
  unfold writeAt
  split_ifs <;> simp

theorem getElem?_writeAt_of_ne {β : Type} (v : List β) (i : ℤ) (a : β) (j : ℕ)
    (h : (j : ℤ) ≠ i) : (writeAt v i a)[j]? = v[j]? := by
  unfold writeAt
  split_ifs with h0
  · rw [List.getElem?_set]
    have : i.toNat ≠ j := by omega
    simp [this]
  · rfl

theorem readAt_nonneg (v : List α) (i : ℤ) (h : ∀ x ∈ v, 0 ≤ x) : 0 ≤ readAt v i := by
  unfold readAt
  split_ifs
  · rw [List.getD_eq_getElem?_getD]
    cases hq : v[i.toNat]? with
    | none => simp
    | some x => exact h x (List.getElem?_mem hq)
  · exact le_rfl

theorem writeAt_nonneg (v : List α) (i : ℤ) (a : α) (h : ∀ x ∈ v, 0 ≤ x) (ha : 0 ≤ a) :
    ∀ x ∈ writeAt v i a, 0 ≤ x := by
  unfold writeAt
  split_ifs
  · intro x hx
    rcases List.mem_or_eq_of_mem_set hx with h1 | h1
    · exact h x h1
    · rw [h1]; exact ha
  · exact h

theorem sum_writeAt (v : List α) (i : ℤ) (a : α) (h0 : 0 ≤ i) (h1 : i.toNat < v.length) :
    (writeAt v i a).sum = v.sum - readAt v i + a := by
  unfold writeAt readAt
  rw [if_pos h0, if_pos h0, List.sum_set, if_pos h1, List.getD_eq_getElem _ _ h1]
  have := List.sum_take_add_sum_drop v i.toNat
  rw [List.drop_eq_getElem_cons h1, List.sum_cons] at this
  linarith

theorem readAt_writeAt_self (v : List α) (i : ℤ) (a : α) (h0 : 0 ≤ i)
    (h1 : i.toNat < v.length) : readAt (writeAt v i a) i = a := by
  unfold writeAt readAt
  rw [if_pos h0, if_pos h0, List.getD_eq_getElem?_getD, List.getElem?_set_self h1]
  rfl

theorem readAt_writeAt_of_ne (v : List α) (i j : ℤ) (a : α) (h : j ≠ i) :
    readAt (writeAt v i a) j = readAt v j := by
  unfold readAt
  split_ifs with hj
  · have := getElem?_writeAt_of_ne v i a j.toNat (by omega)
    rw [List.getD_eq_getElem?_getD, List.getD_eq_getElem?_getD, this]
  · rfl

theorem sum_zipWith_sub (v w : List α) (h : v.length = w.length) :
    (List.zipWith (fun a b => a - b) v w).sum = v.sum - w.sum := by
  induction v generalizing w with
  | nil =>
    cases w with
    | nil => simp
    | cons b w => simp at h
  | cons a v ih =>
    cases w with
    | nil => simp at h
    | cons b w =>
      simp only [List.zipWith_cons_cons, List.sum_cons]
      rw [ih w (by simpa using h)]
      ring

theorem foldl_invariant {σ β : Type} (P : σ → Prop) (f : σ → β → σ) (l : List β)
    (hstep : ∀ s a, a ∈ l → P s → P (f s a)) (s : σ) (h : P s) : P (l.foldl f s) := by
  induction l generalizing s with
  | nil => exact h
  | cons a l ih =>
    exact ih (fun s b hb hs => hstep s b (List.mem_cons_of_mem _ hb) hs) _
      (hstep s a (List.mem_cons_self _ _) h)

end VectorLemmas

section ErodeBrushLemmas

variable {α : Type} [LinearOrderedField α]

/-! ## The brush loop of the erode branch -/

theorem erodePoint_length (indices : List ℤ) (weights : List α) (amount : α)
    (st : List α × α) (k : ℕ) :
    (erodePoint indices weights amount st k).1.length = st.1.length := by
  unfold erodePoint
  simp only [length_writeAt]

theorem erodePoint_nonneg (indices : List ℤ) (weights : List α) (amount : α)
    (st : List α × α) (k : ℕ) (h : ∀ x ∈ st.1, 0 ≤ x) :
    ∀ x ∈ (erodePoint indices weights amount st k).1, 0 ≤ x := by
  unfold erodePoint
  apply writeAt_nonneg _ _ _ h
  dsimp only
  split_ifs with hlt
  · simp
  · linarith

theorem erodePoint_sediment_le (indices : List ℤ) (weights : List α) (amount : α)
    (st : List α × α) (k : ℕ) (h : ∀ x ∈ st.1, 0 ≤ x)
    (hw : 0 ≤ amount * weights.getD k 0) :
    st.2 ≤ (erodePoint indices weights amount st k).2 := by
  unfold erodePoint
  dsimp only
  have := readAt_nonneg st.1 (indices.getD k 0) h
  split_ifs <;> linarith

theorem erodePoint_conserve (indices : List ℤ) (weights : List α) (amount : α)
    (st : List α × α) (k : ℕ) (h0 : 0 ≤ indices.getD k 0)
    (h1 : (indices.getD k 0).toNat < st.1.length) :
    (erodePoint indices weights amount st k).2 - st.2 =
      st.1.sum - (erodePoint indices weights amount st k).1.sum := by
  unfold erodePoint
  dsimp only
  rw [sum_writeAt _ _ _ h0 h1]
  ring

theorem erodePoint_frame (indices : List ℤ) (weights : List α) (amount : α)
    (st : List α × α) (k : ℕ) (j : ℕ) (h : (j : ℤ) ≠ indices.getD k 0) :
    (erodePoint indices weights amount st k).1[j]? = st.1[j]? := by
  unfold erodePoint
  exact getElem?_writeAt_of_ne _ _ _ _ h

theorem getD_mem_of_lt {β : Type} (l : List β) (k : ℕ) (d : β) (h : k < l.length) :
    l.getD k d ∈ l := by
  rw [List.getD_eq_getElem _ _ h]
  exact List.getElem_mem h

theorem getD_nonneg_of_forall (l : List α) (k : ℕ) (h : ∀ w ∈ l, 0 ≤ w) : 0 ≤ l.getD k 0 := by
  rw [List.getD_eq_getElem?_getD]
  cases hq : l[k]? with
  | none => simp
  | some x => exact h x (List.getElem?_mem hq)

theorem erodeBrush_nonneg (indices : List ℤ) (weights : List α) (amount : α)
    (mapData : List α) (sediment : α) (h : ∀ x ∈ mapData, 0 ≤ x) :
    ∀ x ∈ (erodeBrush indices weights amount mapData sediment).1, 0 ≤ x := by
  unfold erodeBrush
  exact foldl_invariant (fun st => ∀ x ∈ st.1, 0 ≤ x) (erodePoint indices weights amount)
    (List.range indices.length)
    (fun st k _ hs => erodePoint_nonneg indices weights amount st k hs) (mapData, sediment) h

theorem erodeBrush_sediment_le (indices : List ℤ) (weights : List α) (amount : α)
    (mapData : List α) (sediment : α) (h : ∀ x ∈ mapData, 0 ≤ x) (ha : 0 ≤ amount)
    (hw : ∀ w ∈ weights, 0 ≤ w) :
    sediment ≤ (erodeBrush indices weights amount mapData sediment).2 := by
  unfold erodeBrush
  have := foldl_invariant (fun st => (∀ x ∈ st.1, 0 ≤ x) ∧ sediment ≤ st.2)
    (erodePoint indices weights amount) (List.range indices.length)
    (fun st k _ hs => ⟨erodePoint_nonneg indices weights amount st k hs.1,
      le_trans hs.2 (erodePoint_sediment_le indices weights amount st k hs.1
        (mul_nonneg ha (getD_nonneg_of_forall weights k hw)))⟩)
    (mapData, sediment) ⟨h, le_rfl⟩
  exact this.2

theorem erodeBrush_conserve (indices : List ℤ) (weights : List α) (amount : α)
    (mapData : List α) (sediment : α)
    (hidx : ∀ n ∈ indices, 0 ≤ n ∧ n.toNat < mapData.length) :
    (erodeBrush indices weights amount mapData sediment).1.length = mapData.length ∧
      (erodeBrush indices weights amount mapData sediment).2 - sediment =
        mapData.sum - (erodeBrush indices weights amount mapData sediment).1.sum := by
  unfold erodeBrush
  refine foldl_invariant
    (fun st => st.1.length = mapData.length ∧ st.2 - sediment = mapData.sum - st.1.sum)
    (erodePoint indices weights amount) (List.range indices.length) ?_
    (mapData, sediment) ⟨rfl, by simp⟩
  intro st k hk hs
  have hk' : k < indices.length := List.mem_range.1 hk
  have hin := hidx _ (getD_mem_of_lt indices k 0 hk')
  refine ⟨by rw [erodePoint_length]; exact hs.1, ?_⟩
  have := erodePoint_conserve indices weights amount st k hin.1 (by rw [hs.1]; exact hin.2)
  linarith [hs.2]

theorem erodeBrush_frame (indices : List ℤ) (weights : List α) (amount : α)
    (mapData : List α) (sediment : α) (j : ℕ) (hj : (j : ℤ) ∉ indices) :
    (erodeBrush indices weights amount mapData sediment).1[j]? = mapData[j]? := by
  unfold erodeBrush
  refine foldl_invariant (fun st => st.1[j]? = mapData[j]?)
    (erodePoint indices weights amount) (List.range indices.length) ?_
    (mapData, sediment) rfl
  intro st k hk hs
  have hk' : k < indices.length := List.mem_range.1 hk
  rw [erodePoint_frame indices weights amount st k j ?_, hs]
  intro h
  exact hj (h ▸ getD_mem_of_lt indices k 0 hk')

/-! ## The deposit branch -/

theorem depositSediment_length (mapData : List α) (mapSize dropletIndex : ℤ) (ox oy amount : α) :
    (depositSediment mapData mapSize dropletIndex ox oy amount).length = mapData.length := by
  unfold depositSediment
  simp only [length_writeAt]

theorem depositSediment_nonneg (mapData : List α) (mapSize dropletIndex : ℤ) (ox oy amount : α)
    (h : ∀ x ∈ mapData, 0 ≤ x) (ha : 0 ≤ amount) (hx0 : 0 ≤ ox) (hx1 : ox ≤ 1) (hy0 : 0 ≤ oy)
    (hy1 : oy ≤ 1) :
    ∀ x ∈ depositSediment mapData mapSize dropletIndex ox oy amount, 0 ≤ x := by
  unfold depositSediment
  have hx1' : 0 ≤ 1 - ox := by linarith
  have hy1' : 0 ≤ 1 - oy := by linarith
  have s1 := writeAt_nonneg mapData dropletIndex
    (readAt mapData dropletIndex + amount * (1 - ox) * (1 - oy)) h
    (add_nonneg (readAt_nonneg _ _ h) (mul_nonneg (mul_nonneg ha hx1') hy1'))
  have s2 := writeAt_nonneg _ (dropletIndex + 1)
    (readAt (writeAt mapData dropletIndex
      (readAt mapData dropletIndex + amount * (1 - ox) * (1 - oy))) (dropletIndex + 1) +
      amount * ox * (1 - oy)) s1
    (add_nonneg (readAt_nonneg _ _ s1) (mul_nonneg (mul_nonneg ha hx0) hy1'))
  have s3 := writeAt_nonneg _ (dropletIndex + mapSize) _ s2
    (add_nonneg (readAt_nonneg _ (dropletIndex + mapSize) s2)
      (mul_nonneg (mul_nonneg ha hx1') hy0))
  exact writeAt_nonneg _ (dropletIndex + mapSize + 1) _ s3
    (add_nonneg (readAt_nonneg _ (dropletIndex + mapSize + 1) s3)
      (mul_nonneg (mul_nonneg ha hx0) hy0))

theorem depositSediment_frame (mapData : List α) (mapSize dropletIndex : ℤ) (ox oy amount : α)
    (j : ℕ) (h0 : (j : ℤ) ≠ dropletIndex) (h1 : (j : ℤ) ≠ dropletIndex + 1)
    (h2 : (j : ℤ) ≠ dropletIndex + mapSize) (h3 : (j : ℤ) ≠ dropletIndex + mapSize + 1) :
    (depositSediment mapData mapSize dropletIndex ox oy amount)[j]? = mapData[j]? := by
  unfold depositSediment
  simp only [getElem?_writeAt_of_ne _ _ _ _ h0, getElem?_writeAt_of_ne _ _ _ _ h1,
    getElem?_writeAt_of_ne _ _ _ _ h2, getElem?_writeAt_of_ne _ _ _ _ h3]

theorem depositSediment_corners (mapData : List α) (mapSize dropletIndex : ℤ) (ox oy amount : α)
    (hm : 2 ≤ mapSize) (h0 : 0 ≤ dropletIndex)
    (h1 : (dropletIndex + mapSize + 1).toNat < mapData.length) :
    readAt (depositSediment mapData mapSize dropletIndex ox oy amount) dropletIndex =
        readAt mapData dropletIndex + amount * (1 - ox) * (1 - oy) ∧
      readAt (depositSediment mapData mapSize dropletIndex ox oy amount) (dropletIndex + 1) =
        readAt mapData (dropletIndex + 1) + amount * ox * (1 - oy) ∧
      readAt (depositSediment mapData mapSize dropletIndex ox oy amount)
          (dropletIndex + mapSize) =
        readAt mapData (dropletIndex + mapSize) + amount * (1 - ox) * oy ∧
      readAt (depositSediment mapData mapSize dropletIndex ox oy amount)
          (dropletIndex + mapSize + 1) =
        readAt mapData (dropletIndex + mapSize + 1) + amount * ox * oy := by
  unfold depositSediment
  refine ⟨?_, ?_, ?_, ?_⟩
  · rw [readAt_writeAt_of_ne _ _ _ _ (by omega), readAt_writeAt_of_ne _ _ _ _ (by omega),
      readAt_writeAt_of_ne _ _ _ _ (by omega), readAt_writeAt_self _ _ _ h0 (by omega)]
  · rw [readAt_writeAt_of_ne _ _ _ _ (by omega), readAt_writeAt_of_ne _ _ _ _ (by omega),
      readAt_writeAt_self _ _ _ (by omega) (by rw [length_writeAt]; omega),
      readAt_writeAt_of_ne _ _ _ _ (by omega)]
  · rw [readAt_writeAt_of_ne _ _ _ _ (by omega),
      readAt_writeAt_self _ _ _ (by omega) (by simp only [length_writeAt]; omega),
      readAt_writeAt_of_ne _ _ _ _ (by omega), readAt_writeAt_of_ne _ _ _ _ (by omega)]
  · rw [readAt_writeAt_self _ _ _ (by omega) (by simp only [length_writeAt]; omega),
      readAt_writeAt_of_ne _ _ _ _ (by omega), readAt_writeAt_of_ne _ _ _ _ (by omega),
      readAt_writeAt_of_ne _ _ _ _ (by omega)]

end ErodeBrushLemmas

section DropletLemmas

variable {α : Type} [LinearOrderedField α] [FloorRing α]

/-! ## Casts of a position inside the grid -/

theorem truncInt_of_nonneg (f : α) (h : 0 ≤ f) : truncInt f = ⌊f⌋ := by
  unfold truncInt
  rw [if_pos h]

theorem truncInt_nonneg (f : α) (h : 0 ≤ f) : 0 ≤ truncInt f := by
  rw [truncInt_of_nonneg f h]
  exact Int.floor_nonneg.2 h

theorem truncInt_lt (f : α) (n : ℤ) (h : 0 ≤ f) (hn : f < (n : α)) : truncInt f < n := by
  rw [truncInt_of_nonneg f h]
  exact Int.floor_lt.2 hn

theorem cellOffset_nonneg (f : α) (h : 0 ≤ f) : 0 ≤ f - (truncInt f : α) := by
  rw [truncInt_of_nonneg f h]
  linarith [Int.floor_le f]

theorem cellOffset_lt_one (f : α) (h : 0 ≤ f) : f - (truncInt f : α) < 1 := by
  rw [truncInt_of_nonneg f h]
  linarith [Int.lt_floor_add_one f]

theorem truncInt_intCast (z : ℤ) (h : 0 ≤ z) : truncInt (z : α) = z := by
  rw [truncInt_of_nonneg _ (by exact_mod_cast h), Int.floor_intCast]

/-! ## Inversion of one droplet step -/

theorem dropletStep_deposited (sqrt : α → α) (em : ErosionMaker α) (mapData : List α)
    (mapSize : ℤ) (d d1 : Droplet α) (map1 : List α)
    (h : dropletStep sqrt em mapData mapSize d = StepResult.deposited d1 map1) :
    ¬ stepStops sqrt em mapData mapSize d ∧
      (d.sediment > sedimentCapacity em d (stepDeltaHeight sqrt em mapData mapSize d) ∨
        stepDeltaHeight sqrt em mapData mapSize d > 0) ∧
      d1 = { posX := (stepPos sqrt em mapData mapSize d).1
             posY := (stepPos sqrt em mapData mapSize d).2
             dirX := (stepDir sqrt em mapData mapSize d).1
             dirY := (stepDir sqrt em mapData mapSize d).2
             speed := updateSpeed sqrt d.speed (stepDeltaHeight sqrt em mapData mapSize d)
               em.gravity
             water := d.water * (1 - em.evaporateSpeed)
             sediment := d.sediment -
               amountToDeposit em d (stepDeltaHeight sqrt em mapData mapSize d) } ∧
      map1 = depositSediment mapData mapSize (truncInt d.posY * mapSize + truncInt d.posX)
        (d.posX - (truncInt d.posX : α)) (d.posY - (truncInt d.posY : α))
        (amountToDeposit em d (stepDeltaHeight sqrt em mapData mapSize d)) := by
  unfold dropletStep at h
  dsimp only at h
  split_ifs at h with h1 h2
  · injection h with e1 e2
    exact ⟨h1, h2, e1.symm, e2.symm⟩

theorem dropletStep_eroded (sqrt : α → α) (em : ErosionMaker α) (mapData : List α)
    (mapSize : ℤ) (d d1 : Droplet α) (map1 : List α)
    (h : dropletStep sqrt em mapData mapSize d = StepResult.eroded d1 map1) :
    ¬ stepStops sqrt em mapData mapSize d ∧
      ¬ (d.sediment > sedimentCapacity em d (stepDeltaHeight sqrt em mapData mapSize d) ∨
        stepDeltaHeight sqrt em mapData mapSize d > 0) ∧
      d1 = { posX := (stepPos sqrt em mapData mapSize d).1
             posY := (stepPos sqrt em mapData mapSize d).2
             dirX := (stepDir sqrt em mapData mapSize d).1
             dirY := (stepDir sqrt em mapData mapSize d).2
             speed := updateSpeed sqrt d.speed (stepDeltaHeight sqrt em mapData mapSize d)
               em.gravity
             water := d.water * (1 - em.evaporateSpeed)
             sediment := (erodeBrush
               (entryAt (em.erosionBrushIndices.getD [])
                 (truncInt d.posY * mapSize + truncInt d.posX))
               (entryAt (em.erosionBrushWeights.getD [])
                 (truncInt d.posY * mapSize + truncInt d.posX))
               (amountToErode em d (stepDeltaHeight sqrt em mapData mapSize d))
               mapData d.sediment).2 } ∧
      map1 = (erodeBrush
        (entryAt (em.erosionBrushIndices.getD []) (truncInt d.posY * mapSize + truncInt d.posX))
        (entryAt (em.erosionBrushWeights.getD []) (truncInt d.posY * mapSize + truncInt d.posX))
        (amountToErode em d (stepDeltaHeight sqrt em mapData mapSize d))
        mapData d.sediment).1 := by
  unfold dropletStep at h
  dsimp only at h
  split_ifs at h with h1 h2
  · injection h with e1 e2
    exact ⟨h1, h2, e1.symm, e2.symm⟩

end DropletLemmas

section InvariantLemmas

variable {α : Type} [LinearOrderedField α]

/-! ## The brush cache -/

theorem cacheFor_rebuild_or_keep (sqrt : α → α) (em : ErosionMaker α) (mapSize : ℤ)
    (h : CacheValid sqrt em) :
    CacheFor sqrt
      (if em.erosionBrushIndices.isNone ∨ em.currentErosionRadius ≠ em.erosionRadius ∨
          em.currentMapSize ≠ mapSize then
        { em with
          erosionBrushIndices := some (InitializeBrushIndices sqrt mapSize em.erosionRadius).1
          erosionBrushWeights := some (InitializeBrushIndices sqrt mapSize em.erosionRadius).2
          currentErosionRadius := em.erosionRadius
          currentMapSize := mapSize }
      else em) mapSize := by
  split_ifs with hc
  · exact ⟨rfl, rfl⟩
  · push_neg at hc
    obtain ⟨h1, h2, h3⟩ := hc
    rcases h with h | h
    · simp [h] at h1
    · unfold CacheFor
      rw [← h2, ← h3]
      exact h

theorem Initialize_cacheFor (sqrt : α → α) (em : ErosionMaker α) (mapSize : ℤ)
    (resetSeed : Bool) (now : ℕ) (h : CacheValid sqrt em) :
    CacheFor sqrt (Initialize sqrt em mapSize resetSeed now) mapSize := by
  cases resetSeed
  · exact cacheFor_rebuild_or_keep sqrt em mapSize h
  · exact cacheFor_rebuild_or_keep sqrt { em with currentSeed := (now : ℤ) } mapSize h

theorem Initialize_params (sqrt : α → α) (em : ErosionMaker α) (mapSize : ℤ)
    (resetSeed : Bool) (now : ℕ) :
    (Initialize sqrt em mapSize resetSeed now).erosionRadius = em.erosionRadius ∧
      (Initialize sqrt em mapSize resetSeed now).inertia = em.inertia ∧
      (Initialize sqrt em mapSize resetSeed now).sedimentCapacityFactor =
        em.sedimentCapacityFactor ∧
      (Initialize sqrt em mapSize resetSeed now).minSedimentCapacity = em.minSedimentCapacity ∧
      (Initialize sqrt em mapSize resetSeed now).erodeSpeed = em.erodeSpeed ∧
      (Initialize sqrt em mapSize resetSeed now).depositSpeed = em.depositSpeed ∧
      (Initialize sqrt em mapSize resetSeed now).evaporateSpeed = em.evaporateSpeed ∧
      (Initialize sqrt em mapSize resetSeed now).gravity = em.gravity ∧
      (Initialize sqrt em mapSize resetSeed now).maxDropletLifetime = em.maxDropletLifetime ∧
      (Initialize sqrt em mapSize resetSeed now).initialWaterVolume = em.initialWaterVolume ∧
      (Initialize sqrt em mapSize resetSeed now).initialSpeed = em.initialSpeed := by
  unfold Initialize
  cases resetSeed <;> simp only [Bool.false_eq_true, ↓reduceIte] <;> split_ifs <;> simp

theorem GetInstance_cacheValid (sqrt : α → α) : CacheValid sqrt (GetInstance : ErosionMaker α) :=
  Or.inl rfl

theorem Initialize_cacheValid (sqrt : α → α) (em : ErosionMaker α) (mapSize : ℤ)
    (resetSeed : Bool) (now : ℕ) (h : CacheValid sqrt em) :
    CacheValid sqrt (Initialize sqrt em mapSize resetSeed now) := by
  have hc := Initialize_cacheFor sqrt em mapSize resetSeed now h
  unfold CacheFor at hc
  unfold CacheValid
  right
  unfold Initialize at hc ⊢
  cases resetSeed <;> simp only [Bool.false_eq_true, ↓reduceIte] at hc ⊢ <;>
    split_ifs at hc ⊢ with hcond
  · exact hc
  · push_neg at hcond
    rw [hcond.2.1, hcond.2.2]
    exact hc
  · exact hc
  · push_neg at hcond
    dsimp only at hcond hc ⊢
    rw [hcond.2.1, hcond.2.2]
    exact hc

theorem entryAt_mem_or_nil {β : Type} (table : List (List β)) (i : ℤ) :
    entryAt table i = [] ∨ ∃ k, k < table.length ∧ table[k]? = some (entryAt table i) := by
  unfold entryAt
  split_ifs with h
  · by_cases hk : i.toNat < table.length
    · right
      exact ⟨i.toNat, hk, by
        rw [List.getD_eq_getElem _ _ hk, List.getElem?_eq_getElem hk]⟩
    · left
      rw [List.getD_eq_getElem?_getD, List.getElem?_eq_none (by omega)]
      rfl
  · left; rfl

theorem cell_in_grid (mapSize : ℤ) (hm : 1 ≤ mapSize) (k : ℕ)
    (hk : k < (mapSize * mapSize).toNat) :
    (0 ≤ Int.tmod (k : ℤ) mapSize ∧ Int.tmod (k : ℤ) mapSize < mapSize) ∧
      (0 ≤ Int.tdiv (k : ℤ) mapSize ∧ Int.tdiv (k : ℤ) mapSize < mapSize) := by
  rw [Int.tmod_eq_emod (by positivity) (by omega), Int.tdiv_eq_ediv (by positivity) (by omega)]
  have hk' : (k : ℤ) < mapSize * mapSize := by omega
  refine ⟨⟨Int.emod_nonneg _ (by omega), Int.emod_lt_of_pos _ (by omega)⟩,
    ⟨Int.ediv_nonneg (by positivity) (by omega), Int.ediv_lt_of_lt_mul (by omega) hk'⟩⟩

theorem cache_weights_pos (sqrt : α → α) (hs : IsSqrt sqrt) (em : ErosionMaker α)
    (mapSize : ℤ) (hm : 1 ≤ mapSize) (hr : 1 ≤ em.erosionRadius)
    (hc : CacheFor sqrt em mapSize) (i : ℤ) :
    ∀ w ∈ entryAt (em.erosionBrushWeights.getD []) i, 0 < w := by
  rw [hc.2, Option.getD_some]
  rcases entryAt_mem_or_nil (InitializeBrushIndices sqrt mapSize em.erosionRadius).2 i with
    h | ⟨k, hk, hget⟩
  · rw [h]; simp
  · rw [InitializeBrushIndices_eq sqrt mapSize em.erosionRadius hm (by omega)] at hk hget
    simp only [List.length_map, List.length_range] at hk
    simp only [List.getElem?_map, List.getElem?_range hk, Option.map_some',
      Option.some.injEq] at hget
    rw [InitializeBrushIndices_eq sqrt mapSize em.erosionRadius hm (by omega)]
    rw [← hget]
    have hg := cell_in_grid mapSize hm k hk
    exact (naiveBrushWeights_normalized sqrt hs mapSize em.erosionRadius hr _ _ hg.1.1 hg.1.2
      hg.2.1 hg.2.2).1

theorem naiveBrushIndices_range (mapSize radius cx cy : ℤ) :
    ∀ n ∈ naiveBrushIndices mapSize radius cx cy, 0 ≤ n ∧ n < mapSize * mapSize := by
  intro n hn
  unfold naiveBrushIndices at hn
  obtain ⟨o, ho, rfl⟩ := List.mem_map.1 hn
  have hb : inBrush mapSize radius cx cy o = true := (List.mem_filter.mp ho).2
  unfold inBrush at hb
  simp only [Bool.and_eq_true, decide_eq_true_eq] at hb
  obtain ⟨_, h1, h2, h3, h4⟩ := hb
  constructor
  · nlinarith
  · nlinarith

theorem cache_indices_range (sqrt : α → α) (em : ErosionMaker α)
    (mapSize : ℤ) (hm : 1 ≤ mapSize) (hr : 0 ≤ em.erosionRadius)
    (hc : CacheFor sqrt em mapSize) (i : ℤ) :
    ∀ n ∈ entryAt (em.erosionBrushIndices.getD []) i, 0 ≤ n ∧ n < mapSize * mapSize := by
  rw [hc.1, Option.getD_some]
  rcases entryAt_mem_or_nil (InitializeBrushIndices sqrt mapSize em.erosionRadius).1 i with
    h | ⟨k, hk, hget⟩
  · rw [h]; simp
  · rw [InitializeBrushIndices_eq sqrt mapSize em.erosionRadius hm hr] at hk hget
    simp only [List.length_map, List.length_range] at hk
    simp only [List.getElem?_map, List.getElem?_range hk, Option.map_some',
      Option.some.injEq] at hget
    rw [InitializeBrushIndices_eq sqrt mapSize em.erosionRadius hm hr]
    rw [← hget]
    exact naiveBrushIndices_range mapSize em.erosionRadius _ _

/-! ## Amounts moved by one step -/

theorem amountToDeposit_bounds (em : ErosionMaker α) (d : Droplet α) (deltaHeight : α)
    (hsed : 0 ≤ d.sediment) (hd0 : 0 ≤ em.depositSpeed) (hd1 : em.depositSpeed ≤ 1)
    (hc : 0 ≤ em.minSedimentCapacity)
    (hb : d.sediment > sedimentCapacity em d deltaHeight ∨ deltaHeight > 0) :
    0 ≤ amountToDeposit em d deltaHeight ∧ amountToDeposit em d deltaHeight ≤ d.sediment := by
  unfold amountToDeposit
  split_ifs with h
  · exact ⟨le_min h.le hsed, min_le_right _ _⟩
  · have hgt : d.sediment > sedimentCapacity em d deltaHeight := by
      rcases hb with hb | hb
      · exact hb
      · exact absurd hb h
    have hcap : em.minSedimentCapacity ≤ sedimentCapacity em d deltaHeight := le_max_right _ _
    have hpos : 0 ≤ d.sediment - sedimentCapacity em d deltaHeight := by linarith
    constructor
    · exact mul_nonneg hpos hd0
    · have := mul_le_mul_of_nonneg_left hd1 hpos
      linarith

theorem amountToErode_nonneg (em : ErosionMaker α) (d : Droplet α) (deltaHeight : α)
    (he : 0 ≤ em.erodeSpeed)
    (hb : ¬ (d.sediment > sedimentCapacity em d deltaHeight ∨ deltaHeight > 0)) :
    0 ≤ amountToErode em d deltaHeight := by
  push_neg at hb
  unfold amountToErode
  exact le_min (mul_nonneg (by linarith [hb.1]) he) (by linarith [hb.2])

theorem spawnDroplet_pos (em : ErosionMaker α) (mapSize : ℤ) (rnd : ℕ → ℕ) (iteration : ℕ) :
    0 ≤ (spawnDroplet em mapSize rnd iteration).posX ∧
      0 ≤ (spawnDroplet em mapSize rnd iteration).posY ∧
      (spawnDroplet em mapSize rnd iteration).sediment = 0 := by
  unfold spawnDroplet
  refine ⟨?_, ?_, rfl⟩
  · dsimp only
    have : 0 ≤ Int.tmod (rnd (2 * iteration) : ℤ) (mapSize - 1) + 0 := by
      have := Int.tmod_nonneg (mapSize - 1) (Int.natCast_nonneg (rnd (2 * iteration)))
      omega
    exact_mod_cast this
  · dsimp only
    have : 0 ≤ Int.tmod (rnd (2 * iteration + 1) : ℤ) (mapSize - 1) + 0 := by
      have := Int.tmod_nonneg (mapSize - 1) (Int.natCast_nonneg (rnd (2 * iteration + 1)))
      omega
    exact_mod_cast this

theorem spawnDroplet_range (em : ErosionMaker α) (mapSize : ℤ) (hm : 2 ≤ mapSize)
    (rnd : ℕ → ℕ) (iteration : ℕ) :
    (0 ≤ (spawnDroplet em mapSize rnd iteration).posX ∧
        (spawnDroplet em mapSize rnd iteration).posX < ((mapSize - 1 : ℤ) : α)) ∧
      (0 ≤ (spawnDroplet em mapSize rnd iteration).posY ∧
        (spawnDroplet em mapSize rnd iteration).posY < ((mapSize - 1 : ℤ) : α)) := by
  have hp := spawnDroplet_pos em mapSize rnd iteration
  refine ⟨⟨hp.1, ?_⟩, ⟨hp.2.1, ?_⟩⟩
  · unfold spawnDroplet
    dsimp only
    have : Int.tmod (rnd (2 * iteration) : ℤ) (mapSize - 1) + 0 < mapSize - 1 := by
      have := Int.tmod_lt_of_pos (rnd (2 * iteration) : ℤ) (by omega : 0 < mapSize - 1)
      omega
    exact_mod_cast this
  · unfold spawnDroplet
    dsimp only
    have : Int.tmod (rnd (2 * iteration + 1) : ℤ) (mapSize - 1) + 0 < mapSize - 1 := by
      have := Int.tmod_lt_of_pos (rnd (2 * iteration + 1) : ℤ) (by omega : 0 < mapSize - 1)
      omega
    exact_mod_cast this

end InvariantLemmas

section NonnegLemmas

variable {α : Type} [LinearOrderedField α] [FloorRing α]

/-! ## Non-negativity through the droplet loop -/

theorem Erode_cacheValid (sqrt : α → α) (em : ErosionMaker α) (mapData : List α)
    (mapSize dropletAmount : ℤ) (resetSeed : Bool) (now : ℕ) (rnd : ℕ → ℕ)
    (h : CacheValid sqrt em) :
    CacheValid sqrt (Erode sqrt em mapData mapSize dropletAmount resetSeed now rnd).1 :=
  Initialize_cacheValid sqrt em mapSize resetSeed now h

theorem not_stepStops_pos (sqrt : α → α) (em : ErosionMaker α) (mapData : List α)
    (mapSize : ℤ) (d : Droplet α) (h : ¬ stepStops sqrt em mapData mapSize d) :
    (0 ≤ (stepPos sqrt em mapData mapSize d).1 ∧
        (stepPos sqrt em mapData mapSize d).1 < ((mapSize - 1 : ℤ) : α)) ∧
      (0 ≤ (stepPos sqrt em mapData mapSize d).2 ∧
        (stepPos sqrt em mapData mapSize d).2 < ((mapSize - 1 : ℤ) : α)) := by
  unfold stepStops at h
  push_neg at h
  exact ⟨⟨h.2.1, h.2.2.1⟩, ⟨h.2.2.2.1, h.2.2.2.2⟩⟩

theorem dropletStep_inv (sqrt : α → α) (em : ErosionMaker α) (mapData : List α) (mapSize : ℤ)
    (d : Droplet α) (he : 0 ≤ em.erodeSpeed) (hd0 : 0 ≤ em.depositSpeed)
    (hd1 : em.depositSpeed ≤ 1) (hc : 0 ≤ em.minSedimentCapacity)
    (hw : ∀ i, ∀ w ∈ entryAt (em.erosionBrushWeights.getD []) i, 0 < w)
    (hinv : StepInv mapData d) :
    (∀ d1 map1, dropletStep sqrt em mapData mapSize d = StepResult.deposited d1 map1 →
        StepInv map1 d1) ∧
      (∀ d1 map1, dropletStep sqrt em mapData mapSize d = StepResult.eroded d1 map1 →
        StepInv map1 d1) := by
  obtain ⟨hmap, hx, hy, hsed⟩ := hinv
  constructor
  · intro d1 map1 h
    obtain ⟨hns, hb, rfl, rfl⟩ := dropletStep_deposited sqrt em mapData mapSize d d1 map1 h
    have hp := not_stepStops_pos sqrt em mapData mapSize d hns
    have ha := amountToDeposit_bounds em d _ hsed hd0 hd1 hc hb
    refine ⟨?_, hp.1.1, hp.2.1, by dsimp only; linarith [ha.2]⟩
    exact depositSediment_nonneg _ _ _ _ _ _ hmap ha.1 (cellOffset_nonneg _ hx)
      (cellOffset_lt_one _ hx).le (cellOffset_nonneg _ hy) (cellOffset_lt_one _ hy).le
  · intro d1 map1 h
    obtain ⟨hns, hb, rfl, rfl⟩ := dropletStep_eroded sqrt em mapData mapSize d d1 map1 h
    have hp := not_stepStops_pos sqrt em mapData mapSize d hns
    have ha := amountToErode_nonneg em d _ he hb
    refine ⟨erodeBrush_nonneg _ _ _ _ _ hmap, hp.1.1, hp.2.1, ?_⟩
    dsimp only
    exact le_trans hsed (erodeBrush_sediment_le _ _ _ _ _ hmap ha
      (fun w hw' => (hw _ w hw').le))

theorem dropletLoop_inv (sqrt : α → α) (em : ErosionMaker α) (mapSize : ℤ)
    (he : 0 ≤ em.erodeSpeed) (hd0 : 0 ≤ em.depositSpeed)
    (hd1 : em.depositSpeed ≤ 1) (hc : 0 ≤ em.minSedimentCapacity)
    (hw : ∀ i, ∀ w ∈ entryAt (em.erosionBrushWeights.getD []) i, 0 < w) (lifetime : ℕ) :
    ∀ (mapData : List α) (d : Droplet α), StepInv mapData d →
      ∀ x ∈ dropletLoop sqrt em mapSize lifetime mapData d, 0 ≤ x := by
  induction lifetime with
  | zero => intro mapData d h; exact h.1
  | succ n ih =>
    intro mapData d h
    have hstep := dropletStep_inv sqrt em mapData mapSize d he hd0 hd1 hc hw h
    unfold dropletLoop
    cases hres : dropletStep sqrt em mapData mapSize d with
    | stopped => exact h.1
    | deposited d1 map1 => exact ih map1 d1 (hstep.1 d1 map1 hres)
    | eroded d1 map1 => exact ih map1 d1 (hstep.2 d1 map1 hres)

theorem erodeDroplets_nonneg (sqrt : α → α) (em : ErosionMaker α) (mapSize : ℤ)
    (he : 0 ≤ em.erodeSpeed) (hd0 : 0 ≤ em.depositSpeed)
    (hd1 : em.depositSpeed ≤ 1) (hc : 0 ≤ em.minSedimentCapacity)
    (hw : ∀ i, ∀ w ∈ entryAt (em.erosionBrushWeights.getD []) i, 0 < w)
    (rnd : ℕ → ℕ) (dropletAmount : ℕ) (mapData : List α) (h : ∀ x ∈ mapData, 0 ≤ x) :
    ∀ x ∈ erodeDroplets sqrt em mapSize rnd dropletAmount mapData, 0 ≤ x := by
  unfold erodeDroplets
  refine foldl_invariant (fun m => ∀ x ∈ m, 0 ≤ x) _ (List.range dropletAmount) ?_ mapData h
  intro m iteration _ hm
  have hs := spawnDroplet_pos em mapSize rnd iteration
  exact dropletLoop_inv sqrt em mapSize he hd0 hd1 hc hw _ m _
    ⟨hm, hs.1, hs.2.1, by rw [hs.2.2]⟩

end NonnegLemmas

section FlatBasics

variable {α : Type} [LinearOrderedField α]

/-! ## Reads of a flat heightmap and the direction update -/

theorem readAt_replicate (n : ℕ) (c : α) (i : ℤ) (h0 : 0 ≤ i) (h1 : i.toNat < n) :
    readAt (List.replicate n c) i = c := by
  unfold readAt
  rw [if_pos h0, List.getD_eq_getElem _ _ (by simpa using h1)]
  simp

theorem updateDirection_zero (sqrt : α → α) (inertia : α) (hg : HeightAndGradient α)
    (hx : hg.gradientX = 0) (hy : hg.gradientY = 0) :
    updateDirection sqrt inertia hg 0 0 = (0, 0) := by
  unfold updateDirection
  simp [hx, hy]

end FlatBasics

section MassLemmas

variable {α : Type} [LinearOrderedField α] [FloorRing α]

/-! ## Mass moved by one step -/

theorem eroded_conserves (sqrt : α → α) (em : ErosionMaker α) (mapData : List α) (mapSize : ℤ)
    (d d1 : Droplet α) (map1 : List α) (hm : 1 ≤ mapSize) (hr : 0 ≤ em.erosionRadius)
    (hc : CacheFor sqrt em mapSize) (hlen : mapData.length = (mapSize * mapSize).toNat)
    (h : dropletStep sqrt em mapData mapSize d = StepResult.eroded d1 map1) :
    map1.length = mapData.length ∧
      d1.sediment - d.sediment = (List.zipWith (fun a b => a - b) mapData map1).sum ∧
      ∀ j : ℕ, (j : ℤ) ∉ entryAt (em.erosionBrushIndices.getD [])
          (truncInt d.posY * mapSize + truncInt d.posX) → map1[j]? = mapData[j]? := by
  obtain ⟨_, _, rfl, rfl⟩ := dropletStep_eroded sqrt em mapData mapSize d d1 map1 h
  have hidx : ∀ n ∈ entryAt (em.erosionBrushIndices.getD [])
      (truncInt d.posY * mapSize + truncInt d.posX), 0 ≤ n ∧ n.toNat < mapData.length := by
    intro n hn
    have := cache_indices_range sqrt em mapSize hm hr hc _ n hn
    rw [hlen]
    omega
  have hcons := erodeBrush_conserve _
    (entryAt (em.erosionBrushWeights.getD []) (truncInt d.posY * mapSize + truncInt d.posX))
    (amountToErode em d (stepDeltaHeight sqrt em mapData mapSize d)) mapData d.sediment hidx
  refine ⟨hcons.1, ?_, ?_⟩
  · rw [sum_zipWith_sub _ _ hcons.1.symm]
    exact hcons.2
  · intro j hj
    exact erodeBrush_frame _ _ _ _ _ j hj

theorem corner_range (mapSize : ℤ) (posX posY : α) (hm : 2 ≤ mapSize)
    (hx0 : 0 ≤ posX) (hx1 : posX < ((mapSize - 1 : ℤ) : α))
    (hy0 : 0 ≤ posY) (hy1 : posY < ((mapSize - 1 : ℤ) : α)) :
    0 ≤ truncInt posY * mapSize + truncInt posX ∧
      truncInt posY * mapSize + truncInt posX + mapSize + 1 < mapSize * mapSize := by
  have a1 := truncInt_nonneg posX hx0
  have a2 := truncInt_lt posX (mapSize - 1) hx0 hx1
  have b1 := truncInt_nonneg posY hy0
  have b2 := truncInt_lt posY (mapSize - 1) hy0 hy1
  constructor
  · nlinarith
  · nlinarith

theorem deposited_conserves (sqrt : α → α) (em : ErosionMaker α) (mapData : List α)
    (mapSize : ℤ) (d d1 : Droplet α) (map1 : List α) (hm : 2 ≤ mapSize)
    (hlen : mapData.length = (mapSize * mapSize).toNat)
    (hx0 : 0 ≤ d.posX) (hx1 : d.posX < ((mapSize - 1 : ℤ) : α))
    (hy0 : 0 ≤ d.posY) (hy1 : d.posY < ((mapSize - 1 : ℤ) : α))
    (h : dropletStep sqrt em mapData mapSize d = StepResult.deposited d1 map1) :
    (readAt map1 (truncInt d.posY * mapSize + truncInt d.posX) -
          readAt mapData (truncInt d.posY * mapSize + truncInt d.posX)) +
        (readAt map1 (truncInt d.posY * mapSize + truncInt d.posX + 1) -
          readAt mapData (truncInt d.posY * mapSize + truncInt d.posX + 1)) +
        (readAt map1 (truncInt d.posY * mapSize + truncInt d.posX + mapSize) -
          readAt mapData (truncInt d.posY * mapSize + truncInt d.posX + mapSize)) +
        (readAt map1 (truncInt d.posY * mapSize + truncInt d.posX + mapSize + 1) -
          readAt mapData (truncInt d.posY * mapSize + truncInt d.posX + mapSize + 1)) =
        amountToDeposit em d (stepDeltaHeight sqrt em mapData mapSize d) ∧
      amountToDeposit em d (stepDeltaHeight sqrt em mapData mapSize d) =
        d.sediment - d1.sediment ∧
      map1.length = mapData.length ∧
      ∀ j : ℕ, (j : ℤ) ≠ truncInt d.posY * mapSize + truncInt d.posX →
        (j : ℤ) ≠ truncInt d.posY * mapSize + truncInt d.posX + 1 →
        (j : ℤ) ≠ truncInt d.posY * mapSize + truncInt d.posX + mapSize →
        (j : ℤ) ≠ truncInt d.posY * mapSize + truncInt d.posX + mapSize + 1 →
        map1[j]? = mapData[j]? := by
  obtain ⟨_, _, rfl, rfl⟩ := dropletStep_deposited sqrt em mapData mapSize d d1 map1 h
  have hrange := corner_range mapSize d.posX d.posY hm hx0 hx1 hy0 hy1
  have hc := depositSediment_corners mapData mapSize
    (truncInt d.posY * mapSize + truncInt d.posX) (d.posX - (truncInt d.posX : α))
    (d.posY - (truncInt d.posY : α))
    (amountToDeposit em d (stepDeltaHeight sqrt em mapData mapSize d)) hm hrange.1
    (by rw [hlen]; omega)
  refine ⟨?_, by simp, depositSediment_length _ _ _ _ _ _, ?_⟩
  · rw [hc.1, hc.2.1, hc.2.2.1, hc.2.2.2]
    ring
  · intro j h0 h1 h2 h3
    exact depositSediment_frame _ _ _ _ _ _ j h0 h1 h2 h3

/-! ## A flat heightmap -/

theorem flat_gradient (mapSize : ℤ) (c posX posY : α) (hm : 2 ≤ mapSize)
    (hx0 : 0 ≤ posX) (hx1 : posX < ((mapSize - 1 : ℤ) : α))
    (hy0 : 0 ≤ posY) (hy1 : posY < ((mapSize - 1 : ℤ) : α)) :
    (CalculateHeightAndGradient (List.replicate (mapSize * mapSize).toNat c) mapSize
        posX posY).gradientX = 0 ∧
      (CalculateHeightAndGradient (List.replicate (mapSize * mapSize).toNat c) mapSize
        posX posY).gradientY = 0 := by
  have hrange := corner_range mapSize posX posY hm hx0 hx1 hy0 hy1
  unfold CalculateHeightAndGradient
  dsimp only
  rw [readAt_replicate _ c _ hrange.1 (by omega), readAt_replicate _ c _ (by omega) (by omega),
    readAt_replicate _ c _ (by omega) (by omega), readAt_replicate _ c _ (by omega) (by omega)]
  constructor <;> ring

theorem flat_stepDir (sqrt : α → α) (em : ErosionMaker α) (mapSize : ℤ) (c : α)
    (hm : 2 ≤ mapSize) (rnd : ℕ → ℕ) (iteration : ℕ) :
    stepDir sqrt em (List.replicate (mapSize * mapSize).toNat c) mapSize
      (spawnDroplet em mapSize rnd iteration) = (0, 0) := by
  have hr := spawnDroplet_range em mapSize hm rnd iteration
  have hg := flat_gradient mapSize c _ _ hm hr.1.1 hr.1.2 hr.2.1 hr.2.2
  unfold stepDir
  have e1 : (spawnDroplet em mapSize rnd iteration).dirX = 0 := rfl
  have e2 : (spawnDroplet em mapSize rnd iteration).dirY = 0 := rfl
  rw [e1, e2]
  exact updateDirection_zero sqrt em.inertia _ hg.1 hg.2

theorem flat_step_stopped (sqrt : α → α) (em : ErosionMaker α) (mapSize : ℤ) (c : α)
    (hm : 2 ≤ mapSize) (rnd : ℕ → ℕ) (iteration : ℕ) :
    dropletStep sqrt em (List.replicate (mapSize * mapSize).toNat c) mapSize
      (spawnDroplet em mapSize rnd iteration) = StepResult.stopped := by
  have hdir := flat_stepDir sqrt em mapSize c hm rnd iteration
  have hstop : stepStops sqrt em (List.replicate (mapSize * mapSize).toNat c) mapSize
      (spawnDroplet em mapSize rnd iteration) := by
    unfold stepStops
    left
    rw [hdir]
    exact ⟨rfl, rfl⟩
  unfold dropletStep
  dsimp only
  rw [if_pos hstop]

theorem flat_erodeDroplets (sqrt : α → α) (em : ErosionMaker α) (mapSize : ℤ) (c : α)
    (hm : 2 ≤ mapSize) (rnd : ℕ → ℕ) (dropletAmount : ℕ) :
    erodeDroplets sqrt em mapSize rnd dropletAmount
      (List.replicate (mapSize * mapSize).toNat c) =
      List.replicate (mapSize * mapSize).toNat c := by
  unfold erodeDroplets
  refine foldl_invariant (fun m => m = List.replicate (mapSize * mapSize).toNat c) _
    (List.range dropletAmount) ?_ _ rfl
  intro m iteration _ hm'
  rw [hm']
  cases em.maxDropletLifetime.toNat with
  | zero => rfl
  | succ n =>
    unfold dropletLoop
    rw [flat_step_stopped sqrt em mapSize c hm rnd iteration]

end MassLemmas

section SqrtBasics

variable {α : Type} [LinearOrderedField α]

/-! ## Square roots and reads of the ramp -/

theorem sqrt_mul_self_eq (sqrt : α → α) (hs : IsSqrt sqrt) (a : α) (ha : 0 ≤ a) :
    sqrt (a * a) = a := by
  have h1 := hs.mul_self (a * a) (mul_self_nonneg a)
  have h2 := hs.nonneg (a * a)
  exact (mul_self_inj h2 ha).1 h1

theorem sqrt_lt_one (sqrt : α → α) (hs : IsSqrt sqrt) (a : α) (h0 : 0 ≤ a) (h1 : a < 1) :
    sqrt a < 1 := by
  by_contra hc
  push_neg at hc
  have h2 := hs.mul_self a h0
  have h3 := mul_le_mul hc hc zero_le_one (hs.nonneg a)
  linarith

theorem readAt_rampMap (i : ℕ) (hi : i < 256) :
    readAt (rampMap : List α) (i : ℤ) = 1 - ((i % 16 : ℕ) : α) / 15 := by
  unfold readAt rampMap
  rw [if_pos (by positivity), Int.toNat_natCast,
    List.getD_eq_getElem _ _ (by simpa using hi)]
  simp

theorem rampMap_length : (rampMap : List α).length = ((16 : ℤ) * 16).toNat := by
  simp [rampMap]

theorem rampMap_nonneg : ∀ x ∈ (rampMap : List α), 0 ≤ x := by
  intro x hx
  unfold rampMap at hx
  obtain ⟨i, _, rfl⟩ := List.mem_map.1 hx
  have h : ((i % 16 : ℕ) : α) ≤ 15 := by
    have : i % 16 ≤ 15 := by omega
    exact_mod_cast this
  have : ((i % 16 : ℕ) : α) / 15 ≤ 1 := by
    rw [div_le_one (by norm_num)]
    exact h
  linarith

end SqrtBasics

section RampLemmas

variable {α : Type} [LinearOrderedField α] [FloorRing α]

/-! ## The ramp of scenario B -/

theorem truncInt_natCast (n : ℕ) : truncInt (n : α) = (n : ℤ) := by
  rw [truncInt_of_nonneg _ (by positivity), Int.floor_natCast]

theorem ramp_sample (px py : ℕ) (hx : px ≤ 14) (hy : py ≤ 14) :
    CalculateHeightAndGradient (rampMap : List α) 16 (px : α) (py : α) =
      { height := 1 - (px : α) / 15, gradientX := -(1 / 15), gradientY := 0 } := by
  unfold CalculateHeightAndGradient
  simp only [truncInt_natCast, Int.cast_natCast, sub_self]
  have e0 : ((py : ℤ) * 16 + (px : ℤ)) = ((py * 16 + px : ℕ) : ℤ) := by push_cast; ring
  have e1 : ((py : ℤ) * 16 + (px : ℤ) + 1) = ((py * 16 + px + 1 : ℕ) : ℤ) := by push_cast; ring
  have e2 : ((py : ℤ) * 16 + (px : ℤ) + 16) = ((py * 16 + px + 16 : ℕ) : ℤ) := by
    push_cast; ring
  have e3 : ((py : ℤ) * 16 + (px : ℤ) + 16 + 1) = ((py * 16 + px + 16 + 1 : ℕ) : ℤ) := by
    push_cast; ring
  rw [e3, e2, e1, e0, readAt_rampMap _ (by omega), readAt_rampMap _ (by omega),
    readAt_rampMap _ (by omega), readAt_rampMap _ (by omega)]
  have m0 : (py * 16 + px) % 16 = px := by omega
  have m1 : (py * 16 + px + 1) % 16 = px + 1 := by omega
  have m2 : (py * 16 + px + 16) % 16 = px := by omega
  have m3 : (py * 16 + px + 16 + 1) % 16 = px + 1 := by omega
  rw [m0, m1, m2, m3]
  push_cast
  congr 1 <;> ring

theorem ramp_stepDir (sqrt : α → α) (hs : IsSqrt sqrt) (em : ErosionMaker α)
    (hin : em.inertia = 5 / 100) (px py : ℕ) (sed : α) (hx : px ≤ 14) (hy : py ≤ 14) :
    stepDir sqrt em (rampMap : List α) 16 (dropletAt px py sed) = (1, 0) := by
  unfold stepDir dropletAt
  dsimp only
  rw [ramp_sample px py hx hy, hin]
  unfold updateDirection
  dsimp only
  have e1 : (0 : α) * (5 / 100) - -(1 / 15) * (1 - 5 / 100) = 19 / 300 := by norm_num
  have e2 : (0 : α) * (5 / 100) - 0 * (1 - 5 / 100) = 0 := by norm_num
  rw [e1, e2]
  have e3 : (19 / 300 : α) * (19 / 300) + 0 * 0 = (19 / 300) * (19 / 300) := by ring
  rw [e3, sqrt_mul_self_eq sqrt hs _ (by norm_num)]
  rw [if_pos (by norm_num)]
  norm_num

theorem ramp_move (sqrt : α → α) (hs : IsSqrt sqrt) (em : ErosionMaker α)
    (hin : em.inertia = 5 / 100) (px py : ℕ) (sed : α) (hx : px ≤ 13) (hy : py ≤ 14) :
    stepPos sqrt em (rampMap : List α) 16 (dropletAt px py sed) =
        (((px + 1 : ℕ) : α), (py : α)) ∧
      stepDeltaHeight sqrt em (rampMap : List α) 16 (dropletAt px py sed) = -(1 / 15) ∧
      ¬ stepStops sqrt em (rampMap : List α) 16 (dropletAt px py sed) := by
  have hdir := ramp_stepDir sqrt hs em hin px py sed (by omega) hy
  have hpos : stepPos sqrt em (rampMap : List α) 16 (dropletAt px py sed) =
      (((px + 1 : ℕ) : α), (py : α)) := by
    unfold stepPos
    rw [hdir]
    simp [dropletAt]
  refine ⟨hpos, ?_, ?_⟩
  · unfold stepDeltaHeight
    rw [hpos]
    dsimp only [dropletAt]
    rw [ramp_sample (px + 1) py (by omega) hy, ramp_sample px py (by omega) hy]
    push_cast
    ring
  · unfold stepStops
    rw [hdir, hpos]
    have h1 : ((px + 1 : ℕ) : α) < ((16 - 1 : ℤ) : α) := by
      have : ((px + 1 : ℕ) : ℤ) < 16 - 1 := by omega
      exact_mod_cast this
    have h2 : (py : α) < ((16 - 1 : ℤ) : α) := by
      have : (py : ℤ) < 16 - 1 := by omega
      exact_mod_cast this
    have h3 : (0 : α) ≤ ((px + 1 : ℕ) : α) := by positivity
    have h4 : (0 : α) ≤ (py : α) := by positivity
    simp only [one_ne_zero, false_and, false_or, not_or, not_lt, ge_iff_le, not_le]
    exact ⟨h3, h1, h4, h2⟩

theorem ramp_step (sqrt : α → α) (hs : IsSqrt sqrt) (em : ErosionMaker α)
    (hin : em.inertia = 5 / 100) (hg : em.gravity = 4) (hc : em.minSedimentCapacity = 1 / 100)
    (px py : ℕ) (hx : px ≤ 13) (hy : py ≤ 14) :
    stepDeltaHeight sqrt em (rampMap : List α) 16 (dropletAt px py 0) * em.gravity < 0 ∧
      ∃ d1 map1, dropletStep sqrt em (rampMap : List α) 16 (dropletAt px py 0) =
          StepResult.eroded d1 map1 ∧
        d1.speed = sqrt (11 / 15) ∧ d1.speed < (dropletAt px py 0 : Droplet α).speed := by
  obtain ⟨_, hdh, hstop⟩ := ramp_move sqrt hs em hin px py 0 hx hy
  have hdep : ¬ ((dropletAt px py 0 : Droplet α).sediment >
      sedimentCapacity em (dropletAt px py 0)
        (stepDeltaHeight sqrt em (rampMap : List α) 16 (dropletAt px py 0)) ∨
      stepDeltaHeight sqrt em (rampMap : List α) 16 (dropletAt px py 0) > 0) := by
    rw [hdh]
    have hcap : em.minSedimentCapacity ≤ sedimentCapacity em (dropletAt px py 0) (-(1 / 15)) :=
      le_max_right _ _
    rw [hc] at hcap
    have hs0 : (dropletAt px py 0 : Droplet α).sediment = 0 := rfl
    rw [hs0]
    push_neg
    constructor
    · linarith
    · norm_num
  refine ⟨by rw [hdh, hg]; norm_num, ?_⟩
  unfold dropletStep
  dsimp only
  rw [if_neg hstop, if_neg hdep]
  refine ⟨_, _, rfl, ?_, ?_⟩
  · dsimp only
    rw [hdh, hg]
    unfold updateSpeed
    dsimp only [dropletAt]
    rw [if_neg (by norm_num)]
    norm_num
  · dsimp only
    rw [hdh, hg]
    unfold updateSpeed
    dsimp only [dropletAt]
    rw [if_neg (by norm_num)]
    have e : (1 : α) * 1 + -(1 / 15) * 4 = 11 / 15 := by norm_num
    rw [e]
    exact sqrt_lt_one sqrt hs _ (by norm_num) (by norm_num)

theorem ramp_step_loaded (sqrt : α → α) (hs : IsSqrt sqrt) (em : ErosionMaker α)
    (hin : em.inertia = 5 / 100) (hf : em.sedimentCapacityFactor = 6)
    (hc : em.minSedimentCapacity = 1 / 100) (px py : ℕ) (hx : px ≤ 13) (hy : py ≤ 14) :
    ∃ d1 map1, dropletStep sqrt em (rampMap : List α) 16 (dropletAt px py 1) =
      StepResult.deposited d1 map1 := by
  obtain ⟨_, hdh, hstop⟩ := ramp_move sqrt hs em hin px py 1 hx hy
  have hdep : (dropletAt px py 1 : Droplet α).sediment >
      sedimentCapacity em (dropletAt px py 1)
        (stepDeltaHeight sqrt em (rampMap : List α) 16 (dropletAt px py 1)) ∨
      stepDeltaHeight sqrt em (rampMap : List α) 16 (dropletAt px py 1) > 0 := by
    left
    rw [hdh]
    unfold sedimentCapacity
    rw [hf, hc]
    dsimp only [dropletAt]
    rw [gt_iff_lt, max_lt_iff]
    constructor <;> norm_num
  unfold dropletStep
  dsimp only
  rw [if_neg hstop, if_pos hdep]
  exact ⟨_, _, rfl⟩

theorem isSqrt_real : IsSqrt Real.sqrt :=
  ⟨Real.sqrt_nonneg, fun _ hx => Real.mul_self_sqrt hx⟩

end RampLemmas

section GradientLemmas

variable {α : Type} [LinearOrderedField α]

/-! ## The border falloff -/

theorem abs_sub_half_le (n x : ℕ) (hx : x < n) :
    abs ((x : α) - (n : α) / 2) ≤ (n : α) / 2 := by
  have h1 : (x : α) + 1 ≤ (n : α) := by exact_mod_cast hx
  have h0 : (0 : α) ≤ (x : α) := by positivity
  rw [abs_le]
  constructor <;> linarith

theorem gradientDistance_bounds (n : ℕ) (hn : 1 ≤ n) (gradientType : GradientType) (x y : ℕ)
    (hx : x < n) (hy : y < n) :
    0 ≤ (gradientDistance (n : ℤ) gradientType x y : α) ∧
      (gradientDistance (n : ℤ) gradientType x y : α) ≤ 1 := by
  have hr : (0 : α) < (n : α) / 2 := by
    have : (0 : α) < (n : α) := by exact_mod_cast hn
    linarith
  have ax := abs_sub_half_le (α := α) n x hx
  have ay := abs_sub_half_le (α := α) n y hy
  have sq0 : (0 : α) ≤ max (abs ((x : α) - (n : α) / 2)) (abs ((y : α) - (n : α) / 2)) /
      ((n : α) / 2) := div_nonneg (le_trans (abs_nonneg _) (le_max_left _ _)) hr.le
  have sq1 : max (abs ((x : α) - (n : α) / 2)) (abs ((y : α) - (n : α) / 2)) /
      ((n : α) / 2) ≤ 1 := (div_le_one hr).2 (max_le ax ay)
  have di0 : (0 : α) ≤ min ((abs ((x : α) - (n : α) / 2) + abs ((y : α) - (n : α) / 2)) /
      ((n : α) / 2)) 1 :=
    le_min (div_nonneg (add_nonneg (abs_nonneg _) (abs_nonneg _)) hr.le) zero_le_one
  have di1 : min ((abs ((x : α) - (n : α) / 2) + abs ((y : α) - (n : α) / 2)) /
      ((n : α) / 2)) 1 ≤ (1 : α) := min_le_right _ _
  cases gradientType with
  | SQUARE =>
    simp only [gradientDistance, Int.cast_natCast]
    exact ⟨sq0, sq1⟩
  | CIRCLE =>
    simp only [gradientDistance, Int.cast_natCast]
    refine ⟨le_min (div_nonneg (add_nonneg (mul_self_nonneg _) (mul_self_nonneg _))
      (mul_self_nonneg _)) zero_le_one, min_le_right _ _⟩
  | DIAMOND =>
    simp only [gradientDistance, Int.cast_natCast]
    exact ⟨di0, di1⟩
  | STAR =>
    simp only [gradientDistance, Int.cast_natCast, Lerp]
    constructor <;> linarith

theorem getElem?_writeAt_mul (m : List α) (i j : ℕ) (f : α) :
    (writeAt m (i : ℤ) (readAt m (i : ℤ) * f))[j]? =
      if j = i then (m[j]?).map (fun v => v * f) else m[j]? := by
  unfold writeAt readAt
  rw [if_pos (by positivity), if_pos (by positivity), Int.toNat_natCast, List.getElem?_set]
  by_cases h : i = j
  · subst h
    by_cases hlt : i < m.length
    · simp [hlt, List.getD_eq_getElem _ _ hlt, List.getElem?_eq_getElem hlt]
    · simp [hlt, List.getElem?_eq_none (not_lt.1 hlt)]
  · have h' : ¬ j = i := fun e => h e.symm
    simp [h, h']

theorem gradient_row (n : ℕ) (gradientType : GradientType) (y : ℕ) (k : ℕ) :
    ∀ (a : ℕ) (m : List α), a + k ≤ n →
      ∀ j, ((List.range' a k).foldl (gradientCell (n : ℤ) gradientType y) m)[j]? =
        if y * n + a ≤ j ∧ j < y * n + a + k then
          (m[j]?).map (fun v => v * cellFactor n gradientType j)
        else m[j]? := by
  induction k with
  | zero =>
    intro a m _ j
    rw [if_neg (by omega)]
    rfl
  | succ k ih =>
    intro a m h j
    rw [List.range'_succ, List.foldl_cons, ih (a + 1) _ (by omega) j]
    have hidx : ((y : ℤ) * (n : ℤ) + (a : ℤ)) = ((y * n + a : ℕ) : ℤ) := by push_cast; ring
    have hcell : ∀ i, (gradientCell (n : ℤ) gradientType y m a)[i]? =
        if i = y * n + a then
          (m[i]?).map (fun v => v * (1 - gradientDistance (n : ℤ) gradientType a y))
        else m[i]? := by
      intro i
      unfold gradientCell
      rw [hidx]
      exact getElem?_writeAt_mul m (y * n + a) i _
    rw [hcell j]
    by_cases h1 : j = y * n + a
    · have hmod : j % n = a := by
        rw [h1, Nat.mul_comm, Nat.mul_add_mod]
        exact Nat.mod_eq_of_lt (by omega)
      have hdiv : j / n = y := by
        rw [h1, Nat.mul_comm, Nat.mul_add_div (by omega)]
        rw [Nat.div_eq_of_lt (by omega)]
        rfl
      rw [if_neg (by omega), if_pos h1, if_pos (by omega)]
      unfold cellFactor
      rw [hmod, hdiv]
    · rw [if_neg h1]
      by_cases h2 : y * n + (a + 1) ≤ j ∧ j < y * n + (a + 1) + k
      · rw [if_pos h2, if_pos (by omega)]
      · rw [if_neg h2, if_neg (by omega)]

theorem gradient_rows (n : ℕ) (gradientType : GradientType) (k : ℕ) :
    ∀ (b : ℕ) (m : List α),
      ∀ j, ((List.range' b k).foldl
          (fun m y => (List.range n).foldl (gradientCell (n : ℤ) gradientType y) m) m)[j]? =
        if b * n ≤ j ∧ j < (b + k) * n then
          (m[j]?).map (fun v => v * cellFactor n gradientType j)
        else m[j]? := by
  induction k with
  | zero =>
    intro b m j
    rw [if_neg (by simp)]
    rfl
  | succ k ih =>
    intro b m j
    rw [List.range'_succ, List.foldl_cons, ih (b + 1) _ j, List.range_eq_range',
      gradient_row n gradientType b n 0 m (by omega) j]
    have e1 : (b + 1) * n = b * n + n := by ring
    have e2 : (b + 1 + k) * n = (b + (k + 1)) * n := by ring
    have e3 : b * n ≤ (b + (k + 1)) * n := Nat.mul_le_mul_right n (by omega)
    have e4 : b * n + n ≤ (b + (k + 1)) * n := by
      rw [← e1]; exact Nat.mul_le_mul_right n (by omega)
    rw [e2, e1]
    by_cases h1 : b * n + 0 ≤ j ∧ j < b * n + 0 + n
    · rw [if_pos h1, if_neg (by omega), if_pos (by omega)]
    · rw [if_neg h1]
      by_cases h2 : b * n + n ≤ j ∧ j < (b + (k + 1)) * n
      · rw [if_pos h2, if_pos (by omega)]
      · rw [if_neg h2, if_neg (by omega)]

theorem Gradient_getElem? (n : ℕ) (mapData : List α) (off : α) (gradientType : GradientType)
    (j : ℕ) (hj : j < n * n) :
    (Gradient mapData (n : ℤ) off gradientType)[j]? =
      (mapData[j]?).map (fun v => v * cellFactor n gradientType j) := by
  have h := gradient_rows n gradientType n 0 mapData j
  rw [← List.range_eq_range', if_pos (by rw [Nat.zero_add]; omega)] at h
  unfold Gradient
  rw [Int.toNat_natCast]
  exact h

theorem cellFactor_cell (n : ℕ) (gradientType : GradientType) (x y : ℕ) (hx : x < n) :
    (cellFactor n gradientType (y * n + x) : α) =
      1 - gradientDistance (n : ℤ) gradientType x y := by
  unfold cellFactor
  have hmod : (y * n + x) % n = x := by
    rw [Nat.mul_comm, Nat.mul_add_mod]
    exact Nat.mod_eq_of_lt hx
  have hdiv : (y * n + x) / n = y := by
    rw [Nat.mul_comm, Nat.mul_add_div (by omega), Nat.div_eq_of_lt hx]
    rfl
  rw [hmod, hdiv]

end GradientLemmas

section NormalLemmas

variable {α : Type} [LinearOrderedField α]

/-! ## The surface normal -/

theorem atIndex_eq_readAt (m : List α) (i : ℤ) (h0 : 0 ≤ i) (h1 : i.toNat < m.length) :
    atIndex m i = some (readAt m i) := by
  unfold atIndex readAt
  rw [if_pos h0, if_pos h0, List.getElem?_eq_getElem h1, List.getD_eq_getElem _ _ h1]

theorem clampCoord_range (mapSize c : ℤ) (hm : 1 ≤ mapSize) :
    0 ≤ clampCoord mapSize c ∧ clampCoord mapSize c ≤ mapSize - 1 := by
  unfold clampCoord
  omega

theorem clamped_index_range (mapSize : ℤ) (n : ℕ) (hm : 1 ≤ mapSize)
    (hn : n = (mapSize * mapSize).toNat) (row col : ℤ) :
    0 ≤ clampCoord mapSize row * mapSize + clampCoord mapSize col ∧
      (clampCoord mapSize row * mapSize + clampCoord mapSize col).toNat < n := by
  have hr := clampCoord_range mapSize row hm
  have hc := clampCoord_range mapSize col hm
  have h0 : 0 ≤ clampCoord mapSize row * mapSize + clampCoord mapSize col := by nlinarith
  have h1 : clampCoord mapSize row * mapSize + clampCoord mapSize col < mapSize * mapSize := by
    nlinarith
  refine ⟨h0, ?_⟩
  omega

theorem atIndex_clamped (mapData : List α) (mapSize : ℤ) (hm : 1 ≤ mapSize)
    (hlen : mapData.length = (mapSize * mapSize).toNat) (x y dx dy : ℤ) :
    atIndex mapData
        (min (max (y + dy) 0) (mapSize - 1) * mapSize + min (max (x + dx) 0) (mapSize - 1)) =
      some (clampedHeight mapData mapSize x y dx dy) := by
  have h := clamped_index_range mapSize mapData.length hm hlen (y + dy) (x + dx)
  unfold clampCoord at h
  unfold clampedHeight clampCoord
  exact atIndex_eq_readAt mapData _ h.1 h.2

theorem GetNormal_eq (sqrt : α → α) (mapData : List α) (mapSize x y : ℤ) (hm : 1 ≤ mapSize)
    (hlen : mapData.length = (mapSize * mapSize).toNat) (hy : y < mapSize) :
    GetNormal sqrt mapData mapSize x y =
      some (Vector3Normalize sqrt
        { x := -(sobelX mapData mapSize x y), y := 1 / 20,
          z := -(sobelY mapData mapSize x y) }) := by
  have e : min (max y 0) mapSize = min (max (y + 0) 0) (mapSize - 1) := by omega
  have ex : x = x + 0 := by ring
  have ey : y = y + 0 := by ring
  have em1 : ∀ c : ℤ, c - 1 = c + -1 := fun c => by ring
  unfold GetNormal
  rw [e]
  nth_rewrite 2 [ex]
  nth_rewrite 5 [ex]
  nth_rewrite 7 [ex]
  nth_rewrite 4 [ey]
  simp only [em1 x, em1 y]
  simp only [atIndex_clamped mapData mapSize hm hlen, Option.bind_some, Option.some_bind]
  unfold sobelX sobelY
  simp only [add_zero]

theorem Vector3Normalize_unit (sqrt : α → α) (hs : IsSqrt sqrt) (v : Vector3 α)
    (hq : 0 < v.x * v.x + v.y * v.y + v.z * v.z) :
    ∃ c : α, 0 < c ∧
      Vector3Normalize sqrt v = { x := c * v.x, y := c * v.y, z := c * v.z } ∧
      (Vector3Normalize sqrt v).x * (Vector3Normalize sqrt v).x +
          (Vector3Normalize sqrt v).y * (Vector3Normalize sqrt v).y +
          (Vector3Normalize sqrt v).z * (Vector3Normalize sqrt v).z = 1 := by
  have hsq := hs.mul_self _ hq.le
  have hn := hs.nonneg (v.x * v.x + v.y * v.y + v.z * v.z)
  have hne : sqrt (v.x * v.x + v.y * v.y + v.z * v.z) ≠ 0 := by
    intro h0
    rw [h0] at hsq
    linarith
  have hpos : 0 < sqrt (v.x * v.x + v.y * v.y + v.z * v.z) := lt_of_le_of_ne hn (Ne.symm hne)
  have hval : Vector3Normalize sqrt v =
      { x := 1 / sqrt (v.x * v.x + v.y * v.y + v.z * v.z) * v.x
        y := 1 / sqrt (v.x * v.x + v.y * v.y + v.z * v.z) * v.y
        z := 1 / sqrt (v.x * v.x + v.y * v.y + v.z * v.z) * v.z } := by
    unfold Vector3Normalize
    simp only [ne_eq, hne, not_false_eq_true, ↓reduceIte]
    congr 1 <;> ring
  refine ⟨1 / sqrt (v.x * v.x + v.y * v.y + v.z * v.z), by positivity, hval, ?_⟩
  rw [hval]
  dsimp only
  field_simp
  nlinarith [hsq]

end NormalLemmas

section PolicyLemmas

variable {α : Type} [LinearOrderedField α]

/-! ## The rebuild policy of `Initialize` -/

theorem Initialize_private (sqrt : α → α) (em : ErosionMaker α) (mapSize : ℤ)
    (resetSeed : Bool) (now : ℕ) :
    ((em.erosionBrushIndices = none ∨ em.currentErosionRadius ≠ em.erosionRadius ∨
          em.currentMapSize ≠ mapSize) →
        (Initialize sqrt em mapSize resetSeed now).erosionBrushIndices =
            some (InitializeBrushIndices sqrt mapSize em.erosionRadius).1 ∧
          (Initialize sqrt em mapSize resetSeed now).erosionBrushWeights =
            some (InitializeBrushIndices sqrt mapSize em.erosionRadius).2 ∧
          (Initialize sqrt em mapSize resetSeed now).currentErosionRadius = em.erosionRadius ∧
          (Initialize sqrt em mapSize resetSeed now).currentMapSize = mapSize) ∧
      (¬ (em.erosionBrushIndices = none ∨ em.currentErosionRadius ≠ em.erosionRadius ∨
          em.currentMapSize ≠ mapSize) →
        (Initialize sqrt em mapSize resetSeed now).erosionBrushIndices =
            em.erosionBrushIndices ∧
          (Initialize sqrt em mapSize resetSeed now).erosionBrushWeights =
            em.erosionBrushWeights ∧
          (Initialize sqrt em mapSize resetSeed now).currentErosionRadius =
            em.currentErosionRadius ∧
          (Initialize sqrt em mapSize resetSeed now).currentMapSize = em.currentMapSize) := by
  have hnone : em.erosionBrushIndices.isNone = true ↔ em.erosionBrushIndices = none :=
    Option.isNone_iff_eq_none
  unfold Initialize
  constructor
  · intro h
    rw [← hnone] at h
    cases resetSeed <;> simp only [Bool.false_eq_true, ↓reduceIte] <;> rw [if_pos h] <;>
      exact ⟨rfl, rfl, rfl, rfl⟩
  · intro h
    rw [← hnone] at h
    cases resetSeed <;> simp only [Bool.false_eq_true, ↓reduceIte] <;> rw [if_neg h] <;>
      exact ⟨rfl, rfl, rfl, rfl⟩

theorem Initialize_seed (sqrt : α → α) (em : ErosionMaker α) (mapSize : ℤ) (now : ℕ) :
    (Initialize sqrt em mapSize false now).currentSeed = em.currentSeed := by
  unfold Initialize
  simp only [Bool.false_eq_true, ↓reduceIte]
  split_ifs <;> rfl

theorem setPublic_cacheValid (sqrt : α → α) (em params : ErosionMaker α)
    (h : CacheValid sqrt em) : CacheValid sqrt (setPublic em params) := h

theorem no_interior_cell (mapSize radius : ℤ) (hm : 1 ≤ mapSize)
    (hbig : ¬ 2 * radius < mapSize) (i : ℕ) : recomputed mapSize radius i := by
  unfold recomputed
  rw [Int.tmod_eq_emod (by positivity) (by omega), Int.tdiv_eq_ediv (by positivity) (by omega)]
  omega

theorem erodeBrush_length (indices : List ℤ) (weights : List α) (amount : α)
    (mapData : List α) (sediment : α) :
    (erodeBrush indices weights amount mapData sediment).1.length = mapData.length := by
  unfold erodeBrush
  exact foldl_invariant (fun st => st.1.length = mapData.length)
    (erodePoint indices weights amount) (List.range indices.length)
    (fun st k _ hs => (erodePoint_length indices weights amount st k).trans hs)
    (mapData, sediment) rfl

end PolicyLemmas

section SessionLemmas

variable {α : Type} [LinearOrderedField α] [FloorRing α]

/-! ## Sequences of calls and the states of the droplet loop -/

theorem erodeCalls_cacheValid (sqrt : α → α) (calls : List (ErodeCall α)) :
    ∀ em : ErosionMaker α, CacheValid sqrt em → CacheValid sqrt (erodeCalls sqrt em calls) := by
  induction calls with
  | nil => intro em h; exact h
  | cons c rest ih =>
    intro em h
    exact ih _ (Erode_cacheValid sqrt _ c.mapData c.mapSize c.dropletAmount c.resetSeed c.now
      c.rnd (setPublic_cacheValid sqrt em c.params h))

theorem dropletStep_length (sqrt : α → α) (em : ErosionMaker α) (mapData : List α)
    (mapSize : ℤ) (d : Droplet α) :
    (∀ d1 map1, dropletStep sqrt em mapData mapSize d = StepResult.deposited d1 map1 →
        map1.length = mapData.length) ∧
      (∀ d1 map1, dropletStep sqrt em mapData mapSize d = StepResult.eroded d1 map1 →
        map1.length = mapData.length) := by
  constructor
  · intro d1 map1 h
    obtain ⟨_, _, _, rfl⟩ := dropletStep_deposited sqrt em mapData mapSize d d1 map1 h
    exact depositSediment_length _ _ _ _ _ _
  · intro d1 map1 h
    obtain ⟨_, _, _, rfl⟩ := dropletStep_eroded sqrt em mapData mapSize d d1 map1 h
    exact erodeBrush_length _ _ _ _ _

theorem dropletLoop_length (sqrt : α → α) (em : ErosionMaker α) (mapSize : ℤ) (lifetime : ℕ) :
    ∀ (mapData : List α) (d : Droplet α),
      (dropletLoop sqrt em mapSize lifetime mapData d).length = mapData.length := by
  induction lifetime with
  | zero => intro mapData d; rfl
  | succ n ih =>
    intro mapData d
    have hstep := dropletStep_length sqrt em mapData mapSize d
    unfold dropletLoop
    cases hres : dropletStep sqrt em mapData mapSize d with
    | stopped => rfl
    | deposited d1 map1 => exact (ih map1 d1).trans (hstep.1 d1 map1 hres)
    | eroded d1 map1 => exact (ih map1 d1).trans (hstep.2 d1 map1 hres)

theorem erodeDroplets_length (sqrt : α → α) (em : ErosionMaker α) (mapSize : ℤ)
    (rnd : ℕ → ℕ) (dropletAmount : ℕ) (mapData : List α) :
    (erodeDroplets sqrt em mapSize rnd dropletAmount mapData).length = mapData.length := by
  unfold erodeDroplets
  refine foldl_invariant (fun m => m.length = mapData.length) _ (List.range dropletAmount) ?_
    mapData rfl
  intro m iteration _ hm
  exact (dropletLoop_length sqrt em mapSize _ m _).trans hm

theorem loopState_inv (sqrt : α → α) (em : ErosionMaker α) (mapSize : ℤ) (rnd : ℕ → ℕ)
    (mapData0 m : List α) (d : Droplet α) (hm : 2 ≤ mapSize)
    (h : LoopState sqrt em mapSize rnd mapData0 m d) :
    m.length = mapData0.length ∧ InGrid mapSize d.posX d.posY := by
  induction h with
  | spawn iteration =>
    exact ⟨erodeDroplets_length sqrt em mapSize rnd iteration mapData0,
      spawnDroplet_range em mapSize hm rnd iteration⟩
  | deposited m m1 d d1 _ hstep ih =>
    obtain ⟨hns, _, rfl, _⟩ := dropletStep_deposited sqrt em m mapSize d d1 m1 hstep
    exact ⟨((dropletStep_length sqrt em m mapSize d).1 _ m1 hstep).trans ih.1,
      not_stepStops_pos sqrt em m mapSize d hns⟩
  | eroded m m1 d d1 _ hstep ih =>
    obtain ⟨hns, _, rfl, _⟩ := dropletStep_eroded sqrt em m mapSize d d1 m1 hstep
    exact ⟨((dropletStep_length sqrt em m mapSize d).2 _ m1 hstep).trans ih.1,
      not_stepStops_pos sqrt em m mapSize d hns⟩

theorem inGrid_nodes (mapSize : ℤ) (posX posY : α) (hm : 2 ≤ mapSize)
    (h : InGrid mapSize posX posY) : NodesInRange mapSize posX posY :=
  corner_range mapSize posX posY hm h.1.1 h.1.2 h.2.1 h.2.2

end SessionLemmas

section CapLemmas

variable {α : Type} [LinearOrderedField α]

/-! ## The amount removed by the brush loop -/

theorem sum_take_succ (l : List α) (k : ℕ) :
    (l.take (k + 1)).sum = (l.take k).sum + l.getD k 0 := by
  rw [List.take_succ, List.sum_append, List.getD_eq_getElem?_getD]
  cases l[k]? <;> simp

theorem erodePoint_gain_le (indices : List ℤ) (weights : List α) (amount : α)
    (st : List α × α) (k : ℕ) :
    (erodePoint indices weights amount st k).2 ≤ st.2 + amount * weights.getD k 0 := by
  unfold erodePoint
  dsimp only
  split_ifs with h
  · linarith
  · exact le_rfl

theorem erodePoint_gain_eq (indices : List ℤ) (weights : List α) (amount : α)
    (st : List α × α) (k : ℕ)
    (h : amount * weights.getD k 0 ≤ readAt st.1 (indices.getD k 0)) :
    (erodePoint indices weights amount st k).2 = st.2 + amount * weights.getD k 0 := by
  unfold erodePoint
  dsimp only
  rw [if_neg (not_lt.2 h)]

theorem erodePoint_read_ne (indices : List ℤ) (weights : List α) (amount : α)
    (st : List α × α) (k : ℕ) (i : ℤ) (hne : i ≠ indices.getD k 0) :
    readAt (erodePoint indices weights amount st k).1 i = readAt st.1 i := by
  unfold erodePoint
  dsimp only
  exact readAt_writeAt_of_ne _ _ _ _ hne

theorem erodePrefix_gain_le (indices : List ℤ) (weights : List α) (amount : α)
    (mapData : List α) (sediment : α) (k : ℕ) :
    ((List.range k).foldl (erodePoint indices weights amount) (mapData, sediment)).2 -
        sediment ≤ amount * (weights.take k).sum := by
  induction k with
  | zero => simp
  | succ k ih =>
    rw [List.range_succ, List.foldl_concat, sum_take_succ, mul_add]
    have := erodePoint_gain_le indices weights amount
      ((List.range k).foldl (erodePoint indices weights amount) (mapData, sediment)) k
    linarith

theorem erodePrefix_gain_eq (indices : List ℤ) (weights : List α) (amount : α)
    (mapData : List α) (sediment : α) (hnd : indices.Nodup)
    (hshare : ∀ k, k < indices.length →
      amount * weights.getD k 0 ≤ readAt mapData (indices.getD k 0))
    (k : ℕ) (hk : k ≤ indices.length) :
    ((List.range k).foldl (erodePoint indices weights amount) (mapData, sediment)).2 -
          sediment = amount * (weights.take k).sum ∧
      ∀ j, k ≤ j → j < indices.length →
        readAt ((List.range k).foldl (erodePoint indices weights amount)
            (mapData, sediment)).1 (indices.getD j 0) =
          readAt mapData (indices.getD j 0) := by
  induction k with
  | zero => simp
  | succ k ih =>
    obtain ⟨ih1, ih2⟩ := ih (by omega)
    have hkl : k < indices.length := by omega
    have hread := ih2 k le_rfl hkl
    have hsh := hshare k hkl
    rw [List.range_succ, List.foldl_concat, sum_take_succ, mul_add]
    constructor
    · rw [erodePoint_gain_eq indices weights amount _ k (by rw [hread]; exact hsh)]
      linarith
    · intro j hj hjl
      have hne : indices.getD j 0 ≠ indices.getD k 0 := by
        rw [List.getD_eq_getElem _ _ hjl, List.getD_eq_getElem _ _ hkl]
        intro h
        have := (List.Nodup.getElem_inj_iff hnd).1 h
        omega
      rw [erodePoint_read_ne indices weights amount _ k _ hne]
      exact ih2 j (by omega) hjl

theorem naiveBrushIndices_nodup (mapSize radius cx cy : ℤ) (hm : 1 ≤ mapSize) :
    (naiveBrushIndices mapSize radius cx cy).Nodup := by
  unfold naiveBrushIndices
  apply List.Nodup.map_on _ (List.Nodup.filter _ (squareOffsets_nodup radius))
  intro a ha b hb hab
  have hba : inBrush mapSize radius cx cy a = true := (List.mem_filter.mp ha).2
  have hbb : inBrush mapSize radius cx cy b = true := (List.mem_filter.mp hb).2
  unfold inBrush at hba hbb
  simp only [Bool.and_eq_true, decide_eq_true_eq] at hba hbb
  obtain ⟨_, a1, a2, _, _⟩ := hba
  obtain ⟨_, b1, b2, _, _⟩ := hbb
  have ua := (Int.ediv_emod_unique (a := (cy + a.2) * mapSize + (cx + a.1)) (b := mapSize)
    (r := cx + a.1) (q := cy + a.2) (by omega)).2 ⟨by ring, a1, a2⟩
  have ub := (Int.ediv_emod_unique (a := (cy + b.2) * mapSize + (cx + b.1)) (b := mapSize)
    (r := cx + b.1) (q := cy + b.2) (by omega)).2 ⟨by ring, b1, b2⟩
  rw [hab] at ua
  have h1 : cy + a.2 = cy + b.2 := ua.1.symm.trans ub.1
  have h2 : cx + a.1 = cx + b.1 := ua.2.symm.trans ub.2
  exact Prod.ext (by omega) (by omega)

theorem entryAt_of_getElem? {β : Type} (table : List (List β)) (i : ℤ) (e : List β)
    (h0 : 0 ≤ i) (h : table[i.toNat]? = some e) : entryAt table i = e := by
  unfold entryAt
  rw [if_pos h0, List.getD_eq_getElem?_getD, h]
  rfl

theorem cache_entry_at (sqrt : α → α) (em : ErosionMaker α) (mapSize : ℤ) (hm : 1 ≤ mapSize)
    (hr : 0 ≤ em.erosionRadius) (hc : CacheFor sqrt em mapSize) (cx cy : ℤ) (hx : 0 ≤ cx)
    (hx' : cx < mapSize) (hy : 0 ≤ cy) (hy' : cy < mapSize) :
    entryAt (em.erosionBrushIndices.getD []) (cy * mapSize + cx) =
        naiveBrushIndices mapSize em.erosionRadius cx cy ∧
      entryAt (em.erosionBrushWeights.getD []) (cy * mapSize + cx) =
        naiveBrushWeights sqrt mapSize em.erosionRadius cx cy := by
  have h := brush_entry_at sqrt mapSize em.erosionRadius hm hr cx cy hx hx' hy hy'
  have h0 : 0 ≤ cy * mapSize + cx := by nlinarith
  rw [hc.1, hc.2, Option.getD_some, Option.getD_some]
  exact ⟨entryAt_of_getElem? _ _ _ h0 h.1, entryAt_of_getElem? _ _ _ h0 h.2⟩

theorem naiveBrush_lengths (sqrt : α → α) (mapSize radius cx cy : ℤ) :
    (naiveBrushWeights sqrt mapSize radius cx cy).length =
      (naiveBrushIndices mapSize radius cx cy).length := by
  simp [naiveBrushWeights, naiveBrushIndices]

theorem erodeBrush_gain (sqrt : α → α) (hs : IsSqrt sqrt) (mapSize radius cx cy : ℤ)
    (hm : 1 ≤ mapSize) (hr : 1 ≤ radius) (hx : 0 ≤ cx) (hx' : cx < mapSize) (hy : 0 ≤ cy)
    (hy' : cy < mapSize) (amount : α) (mapData : List α) (sediment : α) :
    (erodeBrush (naiveBrushIndices mapSize radius cx cy)
          (naiveBrushWeights sqrt mapSize radius cx cy) amount mapData sediment).2 -
        sediment ≤ amount ∧
      ((∀ k, k < (naiveBrushIndices mapSize radius cx cy).length →
          amount * (naiveBrushWeights sqrt mapSize radius cx cy).getD k 0 ≤
            readAt mapData ((naiveBrushIndices mapSize radius cx cy).getD k 0)) →
        (erodeBrush (naiveBrushIndices mapSize radius cx cy)
            (naiveBrushWeights sqrt mapSize radius cx cy) amount mapData sediment).2 -
          sediment = amount) := by
  have hsum := (naiveBrushWeights_normalized sqrt hs mapSize radius hr cx cy hx hx' hy hy').2
  have htake : (naiveBrushWeights sqrt mapSize radius cx cy).take
      (naiveBrushIndices mapSize radius cx cy).length =
      naiveBrushWeights sqrt mapSize radius cx cy :=
    List.take_of_length_le (naiveBrush_lengths sqrt mapSize radius cx cy).le
  unfold erodeBrush
  constructor
  · have := erodePrefix_gain_le (naiveBrushIndices mapSize radius cx cy)
      (naiveBrushWeights sqrt mapSize radius cx cy) amount mapData sediment
      (naiveBrushIndices mapSize radius cx cy).length
    rw [htake, hsum, mul_one] at this
    exact this
  · intro hshare
    have := (erodePrefix_gain_eq (naiveBrushIndices mapSize radius cx cy)
      (naiveBrushWeights sqrt mapSize radius cx cy) amount mapData sediment
      (naiveBrushIndices_nodup mapSize radius cx cy hm) hshare
      (naiveBrushIndices mapSize radius cx cy).length le_rfl).1
    rw [htake, hsum, mul_one] at this
    exact this

theorem ramp_brush_heights :
    ∀ n ∈ naiveBrushIndices 16 8 5 5, (1 : α) / 15 ≤ readAt (rampMap : List α) n := by
  intro n hn
  unfold naiveBrushIndices at hn
  obtain ⟨o, ho, rfl⟩ := List.mem_map.1 hn
  have hb : inBrush 16 8 5 5 o = true := (List.mem_filter.mp ho).2
  unfold inBrush at hb
  simp only [Bool.and_eq_true, decide_eq_true_eq] at hb
  obtain ⟨hd, h1, _, h3, h4⟩ := hb
  have hx := @disc_bound 8 _ _ (by norm_num) hd
  have hidx : ((5 + o.2) * 16 + (5 + o.1)) = ((((5 + o.2) * 16 + (5 + o.1)).toNat : ℕ) : ℤ) := by
    omega
  rw [hidx, readAt_rampMap _ (by omega)]
  have hmod : ((5 + o.2) * 16 + (5 + o.1)).toNat % 16 ≤ 12 := by omega
  have hc : ((((5 + o.2) * 16 + (5 + o.1)).toNat % 16 : ℕ) : α) ≤ 12 := by exact_mod_cast hmod
  have : ((((5 + o.2) * 16 + (5 + o.1)).toNat % 16 : ℕ) : α) / 15 ≤ 12 / 15 :=
    div_le_div_of_nonneg_right hc (by norm_num)
  linarith

end CapLemmas

section CapStepLemmas

variable {α : Type} [LinearOrderedField α] [FloorRing α]

/-! ## The erode branch on the cached brush -/

theorem node_in_grid (mapSize : ℤ) (posX posY : α) (h : InGrid mapSize posX posY) :
    (0 ≤ truncInt posX ∧ truncInt posX < mapSize) ∧
      (0 ≤ truncInt posY ∧ truncInt posY < mapSize) := by
  have a1 := truncInt_nonneg posX h.1.1
  have a2 := truncInt_lt posX (mapSize - 1) h.1.1 h.1.2
  have b1 := truncInt_nonneg posY h.2.1
  have b2 := truncInt_lt posY (mapSize - 1) h.2.1 h.2.2
  exact ⟨⟨a1, by omega⟩, ⟨b1, by omega⟩⟩

theorem eroded_gain (sqrt : α → α) (hs : IsSqrt sqrt) (em : ErosionMaker α)
    (mapData : List α) (mapSize : ℤ) (d d1 : Droplet α) (map1 : List α) (hm : 1 ≤ mapSize)
    (hr : 1 ≤ em.erosionRadius) (hc : CacheFor sqrt em mapSize)
    (hpos : InGrid mapSize d.posX d.posY)
    (h : dropletStep sqrt em mapData mapSize d = StepResult.eroded d1 map1) :
    d1.sediment - d.sediment ≤ amountToErode em d (stepDeltaHeight sqrt em mapData mapSize d) ∧
      ((∀ k, k < (entryAt (em.erosionBrushIndices.getD [])
            (truncInt d.posY * mapSize + truncInt d.posX)).length →
          amountToErode em d (stepDeltaHeight sqrt em mapData mapSize d) *
              (entryAt (em.erosionBrushWeights.getD [])
                (truncInt d.posY * mapSize + truncInt d.posX)).getD k 0 ≤
            readAt mapData ((entryAt (em.erosionBrushIndices.getD [])
              (truncInt d.posY * mapSize + truncInt d.posX)).getD k 0)) →
        d1.sediment - d.sediment =
          amountToErode em d (stepDeltaHeight sqrt em mapData mapSize d)) := by
  obtain ⟨_, _, rfl, _⟩ := dropletStep_eroded sqrt em mapData mapSize d d1 map1 h
  have hn := node_in_grid mapSize d.posX d.posY hpos
  have he := cache_entry_at sqrt em mapSize hm (by omega) hc (truncInt d.posX)
    (truncInt d.posY) hn.1.1 hn.1.2 hn.2.1 hn.2.2
  dsimp only
  rw [he.1, he.2]
  exact erodeBrush_gain sqrt hs mapSize em.erosionRadius _ _ hm hr hn.1.1 hn.1.2 hn.2.1
    hn.2.2 _ mapData d.sediment

theorem erode_one_step (sqrt : α → α) (em : ErosionMaker α) (mapData : List α)
    (mapSize : ℤ) (rnd : ℕ → ℕ) (d1 : Droplet α) (map1 : List α)
    (hl : em.maxDropletLifetime = 1)
    (h : dropletStep sqrt em mapData mapSize (spawnDroplet em mapSize rnd 0) =
      StepResult.eroded d1 map1) :
    erodeDroplets sqrt em mapSize rnd 1 mapData = map1 := by
  unfold erodeDroplets
  rw [hl]
  simp only [List.range_succ, List.range_zero, List.nil_append, List.foldl_cons, List.foldl_nil]
  have e : (1 : ℤ).toNat = 0 + 1 := by decide
  rw [e]
  unfold dropletLoop
  rw [h]
  rfl

end CapStepLemmas

section EdgeLemmas

variable {α : Type} [LinearOrderedField α]

/-! ## The SQUARE falloff on the edges of the grid -/

theorem abs_sub_half_inner (n x : ℕ) (h1 : 1 ≤ x) (hx : x < n) :
    abs ((x : α) - (n : α) / 2) ≤ (n : α) / 2 - 1 := by
  have hx1 : (x : α) + 1 ≤ (n : α) := by exact_mod_cast hx
  have hx0 : (1 : α) ≤ (x : α) := by exact_mod_cast h1
  rw [abs_le]
  constructor <;> linarith

theorem abs_sub_half_first (n : ℕ) :
    abs (((0 : ℕ) : α) - (n : α) / 2) = (n : α) / 2 := by
  have hn : (0 : α) ≤ (n : α) := by positivity
  rw [Nat.cast_zero, zero_sub, abs_neg, abs_of_nonneg (by linarith)]

theorem abs_sub_half_last (n : ℕ) (hn : 2 ≤ n) :
    abs (((n - 1 : ℕ) : α) - (n : α) / 2) = (n : α) / 2 - 1 := by
  have h2 : (2 : α) ≤ (n : α) := by exact_mod_cast hn
  rw [Nat.cast_sub (by omega), Nat.cast_one, abs_of_nonneg (by linarith)]
  ring

theorem square_distance_first (n : ℕ) (hn : 2 ≤ n) (x y : ℕ) (hx : x < n) (hy : y < n)
    (h : x = 0 ∨ y = 0) :
    (gradientDistance (n : ℤ) GradientType.SQUARE x y : α) = 1 := by
  have h2 : (2 : α) ≤ (n : α) := by exact_mod_cast hn
  have hr : (0 : α) < (n : α) / 2 := by linarith
  have ax := abs_sub_half_le (α := α) n x hx
  have ay := abs_sub_half_le (α := α) n y hy
  unfold gradientDistance
  dsimp only
  rw [Int.cast_natCast]
  rcases h with h | h
  · subst h
    rw [abs_sub_half_first, max_eq_left ay, div_self hr.ne']
  · subst h
    rw [abs_sub_half_first, max_eq_right ax, div_self hr.ne']

theorem square_distance_last (n : ℕ) (hn : 2 ≤ n) (x y : ℕ) (hx : x < n) (hy : y < n)
    (hx1 : 1 ≤ x) (hy1 : 1 ≤ y) (h : x = n - 1 ∨ y = n - 1) :
    (gradientDistance (n : ℤ) GradientType.SQUARE x y : α) = 1 - 2 / (n : α) := by
  have h2 : (2 : α) ≤ (n : α) := by exact_mod_cast hn
  have hr : (0 : α) < (n : α) / 2 := by linarith
  have hn0 : (n : α) ≠ 0 := by linarith
  have ax := abs_sub_half_inner (α := α) n x hx1 hx
  have ay := abs_sub_half_inner (α := α) n y hy1 hy
  unfold gradientDistance
  dsimp only
  rw [Int.cast_natCast]
  have hval : ((n : α) / 2 - 1) / ((n : α) / 2) = 1 - 2 / (n : α) := by
    field_simp
  rcases h with h | h
  · subst h
    rw [abs_sub_half_last n hn, max_eq_left ay, hval]
  · subst h
    rw [abs_sub_half_last n hn, max_eq_right ax, hval]

end EdgeLemmas

section ScratchLemmas

variable {α : Type} [LinearOrderedField α]

/-! ## Room in the scratch vectors and entries of the table -/

theorem naiveOffsets_length_le_square (mapSize radius cx cy : ℤ) (hr : 1 ≤ radius) :
    (naiveOffsets mapSize radius cx cy).length ≤
      ((2 * radius - 1) * (2 * radius - 1)).toNat := by
  have hnd : (naiveOffsets mapSize radius cx cy).Nodup :=
    List.Nodup.filter _ (squareOffsets_nodup radius)
  have hsub : (naiveOffsets mapSize radius cx cy).toFinset ⊆
      Finset.Icc (-(radius - 1)) (radius - 1) ×ˢ Finset.Icc (-(radius - 1)) (radius - 1) := by
    intro o ho
    rw [List.mem_toFinset] at ho
    have hb : inBrush mapSize radius cx cy o = true := (List.mem_filter.mp ho).2
    unfold inBrush at hb
    simp only [Bool.and_eq_true, decide_eq_true_eq] at hb
    have h1 := @disc_bound radius o.1 o.2 (by omega) hb.1
    have h2 := @disc_bound radius o.2 o.1 (by omega) (by linarith [hb.1])
    simp only [Finset.mem_product, Finset.mem_Icc]
    exact ⟨h1, h2⟩
  have hcard := Finset.card_le_card hsub
  rw [List.toFinset_card_of_nodup hnd, Finset.card_product, Int.card_Icc] at hcard
  have e1 : (radius - 1 + 1 - -(radius - 1)).toNat = (2 * radius - 1).toNat := by
    congr 1
    ring
  have e2 : ((2 * radius - 1) * (2 * radius - 1)).toNat =
      (2 * radius - 1).toNat * (2 * radius - 1).toNat := by
    obtain ⟨k, hk⟩ := Int.eq_ofNat_of_zero_le (by omega : 0 ≤ 2 * radius - 1)
    rw [hk, ← Int.natCast_mul, Int.toNat_natCast, Int.toNat_natCast]
  rw [e1] at hcard
  rw [e2]
  exact hcard

theorem scanBrush_eq_scanPrefix (sqrt : α → α) (mapSize radius cx cy : ℤ)
    (s : BrushScratch α) :
    scanBrush sqrt mapSize radius cx cy s =
      scanPrefix sqrt mapSize radius cx cy s (squareOffsets radius) :=
  scanBrush_eq sqrt mapSize radius cx cy s

theorem scanPrefix_room (sqrt : α → α) (mapSize radius cx cy : ℤ) (hr : 0 ≤ radius)
    (s : BrushScratch α)
    (hx : s.xOffsets.length = (radius * radius * 4).toNat)
    (hy : s.yOffsets.length = (radius * radius * 4).toNat)
    (hw : s.weights.length = (radius * radius * 4).toNat)
    (done rest : List (ℤ × ℤ)) (o : ℤ × ℤ) (hsplit : squareOffsets radius = done ++ o :: rest)
    (ho : inBrush mapSize radius cx cy o = true) :
    (scanPrefix sqrt mapSize radius cx cy s done).addIndex < (radius * radius * 4).toNat ∧
      (scanPrefix sqrt mapSize radius cx cy s done).xOffsets.length =
        (radius * radius * 4).toNat ∧
      (scanPrefix sqrt mapSize radius cx cy s done).yOffsets.length =
        (radius * radius * 4).toNat ∧
      (scanPrefix sqrt mapSize radius cx cy s done).weights.length =
        (radius * radius * 4).toNat := by
  have hlen := naiveOffsets_length_le mapSize radius cx cy hr
  unfold naiveOffsets at hlen
  rw [hsplit, List.filter_append, List.filter_cons_of_pos ho, List.length_append,
    List.length_cons] at hlen
  have h0 : ScratchHolds sqrt radius (radius * radius * 4).toNat
      { s with weightSum := 0, addIndex := 0 } [] :=
    ⟨hx, hy, hw, rfl, by simp, by simp, by simp, by simp⟩
  have h := scan_foldl sqrt mapSize radius cx cy _ done _ [] h0
    (by rw [List.length_nil]; omega)
  unfold scanPrefix
  refine ⟨?_, h.lenX, h.lenY, h.lenW⟩
  rw [h.count, List.nil_append]
  omega

theorem scanPrefix_addIndex_zero (sqrt : α → α) (mapSize radius cx cy : ℤ) (hr : radius ≤ 0)
    (s : BrushScratch α) :
    (scanPrefix sqrt mapSize radius cx cy s (squareOffsets radius)).addIndex = 0 := by
  unfold scanPrefix
  refine foldl_invariant (fun (t : BrushScratch α) => t.addIndex = 0) _ (squareOffsets radius)
    ?_ _ rfl
  intro t o ho ht
  have hmem := mem_squareOffsets.1 ho
  have hnot : ¬ inBrush mapSize radius cx cy (o.1, o.2) = true := by
    unfold inBrush
    simp only [Bool.and_eq_true, decide_eq_true_eq]
    intro hb
    have h1 : o.1 = 0 := by omega
    have h2 : o.2 = 0 := by omega
    have h3 : radius = 0 := by omega
    rw [h1, h2, h3] at hb
    exact absurd hb.1 (by decide)
  rw [scanOffset_eq, if_neg hnot]
  exact ht

theorem brushCell_empty (sqrt : α → α) (mapSize radius : ℤ) (hr : radius ≤ 0)
    (s : BrushScratch α) (hs : s.addIndex = 0) (i : ℕ) :
    (brushCell sqrt mapSize radius s i).1.addIndex = 0 ∧
      (brushCell sqrt mapSize radius s i).2.1 = [] ∧
      (brushCell sqrt mapSize radius s i).2.2 = [] := by
  have hadd : (brushCell sqrt mapSize radius s i).1.addIndex = 0 := by
    unfold brushCell
    dsimp only
    split_ifs
    · rw [scanBrush_eq_scanPrefix]
      exact scanPrefix_addIndex_zero sqrt mapSize radius _ _ hr s
    · exact hs
  refine ⟨hadd, ?_, ?_⟩
  · show (List.range (brushCell sqrt mapSize radius s i).1.addIndex).map _ = []
    rw [hadd]
    rfl
  · show (List.range (brushCell sqrt mapSize radius s i).1.addIndex).map _ = []
    rw [hadd]
    rfl

theorem brushCells_empty (sqrt : α → α) (mapSize radius : ℤ) (hr : radius ≤ 0)
    (cells : List ℕ) :
    ∀ (s : BrushScratch α), s.addIndex = 0 →
      (∀ e ∈ (brushCells sqrt mapSize radius cells s).1, e = []) ∧
        (∀ w ∈ (brushCells sqrt mapSize radius cells s).2, w = []) := by
  induction cells with
  | nil =>
    intro s _
    exact ⟨fun e he => absurd he (List.not_mem_nil e), fun w hw => absurd hw (List.not_mem_nil w)⟩
  | cons i rest ih =>
    intro s hs
    obtain ⟨h1, h2, h3⟩ := brushCell_empty sqrt mapSize radius hr s hs i
    obtain ⟨r1, r2⟩ := ih _ h1
    constructor
    · intro e he
      rcases List.mem_cons.1 he with h | h
      · rw [h]; exact h2
      · exact r1 e h
    · intro w hw
      rcases List.mem_cons.1 hw with h | h
      · rw [h]; exact h3
      · exact r2 w h

theorem cache_weights_pos_all (sqrt : α → α) (hs : IsSqrt sqrt) (em : ErosionMaker α)
    (mapSize : ℤ) (hm : 1 ≤ mapSize) (hc : CacheFor sqrt em mapSize) (i : ℤ) :
    ∀ w ∈ entryAt (em.erosionBrushWeights.getD []) i, 0 < w := by
  by_cases hr : 1 ≤ em.erosionRadius
  · exact cache_weights_pos sqrt hs em mapSize hm hr hc i
  · intro w hw
    rw [hc.2, Option.getD_some] at hw
    rcases entryAt_mem_or_nil (InitializeBrushIndices sqrt mapSize em.erosionRadius).2 i with
      h | ⟨k, _, hget⟩
    · rw [h] at hw
      exact absurd hw (List.not_mem_nil w)
    · have hall := (brushCells_empty sqrt mapSize em.erosionRadius (by omega)
        (List.range (mapSize * mapSize).toNat)
        { xOffsets := List.replicate (em.erosionRadius * em.erosionRadius * 4).toNat 0
          yOffsets := List.replicate (em.erosionRadius * em.erosionRadius * 4).toNat 0
          weights := List.replicate (em.erosionRadius * em.erosionRadius * 4).toNat 0
          weightSum := 0
          addIndex := 0 } rfl).2
      have hnil := hall _ (List.getElem?_mem hget)
      rw [hnil] at hw
      exact absurd hw (List.not_mem_nil w)

theorem deltaSediment_nonneg (indices : List ℤ) (weights : List α) (amount : α)
    (st : List α × α) (k : ℕ) (h : ∀ x ∈ st.1, 0 ≤ x) (hw : 0 ≤ amount * weights.getD k 0) :
    0 ≤ deltaSediment indices weights amount st k := by
  unfold deltaSediment
  split_ifs
  · exact readAt_nonneg st.1 _ h
  · exact hw

theorem erodePoint_eq_delta (indices : List ℤ) (weights : List α) (amount : α)
    (st : List α × α) (k : ℕ) :
    erodePoint indices weights amount st k =
      (writeAt st.1 (indices.getD k 0)
        (readAt st.1 (indices.getD k 0) - deltaSediment indices weights amount st k),
       st.2 + deltaSediment indices weights amount st k) :=
  rfl

theorem erodePrefix_nonneg (indices : List ℤ) (weights : List α) (amount : α)
    (mapData : List α) (sediment : α) (h : ∀ x ∈ mapData, 0 ≤ x) (k : ℕ) :
    ∀ x ∈ ((List.range k).foldl (erodePoint indices weights amount) (mapData, sediment)).1,
      0 ≤ x :=
  foldl_invariant (fun st => ∀ x ∈ st.1, 0 ≤ x) (erodePoint indices weights amount)
    (List.range k) (fun st j _ hst => erodePoint_nonneg indices weights amount st j hst)
    (mapData, sediment) h

theorem cache_entries_empty (sqrt : α → α) (em : ErosionMaker α) (mapSize : ℤ)
    (hr : em.erosionRadius ≤ 0) (hc : CacheFor sqrt em mapSize) (i : ℤ) :
    entryAt (em.erosionBrushIndices.getD []) i = [] ∧
      entryAt (em.erosionBrushWeights.getD []) i = [] := by
  have hall := brushCells_empty sqrt mapSize em.erosionRadius hr
    (List.range (mapSize * mapSize).toNat)
    { xOffsets := List.replicate (em.erosionRadius * em.erosionRadius * 4).toNat 0
      yOffsets := List.replicate (em.erosionRadius * em.erosionRadius * 4).toNat 0
      weights := List.replicate (em.erosionRadius * em.erosionRadius * 4).toNat 0
      weightSum := 0
      addIndex := 0 } rfl
  rw [hc.1, hc.2, Option.getD_some, Option.getD_some]
  constructor
  · rcases entryAt_mem_or_nil (InitializeBrushIndices sqrt mapSize em.erosionRadius).1 i with
      h | ⟨k, _, hget⟩
    · exact h
    · exact hall.1 _ (List.getElem?_mem hget)
  · rcases entryAt_mem_or_nil (InitializeBrushIndices sqrt mapSize em.erosionRadius).2 i with
      h | ⟨k, _, hget⟩
    · exact h
    · exact hall.2 _ (List.getElem?_mem hget)

end ScratchLemmas

section LoopLemmas

variable {α : Type} [LinearOrderedField α] [FloorRing α]

/-! ## Non-negativity along the droplet loop -/

theorem loopState_stepInv (sqrt : α → α) (em : ErosionMaker α) (mapSize : ℤ) (rnd : ℕ → ℕ)
    (mapData0 m : List α) (d : Droplet α) (he : 0 ≤ em.erodeSpeed) (hd0 : 0 ≤ em.depositSpeed)
    (hd1 : em.depositSpeed ≤ 1) (hc : 0 ≤ em.minSedimentCapacity)
    (hw : ∀ i, ∀ w ∈ entryAt (em.erosionBrushWeights.getD []) i, 0 < w)
    (h0 : ∀ x ∈ mapData0, 0 ≤ x) (h : LoopState sqrt em mapSize rnd mapData0 m d) :
    StepInv m d := by
  induction h with
  | spawn iteration =>
    have hs := spawnDroplet_pos em mapSize rnd iteration
    exact ⟨erodeDroplets_nonneg sqrt em mapSize he hd0 hd1 hc hw rnd iteration mapData0 h0,
      hs.1, hs.2.1, by rw [hs.2.2]⟩
  | deposited m m1 d d1 _ hstep ih =>
    exact (dropletStep_inv sqrt em m mapSize d he hd0 hd1 hc hw ih).1 d1 m1 hstep
  | eroded m m1 d d1 _ hstep ih =>
    exact (dropletStep_inv sqrt em m mapSize d he hd0 hd1 hc hw ih).2 d1 m1 hstep

theorem eroded_without_brush (sqrt : α → α) (em : ErosionMaker α) (mapData : List α)
    (mapSize : ℤ) (d d1 : Droplet α) (map1 : List α) (hr : em.erosionRadius ≤ 0)
    (hc : CacheFor sqrt em mapSize)
    (h : dropletStep sqrt em mapData mapSize d = StepResult.eroded d1 map1) :
    map1 = mapData ∧ d1.sediment = d.sediment := by
  obtain ⟨_, _, rfl, rfl⟩ := dropletStep_eroded sqrt em mapData mapSize d d1 map1 h
  have he := cache_entries_empty sqrt em mapSize hr hc (truncInt d.posY * mapSize + truncInt d.posX)
  dsimp only
  rw [he.1, he.2]
  exact ⟨rfl, rfl⟩

theorem ramp_amountToErode (sqrt : α → α) (hs : IsSqrt sqrt) (em : ErosionMaker α)
    (hin : em.inertia = 5 / 100) (hf : em.sedimentCapacityFactor = 6)
    (hc : em.minSedimentCapacity = 1 / 100) (he : em.erodeSpeed = 3 / 10) :
    amountToErode em (dropletAt 5 5 0)
      (stepDeltaHeight sqrt em (rampMap : List α) 16 (dropletAt 5 5 0)) = 1 / 15 := by
  rw [(ramp_move sqrt hs em hin 5 5 0 (by norm_num) (by norm_num)).2.1]
  unfold amountToErode sedimentCapacity dropletAt
  dsimp only
  rw [hf, hc, he]
  have h1 : max (-(-(1 / 15 : α)) * 1 * 1 * 6) (1 / 100) = 2 / 5 := by
    rw [max_eq_left (by norm_num)]
    norm_num
  rw [h1, min_eq_right (by norm_num)]
  norm_num

end LoopLemmas

section AdvanceLemmas

variable {α : Type} [LinearOrderedField α] [FloorRing α]

/-! ## The length of one move -/

theorem stepDir_cases (sqrt : α → α) (em : ErosionMaker α) (mapData : List α) (mapSize : ℤ)
    (d : Droplet α) :
    stepDir sqrt em mapData mapSize d =
      if stepLen sqrt em mapData mapSize d > 1 / 10000 then
        ((d.dirX * em.inertia -
            (CalculateHeightAndGradient mapData mapSize d.posX d.posY).gradientX *
              (1 - em.inertia)) / stepLen sqrt em mapData mapSize d,
          (d.dirY * em.inertia -
            (CalculateHeightAndGradient mapData mapSize d.posX d.posY).gradientY *
              (1 - em.inertia)) / stepLen sqrt em mapData mapSize d)
      else
        (d.dirX * em.inertia -
            (CalculateHeightAndGradient mapData mapSize d.posX d.posY).gradientX *
              (1 - em.inertia),
          d.dirY * em.inertia -
            (CalculateHeightAndGradient mapData mapSize d.posX d.posY).gradientY *
              (1 - em.inertia)) := by
  rfl

theorem advance_length (sqrt : α → α) (hs : IsSqrt sqrt) (em : ErosionMaker α)
    (mapData : List α) (mapSize : ℤ) (d : Droplet α) :
    (stepLen sqrt em mapData mapSize d > 1 / 10000 →
        sqrt (((stepPos sqrt em mapData mapSize d).1 - d.posX) *
              ((stepPos sqrt em mapData mapSize d).1 - d.posX) +
            ((stepPos sqrt em mapData mapSize d).2 - d.posY) *
              ((stepPos sqrt em mapData mapSize d).2 - d.posY)) = 1) ∧
      (stepLen sqrt em mapData mapSize d ≤ 1 / 10000 →
        sqrt (((stepPos sqrt em mapData mapSize d).1 - d.posX) *
              ((stepPos sqrt em mapData mapSize d).1 - d.posX) +
            ((stepPos sqrt em mapData mapSize d).2 - d.posY) *
              ((stepPos sqrt em mapData mapSize d).2 - d.posY)) =
          stepLen sqrt em mapData mapSize d) := by
  unfold stepPos
  dsimp only
  rw [add_sub_cancel_left, add_sub_cancel_left, stepDir_cases]
  constructor
  · intro hlen
    rw [if_pos hlen]
    dsimp only
    have hlpos : 0 < stepLen sqrt em mapData mapSize d := lt_trans (by norm_num) hlen
    have hsq : stepLen sqrt em mapData mapSize d * stepLen sqrt em mapData mapSize d =
        (d.dirX * em.inertia -
            (CalculateHeightAndGradient mapData mapSize d.posX d.posY).gradientX *
              (1 - em.inertia)) *
          (d.dirX * em.inertia -
            (CalculateHeightAndGradient mapData mapSize d.posX d.posY).gradientX *
              (1 - em.inertia)) +
        (d.dirY * em.inertia -
            (CalculateHeightAndGradient mapData mapSize d.posX d.posY).gradientY *
              (1 - em.inertia)) *
          (d.dirY * em.inertia -
            (CalculateHeightAndGradient mapData mapSize d.posX d.posY).gradientY *
              (1 - em.inertia)) := by
      unfold stepLen
      exact hs.mul_self _ (add_nonneg (mul_self_nonneg _) (mul_self_nonneg _))
    have hone : (d.dirX * em.inertia -
            (CalculateHeightAndGradient mapData mapSize d.posX d.posY).gradientX *
              (1 - em.inertia)) / stepLen sqrt em mapData mapSize d *
          ((d.dirX * em.inertia -
            (CalculateHeightAndGradient mapData mapSize d.posX d.posY).gradientX *
              (1 - em.inertia)) / stepLen sqrt em mapData mapSize d) +
        (d.dirY * em.inertia -
            (CalculateHeightAndGradient mapData mapSize d.posX d.posY).gradientY *
              (1 - em.inertia)) / stepLen sqrt em mapData mapSize d *
          ((d.dirY * em.inertia -
            (CalculateHeightAndGradient mapData mapSize d.posX d.posY).gradientY *
              (1 - em.inertia)) / stepLen sqrt em mapData mapSize d) = 1 := by
      rw [div_mul_div_comm, div_mul_div_comm, ← add_div, ← hsq]
      exact div_self (mul_pos hlpos hlpos).ne'
    rw [hone]
    have h1 := sqrt_mul_self_eq sqrt hs 1 zero_le_one
    rw [one_mul] at h1
    exact h1
  · intro hlen
    rw [if_neg (not_lt.2 hlen)]
    rfl

theorem gentle_sample :
    CalculateHeightAndGradient (gentleMap : List α) 2 0 0 =
      { height := 1 / 10000, gradientX := -(1 / 10000), gradientY := 0 } := by
  have ht : truncInt (0 : α) = 0 := by
    rw [truncInt_of_nonneg _ le_rfl, Int.floor_zero]
  unfold CalculateHeightAndGradient
  simp only [ht]
  have r0 : readAt (gentleMap : List α) (0 * 2 + 0) = 1 / 10000 := by
    simp [readAt, gentleMap]
  have r1 : readAt (gentleMap : List α) (0 * 2 + 0 + 1) = 0 := by
    simp [readAt, gentleMap]
  have r2 : readAt (gentleMap : List α) (0 * 2 + 0 + 2) = 1 / 10000 := by
    simp [readAt, gentleMap]
  have r3 : readAt (gentleMap : List α) (0 * 2 + 0 + 2 + 1) = 0 := by
    simp [readAt, gentleMap]
  rw [r0, r1, r2, r3]
  simp

theorem gentle_step (sqrt : α → α) (hs : IsSqrt sqrt) (em : ErosionMaker α)
    (hin : em.inertia = 5 / 100) :
    stepLen sqrt em (gentleMap : List α) 2 (dropletAt 0 0 0) = 19 / 200000 ∧
      stepDir sqrt em (gentleMap : List α) 2 (dropletAt 0 0 0) = (19 / 200000, 0) ∧
      stepPos sqrt em (gentleMap : List α) 2 (dropletAt 0 0 0) = (19 / 200000, 0) ∧
      ¬ stepStops sqrt em (gentleMap : List α) 2 (dropletAt 0 0 0) := by
  have hd : (dropletAt 0 0 0 : Droplet α) =
      { posX := 0, posY := 0, dirX := 0, dirY := 0, speed := 1, water := 1, sediment := 0 } := by
    simp [dropletAt]
  have hlen : stepLen sqrt em (gentleMap : List α) 2 (dropletAt 0 0 0) = 19 / 200000 := by
    unfold stepLen
    rw [hd]
    dsimp only
    rw [gentle_sample, hin]
    dsimp only
    have e : ((0 : α) * (5 / 100) - -(1 / 10000) * (1 - 5 / 100)) *
          (0 * (5 / 100) - -(1 / 10000) * (1 - 5 / 100)) +
        (0 * (5 / 100) - 0 * (1 - 5 / 100)) * (0 * (5 / 100) - 0 * (1 - 5 / 100)) =
        19 / 200000 * (19 / 200000) := by norm_num
    rw [e]
    exact sqrt_mul_self_eq sqrt hs _ (by norm_num)
  have hdir : stepDir sqrt em (gentleMap : List α) 2 (dropletAt 0 0 0) = (19 / 200000, 0) := by
    rw [stepDir_cases, hlen, if_neg (by norm_num)]
    rw [hd]
    dsimp only
    rw [gentle_sample, hin]
    dsimp only
    norm_num
  have hpos : stepPos sqrt em (gentleMap : List α) 2 (dropletAt 0 0 0) = (19 / 200000, 0) := by
    unfold stepPos
    rw [hdir, hd]
    simp
  refine ⟨hlen, hdir, hpos, ?_⟩
  unfold stepStops
  rw [hdir, hpos]
  norm_num

theorem ramp_stepLen (sqrt : α → α) (hs : IsSqrt sqrt) (em : ErosionMaker α)
    (hin : em.inertia = 5 / 100) (px py : ℕ) (sed : α) (hx : px ≤ 14) (hy : py ≤ 14) :
    stepLen sqrt em (rampMap : List α) 16 (dropletAt px py sed) = 19 / 300 := by
  unfold stepLen dropletAt
  dsimp only
  rw [ramp_sample px py hx hy, hin]
  dsimp only
  have e : ((0 : α) * (5 / 100) - -(1 / 15) * (1 - 5 / 100)) *
        (0 * (5 / 100) - -(1 / 15) * (1 - 5 / 100)) +
      (0 * (5 / 100) - 0 * (1 - 5 / 100)) * (0 * (5 / 100) - 0 * (1 - 5 / 100)) =
      19 / 300 * (19 / 300) := by norm_num
  rw [e]
  exact sqrt_mul_self_eq sqrt hs _ (by norm_num)

end AdvanceLemmas

/-! ## The claims -/

section ClaimsBrush

variable {α : Type} [LinearOrderedField α]

/-- C1: for every `mapSize ≥ 1` and `radius ≥ 1`, the weights that `InitializeBrushIndices`
stores for any cell index `i < mapSize * mapSize` are each strictly positive and sum to exactly
`1` in exact arithmetic; `i` ranges over the border cells, whose pattern is recomputed, and over
the interior cells, which reuse the pattern and `weightSum` left by the previous cell. -/
theorem brush_weights_normalized (sqrt : α → α) (hs : IsSqrt sqrt) (mapSize radius : ℤ)
    (hm : 1 ≤ mapSize) (hr : 1 ≤ radius) (i : ℕ) (hi : i < (mapSize * mapSize).toNat) :
    ∃ w, (InitializeBrushIndices sqrt mapSize radius).2[i]? = some w ∧
      (∀ x ∈ w, 0 < x) ∧ w.sum = 1 := by
  rw [InitializeBrushIndices_eq sqrt mapSize radius hm (by omega)]
  have hg := cell_in_grid mapSize hm i hi
  refine ⟨naiveBrushWeights sqrt mapSize radius (Int.tmod (i : ℤ) mapSize)
    (Int.tdiv (i : ℤ) mapSize), ?_, ?_⟩
  · simp only [List.getElem?_map, List.getElem?_range hi, Option.map_some']
  · exact naiveBrushWeights_normalized sqrt hs mapSize radius hr _ _ hg.1.1 hg.1.2 hg.2.1
      hg.2.2

/-- Witness of C1: the interior cell `(2, 2)` (index 12) of a 5×5 map with radius 1, over the
reals. -/
theorem brush_weights_normalized_witness :
    IsSqrt Real.sqrt ∧ (1 : ℤ) ≤ 5 ∧ (1 : ℤ) ≤ 1 ∧ 12 < ((5 : ℤ) * 5).toNat ∧
      ∃ w, (InitializeBrushIndices Real.sqrt 5 1).2[12]? = some w ∧
        (∀ x ∈ w, 0 < x) ∧ w.sum = 1 :=
  ⟨isSqrt_real, by norm_num, by norm_num, by decide,
    brush_weights_normalized Real.sqrt isSqrt_real 5 1 (by norm_num) (by norm_num) 12
      (by decide)⟩

/-- C2: the optimised builder equals the naive one.  For `mapSize ≥ 1`, `radius ≥ 1` and every
cell `(cx, cy)` of the grid, the entry `InitializeBrushIndices` stores at index
`cy * mapSize + cx` is the list, in row-major offset order, of the cells `(cx + dx, cy + dy)`
with `dx² + dy² < radius²` inside the grid, each with weight `1 - sqrt(dx² + dy²) / radius`
divided by the sum of these raw weights for that cell; both tables have `mapSize²` entries. -/
theorem brush_table_eq_naive (sqrt : α → α) (mapSize radius cx cy : ℤ) (hm : 1 ≤ mapSize)
    (hr : 1 ≤ radius) (hx0 : 0 ≤ cx) (hx1 : cx < mapSize) (hy0 : 0 ≤ cy) (hy1 : cy < mapSize) :
    (InitializeBrushIndices sqrt mapSize radius).1[(cy * mapSize + cx).toNat]? =
        some (naiveBrushIndices mapSize radius cx cy) ∧
      (InitializeBrushIndices sqrt mapSize radius).2[(cy * mapSize + cx).toNat]? =
        some (naiveBrushWeights sqrt mapSize radius cx cy) ∧
      (InitializeBrushIndices sqrt mapSize radius).1.length = (mapSize * mapSize).toNat ∧
      (InitializeBrushIndices sqrt mapSize radius).2.length = (mapSize * mapSize).toNat := by
  have h := brush_entry_at sqrt mapSize radius hm (by omega) cx cy hx0 hx1 hy0 hy1
  refine ⟨h.1, h.2, ?_, ?_⟩
  · rw [InitializeBrushIndices_eq sqrt mapSize radius hm (by omega)]
    simp
  · rw [InitializeBrushIndices_eq sqrt mapSize radius hm (by omega)]
    simp

/-- Witness of C2: the interior cell `(2, 2)` of a 5×5 map with radius 1, over the reals. -/
theorem brush_table_eq_naive_witness :
    ((1 : ℤ) ≤ 5 ∧ (1 : ℤ) ≤ 1 ∧ (0 : ℤ) ≤ 2 ∧ (2 : ℤ) < 5) ∧
      ((InitializeBrushIndices Real.sqrt 5 1).1[((2 : ℤ) * 5 + 2).toNat]? =
          some (naiveBrushIndices 5 1 2 2) ∧
        (InitializeBrushIndices Real.sqrt 5 1).2[((2 : ℤ) * 5 + 2).toNat]? =
          some (naiveBrushWeights Real.sqrt 5 1 2 2) ∧
        (InitializeBrushIndices Real.sqrt 5 1).1.length = ((5 : ℤ) * 5).toNat ∧
        (InitializeBrushIndices Real.sqrt 5 1).2.length = ((5 : ℤ) * 5).toNat) :=
  ⟨by norm_num,
    brush_table_eq_naive Real.sqrt 5 1 2 2 (by norm_num) (by norm_num) (by norm_num)
      (by norm_num) (by norm_num) (by norm_num)⟩

end ClaimsBrush

section ClaimsErode

variable {α : Type} [LinearOrderedField α] [FloorRing α]

/-- C3: `Erode` preserves non-negativity of the heightmap.  For `mapSize ≥ 2`, a heightmap of
`mapSize²` cells that are all `≥ 0`, `erosionRadius ≥ 1`, `erodeSpeed ≥ 0`,
`0 ≤ depositSpeed ≤ 1` and `minSedimentCapacity ≥ 0`, every droplet count and every random
stream, every cell is `≥ 0` when `Erode` returns, and also in every intermediate heightmap: the
one left by droplet number `iteration` after at most `lifetime` steps, for all `iteration` and
`lifetime`. -/
theorem erode_keeps_heights_nonneg (sqrt : α → α) (hs : IsSqrt sqrt) (em : ErosionMaker α)
    (hv : CacheValid sqrt em) (mapData : List α) (mapSize dropletAmount : ℤ)
    (resetSeed : Bool) (now : ℕ) (rnd : ℕ → ℕ) (hm : 2 ≤ mapSize)
    (_hlen : mapData.length = (mapSize * mapSize).toNat) (h0 : ∀ x ∈ mapData, 0 ≤ x)
    (hr : 1 ≤ em.erosionRadius) (he : 0 ≤ em.erodeSpeed) (hd0 : 0 ≤ em.depositSpeed)
    (hd1 : em.depositSpeed ≤ 1) (hc : 0 ≤ em.minSedimentCapacity) :
    (∀ x ∈ (Erode sqrt em mapData mapSize dropletAmount resetSeed now rnd).2, 0 ≤ x) ∧
      ∀ (iteration lifetime : ℕ),
        ∀ x ∈ dropletLoop sqrt (Initialize sqrt em mapSize resetSeed now) mapSize lifetime
            (erodeDroplets sqrt (Initialize sqrt em mapSize resetSeed now) mapSize rnd
              iteration mapData)
            (spawnDroplet (Initialize sqrt em mapSize resetSeed now) mapSize rnd iteration),
          0 ≤ x := by
  have hp := Initialize_params sqrt em mapSize resetSeed now
  obtain ⟨p1, _, _, p4, p5, p6, _⟩ := hp
  have hcf := Initialize_cacheFor sqrt em mapSize resetSeed now hv
  have hw := cache_weights_pos sqrt hs (Initialize sqrt em mapSize resetSeed now) mapSize
    (by omega) (by rw [p1]; exact hr) hcf
  have he' : 0 ≤ (Initialize sqrt em mapSize resetSeed now).erodeSpeed := by rw [p5]; exact he
  have hd0' : 0 ≤ (Initialize sqrt em mapSize resetSeed now).depositSpeed := by
    rw [p6]; exact hd0
  have hd1' : (Initialize sqrt em mapSize resetSeed now).depositSpeed ≤ 1 := by
    rw [p6]; exact hd1
  have hc' : 0 ≤ (Initialize sqrt em mapSize resetSeed now).minSedimentCapacity := by
    rw [p4]; exact hc
  constructor
  · unfold Erode
    exact erodeDroplets_nonneg sqrt _ mapSize he' hd0' hd1' hc' hw rnd _ mapData h0
  · intro iteration lifetime
    have hs' := spawnDroplet_pos (Initialize sqrt em mapSize resetSeed now) mapSize rnd
      iteration
    exact dropletLoop_inv sqrt _ mapSize he' hd0' hd1' hc' hw lifetime _ _
      ⟨erodeDroplets_nonneg sqrt _ mapSize he' hd0' hd1' hc' hw rnd iteration mapData h0,
        hs'.1, hs'.2.1, by rw [hs'.2.2]⟩

/-- Witness of C3: the fresh singleton with its default parameters on the 16×16 ramp of
scenario B, with three droplets, over the reals. -/
theorem erode_keeps_heights_nonneg_witness :
    (IsSqrt Real.sqrt ∧ CacheValid Real.sqrt (GetInstance : ErosionMaker ℝ) ∧
        (rampMap : List ℝ).length = ((16 : ℤ) * 16).toNat ∧
        (∀ x ∈ (rampMap : List ℝ), 0 ≤ x)) ∧
      ((∀ x ∈ (Erode Real.sqrt GetInstance (rampMap : List ℝ) 16 3 false 0
            (fun k => 5 + k)).2, 0 ≤ x) ∧
        ∀ (iteration lifetime : ℕ),
          ∀ x ∈ dropletLoop Real.sqrt (Initialize Real.sqrt GetInstance 16 false 0) 16 lifetime
              (erodeDroplets Real.sqrt (Initialize Real.sqrt GetInstance 16 false 0) 16
                (fun k => 5 + k) iteration (rampMap : List ℝ))
              (spawnDroplet (Initialize Real.sqrt GetInstance 16 false 0) 16
                (fun k => 5 + k) iteration),
            0 ≤ x) :=
  ⟨⟨isSqrt_real, GetInstance_cacheValid Real.sqrt, rampMap_length, rampMap_nonneg⟩,
    erode_keeps_heights_nonneg Real.sqrt isSqrt_real GetInstance
      (GetInstance_cacheValid Real.sqrt) rampMap 16 3 false 0 (fun k => 5 + k) (by norm_num)
      rampMap_length rampMap_nonneg (by norm_num [GetInstance]) (by norm_num [GetInstance])
      (by norm_num [GetInstance]) (by norm_num [GetInstance]) (by norm_num [GetInstance])⟩

/-- C4: mass conservation in the erode branch.  On a heightmap of `mapSize²` cells, with the
cache built for `mapSize` and the current radius, for every droplet step that takes the erode
branch the increase of the carried sediment equals the sum over all cells of
(height before − height after), and no cell outside the brush entry of the droplet's current
cell changes (the heightmap keeps its length). -/
theorem erode_branch_conserves_mass (sqrt : α → α) (em : ErosionMaker α) (mapData : List α)
    (mapSize : ℤ) (d d1 : Droplet α) (map1 : List α) (hm : 1 ≤ mapSize)
    (hr : 0 ≤ em.erosionRadius) (hc : CacheFor sqrt em mapSize)
    (hlen : mapData.length = (mapSize * mapSize).toNat)
    (h : dropletStep sqrt em mapData mapSize d = StepResult.eroded d1 map1) :
    d1.sediment - d.sediment = (List.zipWith (fun a b => a - b) mapData map1).sum ∧
      map1.length = mapData.length ∧
      ∀ j : ℕ, (j : ℤ) ∉ entryAt (em.erosionBrushIndices.getD [])
          (truncInt d.posY * mapSize + truncInt d.posX) → map1[j]? = mapData[j]? := by
  have := eroded_conserves sqrt em mapData mapSize d d1 map1 hm hr hc hlen h
  exact ⟨this.2.1, this.1, this.2.2⟩

/-- Witness of C4: the first step of a droplet spawned at `(5, 5)` on the ramp of scenario B,
with the default parameters, over the reals; this step takes the erode branch. -/
theorem erode_branch_conserves_mass_witness :
    ∃ (d1 : Droplet ℝ) (map1 : List ℝ),
      ((1 : ℤ) ≤ 16 ∧
        0 ≤ (Initialize Real.sqrt (GetInstance : ErosionMaker ℝ) 16 false 0).erosionRadius ∧
        CacheFor Real.sqrt (Initialize Real.sqrt (GetInstance : ErosionMaker ℝ) 16 false 0) 16 ∧
        (rampMap : List ℝ).length = ((16 : ℤ) * 16).toNat ∧
        dropletStep Real.sqrt (Initialize Real.sqrt GetInstance 16 false 0) rampMap 16
          (dropletAt 5 5 0) = StepResult.eroded d1 map1) ∧
      (d1.sediment - (dropletAt 5 5 0 : Droplet ℝ).sediment =
          (List.zipWith (fun a b => a - b) (rampMap : List ℝ) map1).sum ∧
        map1.length = (rampMap : List ℝ).length ∧
        ∀ j : ℕ, (j : ℤ) ∉
            entryAt ((Initialize Real.sqrt (GetInstance : ErosionMaker ℝ) 16 false
              0).erosionBrushIndices.getD [])
              (truncInt (dropletAt 5 5 0 : Droplet ℝ).posY * 16 +
                truncInt (dropletAt 5 5 0 : Droplet ℝ).posX) →
          map1[j]? = (rampMap : List ℝ)[j]?) :=
  have hp := Initialize_params Real.sqrt (GetInstance : ErosionMaker ℝ) 16 false 0
  have hrad : 0 ≤ (Initialize Real.sqrt (GetInstance : ErosionMaker ℝ) 16 false
      0).erosionRadius := by rw [hp.1]; norm_num [GetInstance]
  have hcf := Initialize_cacheFor Real.sqrt (GetInstance : ErosionMaker ℝ) 16 false 0
    (GetInstance_cacheValid Real.sqrt)
  have hstep := (ramp_step Real.sqrt isSqrt_real
    (Initialize Real.sqrt (GetInstance : ErosionMaker ℝ) 16 false 0)
    (by rw [hp.2.1]; rfl) (by rw [hp.2.2.2.2.2.2.2.1]; rfl) (by rw [hp.2.2.2.1]; rfl)
    5 5 (by norm_num) (by norm_num)).2
  let ⟨d1, map1, hd, _⟩ := hstep
  ⟨d1, map1, ⟨by norm_num, hrad, hcf, rampMap_length, hd⟩,
    erode_branch_conserves_mass Real.sqrt _ rampMap 16 (dropletAt 5 5 0) d1 map1
      (by norm_num) hrad hcf rampMap_length hd⟩

/-- C5: mass conservation in the deposit branch.  On a heightmap of `mapSize²` cells with
`mapSize ≥ 2`, for every droplet step from a position inside `[0, mapSize − 1)²` that takes the
deposit branch, the sum over the four corner cells of the droplet's cell of
(height after − height before) equals `amountToDeposit`, which equals the decrease of the
carried sediment; the four bilinear weights sum to `1`; no other cell changes. -/
theorem deposit_branch_conserves_mass (sqrt : α → α) (em : ErosionMaker α)
    (mapData : List α) (mapSize : ℤ) (d d1 : Droplet α) (map1 : List α) (hm : 2 ≤ mapSize)
    (hlen : mapData.length = (mapSize * mapSize).toNat)
    (hx0 : 0 ≤ d.posX) (hx1 : d.posX < ((mapSize - 1 : ℤ) : α))
    (hy0 : 0 ≤ d.posY) (hy1 : d.posY < ((mapSize - 1 : ℤ) : α))
    (h : dropletStep sqrt em mapData mapSize d = StepResult.deposited d1 map1) :
    ((readAt map1 (truncInt d.posY * mapSize + truncInt d.posX) -
            readAt mapData (truncInt d.posY * mapSize + truncInt d.posX)) +
          (readAt map1 (truncInt d.posY * mapSize + truncInt d.posX + 1) -
            readAt mapData (truncInt d.posY * mapSize + truncInt d.posX + 1)) +
          (readAt map1 (truncInt d.posY * mapSize + truncInt d.posX + mapSize) -
            readAt mapData (truncInt d.posY * mapSize + truncInt d.posX + mapSize)) +
          (readAt map1 (truncInt d.posY * mapSize + truncInt d.posX + mapSize + 1) -
            readAt mapData (truncInt d.posY * mapSize + truncInt d.posX + mapSize + 1)) =
        amountToDeposit em d (stepDeltaHeight sqrt em mapData mapSize d)) ∧
      amountToDeposit em d (stepDeltaHeight sqrt em mapData mapSize d) =
        d.sediment - d1.sediment ∧
      (1 - (d.posX - (truncInt d.posX : α))) * (1 - (d.posY - (truncInt d.posY : α))) +
          (d.posX - (truncInt d.posX : α)) * (1 - (d.posY - (truncInt d.posY : α))) +
          (1 - (d.posX - (truncInt d.posX : α))) * (d.posY - (truncInt d.posY : α)) +
          (d.posX - (truncInt d.posX : α)) * (d.posY - (truncInt d.posY : α)) = 1 ∧
      map1.length = mapData.length ∧
      ∀ j : ℕ, (j : ℤ) ≠ truncInt d.posY * mapSize + truncInt d.posX →
        (j : ℤ) ≠ truncInt d.posY * mapSize + truncInt d.posX + 1 →
        (j : ℤ) ≠ truncInt d.posY * mapSize + truncInt d.posX + mapSize →
        (j : ℤ) ≠ truncInt d.posY * mapSize + truncInt d.posX + mapSize + 1 →
        map1[j]? = mapData[j]? := by
  have := deposited_conserves sqrt em mapData mapSize d d1 map1 hm hlen hx0 hx1 hy0 hy1 h
  exact ⟨this.1, this.2.1, by ring, this.2.2.1, this.2.2.2⟩

/-- Witness of C5: a droplet at `(5, 5)` on the ramp of scenario B that carries sediment `1`,
more than its capacity, with the default parameters, over the reals; its step takes the deposit
branch. -/
theorem deposit_branch_conserves_mass_witness :
    ∃ (d1 : Droplet ℝ) (map1 : List ℝ),
      ((2 : ℤ) ≤ 16 ∧ (rampMap : List ℝ).length = ((16 : ℤ) * 16).toNat ∧
        (0 ≤ (dropletAt 5 5 1 : Droplet ℝ).posX ∧
          (dropletAt 5 5 1 : Droplet ℝ).posX < (((16 : ℤ) - 1 : ℤ) : ℝ)) ∧
        (0 ≤ (dropletAt 5 5 1 : Droplet ℝ).posY ∧
          (dropletAt 5 5 1 : Droplet ℝ).posY < (((16 : ℤ) - 1 : ℤ) : ℝ)) ∧
        dropletStep Real.sqrt (GetInstance : ErosionMaker ℝ) rampMap 16 (dropletAt 5 5 1) =
          StepResult.deposited d1 map1) ∧
      amountToDeposit (GetInstance : ErosionMaker ℝ) (dropletAt 5 5 1)
          (stepDeltaHeight Real.sqrt GetInstance rampMap 16 (dropletAt 5 5 1)) =
        (dropletAt 5 5 1 : Droplet ℝ).sediment - d1.sediment :=
  have hx : 0 ≤ (dropletAt 5 5 1 : Droplet ℝ).posX ∧
      (dropletAt 5 5 1 : Droplet ℝ).posX < (((16 : ℤ) - 1 : ℤ) : ℝ) := by
    norm_num [dropletAt]
  have hy : 0 ≤ (dropletAt 5 5 1 : Droplet ℝ).posY ∧
      (dropletAt 5 5 1 : Droplet ℝ).posY < (((16 : ℤ) - 1 : ℤ) : ℝ) := by
    norm_num [dropletAt]
  let ⟨d1, map1, hd⟩ := ramp_step_loaded Real.sqrt isSqrt_real (GetInstance : ErosionMaker ℝ)
    rfl rfl rfl 5 5 (by norm_num) (by norm_num)
  ⟨d1, map1, ⟨by norm_num, rampMap_length, hx, hy, hd⟩,
    (deposit_branch_conserves_mass Real.sqrt GetInstance rampMap 16 (dropletAt 5 5 1) d1 map1
      (by norm_num) rampMap_length hx.1 hx.2 hy.1 hy.2 hd).2.1⟩

/-- C6: a flat heightmap is a fixed point of `Erode`.  For `mapSize ≥ 2`, every constant `c`,
every configuration, droplet count and random stream, every droplet computes gradient `(0, 0)`
at its spawn point, its direction after the inertia update is `(0, 0)`, its first step ends at
the `break` of the stuck condition, and the heightmap after `Erode` is the heightmap before. -/
theorem flat_map_fixed_point (sqrt : α → α) (em : ErosionMaker α) (mapSize : ℤ) (c : α)
    (dropletAmount : ℤ) (resetSeed : Bool) (now : ℕ) (rnd : ℕ → ℕ) (iteration : ℕ)
    (hm : 2 ≤ mapSize) :
    (CalculateHeightAndGradient (List.replicate (mapSize * mapSize).toNat c) mapSize
          (spawnDroplet (Initialize sqrt em mapSize resetSeed now) mapSize rnd iteration).posX
          (spawnDroplet (Initialize sqrt em mapSize resetSeed now) mapSize rnd
            iteration).posY).gradientX = 0 ∧
      (CalculateHeightAndGradient (List.replicate (mapSize * mapSize).toNat c) mapSize
          (spawnDroplet (Initialize sqrt em mapSize resetSeed now) mapSize rnd iteration).posX
          (spawnDroplet (Initialize sqrt em mapSize resetSeed now) mapSize rnd
            iteration).posY).gradientY = 0 ∧
      stepDir sqrt (Initialize sqrt em mapSize resetSeed now)
          (List.replicate (mapSize * mapSize).toNat c) mapSize
          (spawnDroplet (Initialize sqrt em mapSize resetSeed now) mapSize rnd iteration) =
        (0, 0) ∧
      dropletStep sqrt (Initialize sqrt em mapSize resetSeed now)
          (List.replicate (mapSize * mapSize).toNat c) mapSize
          (spawnDroplet (Initialize sqrt em mapSize resetSeed now) mapSize rnd iteration) =
        StepResult.stopped ∧
      (Erode sqrt em (List.replicate (mapSize * mapSize).toNat c) mapSize dropletAmount
          resetSeed now rnd).2 = List.replicate (mapSize * mapSize).toNat c := by
  have hr := spawnDroplet_range (α := α) (Initialize sqrt em mapSize resetSeed now) mapSize hm
    rnd iteration
  have hg := flat_gradient mapSize c _ _ hm hr.1.1 hr.1.2 hr.2.1 hr.2.2
  refine ⟨hg.1, hg.2, flat_stepDir sqrt _ mapSize c hm rnd iteration,
    flat_step_stopped sqrt _ mapSize c hm rnd iteration, ?_⟩
  unfold Erode
  exact flat_erodeDroplets sqrt _ mapSize c hm rnd _

/-- Witness of C6 (scenario A): the flat 16×16 heightmap with all cells `0.5`, radius 2, one
droplet, over the reals. -/
theorem flat_map_fixed_point_witness :
    (2 : ℤ) ≤ 16 ∧
      dropletStep Real.sqrt
          (Initialize Real.sqrt { (GetInstance : ErosionMaker ℝ) with erosionRadius := 2 } 16
            false 0)
          (List.replicate ((16 : ℤ) * 16).toNat (1 / 2)) 16
          (spawnDroplet
            (Initialize Real.sqrt { (GetInstance : ErosionMaker ℝ) with erosionRadius := 2 } 16
              false 0) 16 (fun _ => 7) 0) =
        StepResult.stopped ∧
      (Erode Real.sqrt { (GetInstance : ErosionMaker ℝ) with erosionRadius := 2 }
          (List.replicate ((16 : ℤ) * 16).toNat (1 / 2)) 16 1 false 0 (fun _ => 7)).2 =
        List.replicate ((16 : ℤ) * 16).toNat (1 / 2) :=
  ⟨by norm_num,
    (flat_map_fixed_point Real.sqrt { (GetInstance : ErosionMaker ℝ) with erosionRadius := 2 }
      16 (1 / 2) 1 false 0 (fun _ => 7) 0 (by norm_num)).2.2.2⟩

/-- C7 (evaluation of the code at the failing input): on the 16×16 ramp of scenario B with the
default parameters, the first step of the droplet `Erode` spawns at `(5, 5)` is completed
through the erode branch, the term `deltaHeight * gravity` added under the square root is
negative, and the speed after the step is `sqrt (11 / 15)`, strictly less than the initial
speed. -/
theorem ramp_first_step_speed_drops :
    spawnDroplet (Initialize Real.sqrt (GetInstance : ErosionMaker ℝ) 16 false 0) 16
        (fun _ => 5) 0 = dropletAt 5 5 0 ∧
      stepDeltaHeight Real.sqrt (Initialize Real.sqrt (GetInstance : ErosionMaker ℝ) 16 false 0)
          rampMap 16 (dropletAt 5 5 0) *
        (Initialize Real.sqrt (GetInstance : ErosionMaker ℝ) 16 false 0).gravity < 0 ∧
      ∃ (d1 : Droplet ℝ) (map1 : List ℝ),
        dropletStep Real.sqrt (Initialize Real.sqrt GetInstance 16 false 0) rampMap 16
            (dropletAt 5 5 0) = StepResult.eroded d1 map1 ∧
          d1.speed = Real.sqrt (11 / 15) ∧
          d1.speed < (Initialize Real.sqrt (GetInstance : ErosionMaker ℝ) 16 false
            0).initialSpeed := by
  have hp := Initialize_params Real.sqrt (GetInstance : ErosionMaker ℝ) 16 false 0
  have hstep := ramp_step Real.sqrt isSqrt_real
    (Initialize Real.sqrt (GetInstance : ErosionMaker ℝ) 16 false 0)
    (by rw [hp.2.1]; rfl) (by rw [hp.2.2.2.2.2.2.2.1]; rfl) (by rw [hp.2.2.2.1]; rfl)
    5 5 (by norm_num) (by norm_num)
  refine ⟨?_, hstep.1, ?_⟩
  · unfold spawnDroplet dropletAt
    rw [hp.2.2.2.2.2.2.2.2.2.1, hp.2.2.2.2.2.2.2.2.2.2]
    have e : Int.tmod ((5 : ℕ) : ℤ) (16 - 1) + 0 = 5 := by decide
    simp only [e]
    simp [GetInstance]
  · obtain ⟨d1, map1, h1, h2, h3⟩ := hstep.2
    refine ⟨d1, map1, h1, h2, ?_⟩
    rw [hp.2.2.2.2.2.2.2.2.2.2]
    exact h3

end ClaimsErode

section ClaimsRemap

variable {α : Type} [LinearOrderedField α]

/-- C8: `RemapValue` is monotonic non-decreasing on `[0, 1]`: for `0 ≤ a ≤ b ≤ 1`,
`RemapValue a ≤ RemapValue b`. -/
theorem remapValue_monotone (a b : α) (ha : 0 ≤ a) (hab : a ≤ b) (_hb : b ≤ 1) :
    RemapValue a ≤ RemapValue b :=
  RemapValue_mono a b ha hab

/-- Witness of C8: `a = 0.1`, `b = 0.5`. -/
theorem remapValue_monotone_witness :
    ((0 : ℚ) ≤ 1 / 10 ∧ (1 / 10 : ℚ) ≤ 1 / 2 ∧ (1 / 2 : ℚ) ≤ 1) ∧
      RemapValue (1 / 10 : ℚ) ≤ RemapValue (1 / 2 : ℚ) :=
  ⟨by norm_num, remapValue_monotone (1 / 10) (1 / 2) (by norm_num) (by norm_num) (by norm_num)⟩

/-- C9: for `0 ≤ x ≤ 1`, `RemapValue x` is the linear interpolation between any two consecutive
control points `point[k]`, `point[k + 1]` of `(0,0), (0.15,0.16), (0.2,0.16), (1,1)` that bracket
`x`; every `x` with `0.15 ≤ x ≤ 0.2` is mapped to exactly `0.16`; and `Remap`, on a vector of at
least `mapSize²` values, succeeds and replaces each of the first `mapSize²` values by
`RemapValue` of its old value, leaving the others and the length as they are. -/
theorem remap_piecewise_linear (x : α) (k : ℕ) (map : List α) (mapSize : ℤ) :
    (0 ≤ x → x ≤ 1 → k < 3 → (pointAt remapPoints k).x ≤ x →
        x ≤ (pointAt remapPoints (k + 1)).x →
        RemapValue x = segmentValue (pointAt remapPoints k) (pointAt remapPoints (k + 1)) x) ∧
      (15 / 100 ≤ x → x ≤ 2 / 10 → RemapValue x = 16 / 100) ∧
      ((mapSize * mapSize).toNat ≤ map.length →
        ∃ r, Remap map mapSize = some r ∧ r.length = map.length ∧
          ∀ i, r[i]? = if i < (mapSize * mapSize).toNat then (map[i]?).map RemapValue
            else map[i]?) := by
  refine ⟨?_, ?_, Remap_spec map mapSize⟩
  · intro h0 h1 hk hp hq
    exact RemapValue_segment x k hk hp hq
  · intro h1 h2
    exact RemapValue_band x h1 h2

/-- Witness of C9: `x = 0.17` between `point[1]` and `point[2]`, and `Remap` of a 2×2 map. -/
theorem remap_piecewise_linear_witness :
    RemapValue (17 / 100 : ℚ) =
        segmentValue (pointAt remapPoints 1) (pointAt remapPoints 2) (17 / 100) ∧
      RemapValue (17 / 100 : ℚ) = 16 / 100 ∧
      ∃ r, Remap [(1 / 2 : ℚ), 1 / 10, -3, 7] 2 = some r ∧
        r.length = [(1 / 2 : ℚ), 1 / 10, -3, 7].length ∧
        ∀ i, r[i]? = if i < ((2 : ℤ) * 2).toNat then
            ([(1 / 2 : ℚ), 1 / 10, -3, 7][i]?).map RemapValue
          else [(1 / 2 : ℚ), 1 / 10, -3, 7][i]? :=
  ⟨(remap_piecewise_linear (17 / 100 : ℚ) 1 [1 / 2, 1 / 10, -3, 7] 2).1 (by norm_num)
      (by norm_num) (by norm_num) (by norm_num [pointAt, remapPoints])
      (by norm_num [pointAt, remapPoints]),
    (remap_piecewise_linear (17 / 100 : ℚ) 1 [1 / 2, 1 / 10, -3, 7] 2).2.1 (by norm_num)
      (by norm_num),
    (remap_piecewise_linear (17 / 100 : ℚ) 1 [1 / 2, 1 / 10, -3, 7] 2).2.2 (by decide)⟩

/-- C10: `RemapValue` fixes the endpoints and all negative values: `RemapValue 0 = 0`,
`RemapValue 1 = 1`, and `RemapValue x = x` for every `x < 0`. -/
theorem remapValue_fixes_ends (x : α) :
    RemapValue (0 : α) = 0 ∧ RemapValue (1 : α) = 1 ∧ (x < 0 → RemapValue x = x) := by
  refine ⟨?_, ?_, ?_⟩
  · rw [RemapValue_linear]; norm_num
  · rw [RemapValue_linear]; norm_num
  · intro h
    rw [RemapValue_linear, if_pos h]

/-- Witness of C10: `x = -1`. -/
theorem remapValue_fixes_ends_witness :
    (-1 : ℚ) < 0 ∧ RemapValue (-1 : ℚ) = -1 :=
  ⟨by norm_num, (remapValue_fixes_ends (-1 : ℚ)).2.2 (by norm_num)⟩

end ClaimsRemap


section ClaimsGradient

variable {α : Type} [LinearOrderedField α]

/-- C11: for every `mapSize ≥ 1`, every gradient type (SQUARE, CIRCLE, DIAMOND, STAR) and every
cell `(x, y)` of the grid, the normalized distance computed by `Gradient` lies in `[0, 1]`, so
the factor `1 - normalizedDistance` lies in `[0, 1]`, and `Gradient` multiplies the cell
`y * mapSize + x` by exactly this factor; SQUARE and STAR, whose Chebyshev term has no explicit
`min(..., 1)`, are included. -/
theorem gradient_factor_in_unit_interval (mapData : List α) (mapSize : ℤ) (off : α)
    (gradientType : GradientType) (x y : ℕ) (hm : 1 ≤ mapSize) (hx : (x : ℤ) < mapSize)
    (hy : (y : ℤ) < mapSize) :
    (0 ≤ (gradientDistance mapSize gradientType x y : α) ∧
        (gradientDistance mapSize gradientType x y : α) ≤ 1) ∧
      (0 ≤ 1 - (gradientDistance mapSize gradientType x y : α) ∧
        1 - (gradientDistance mapSize gradientType x y : α) ≤ 1) ∧
      (Gradient mapData mapSize off gradientType)[((y : ℤ) * mapSize + (x : ℤ)).toNat]? =
        (mapData[((y : ℤ) * mapSize + (x : ℤ)).toNat]?).map
          (fun v => v * (1 - gradientDistance mapSize gradientType x y)) := by
  obtain ⟨n, rfl⟩ := Int.eq_ofNat_of_zero_le (by omega : 0 ≤ mapSize)
  have hn : 1 ≤ n := by omega
  have hx' : x < n := by omega
  have hy' : y < n := by omega
  have hb := gradientDistance_bounds (α := α) n hn gradientType x y hx' hy'
  have hidx : ((y : ℤ) * (n : ℤ) + (x : ℤ)).toNat = y * n + x := by
    have : ((y : ℤ) * (n : ℤ) + (x : ℤ)) = ((y * n + x : ℕ) : ℤ) := by push_cast; ring
    rw [this, Int.toNat_natCast]
  have hlt : y * n + x < n * n := by
    calc y * n + x < y * n + n := by omega
      _ = (y + 1) * n := by ring
      _ ≤ n * n := Nat.mul_le_mul_right n (by omega)
  refine ⟨hb, ⟨by linarith [hb.2], by linarith [hb.1]⟩, ?_⟩
  rw [hidx, Gradient_getElem? n mapData off gradientType _ hlt,
    cellFactor_cell n gradientType x y hx']

/-- Witness of C11: the cell `(3, 0)` of a 4×4 map of ones with type STAR. -/
theorem gradient_factor_in_unit_interval_witness :
    ((1 : ℤ) ≤ 4 ∧ ((3 : ℕ) : ℤ) < 4 ∧ ((0 : ℕ) : ℤ) < 4) ∧
      (0 ≤ (gradientDistance 4 GradientType.STAR 3 0 : ℚ) ∧
        (gradientDistance 4 GradientType.STAR 3 0 : ℚ) ≤ 1) :=
  ⟨by decide,
    (gradient_factor_in_unit_interval (List.replicate 16 (1 : ℚ)) 4 (1 / 2) GradientType.STAR
      3 0 (by decide) (by decide) (by decide)).1⟩

/-- C12 (scenario C): for every even `mapSize ≥ 2`, `Gradient` with type SQUARE on the heightmap
whose `mapSize²` cells are all `1` leaves the centre cell `(mapSize / 2, mapSize / 2)` equal to
`1` and sets the corner cell `(0, 0)` to `0`. -/
theorem gradient_square_centre_corner (mapSize : ℤ) (off : α) (hm : 2 ≤ mapSize)
    (heven : mapSize % 2 = 0) :
    (Gradient (List.replicate (mapSize * mapSize).toNat (1 : α)) mapSize off
          GradientType.SQUARE)[(mapSize / 2 * mapSize + mapSize / 2).toNat]? = some 1 ∧
      (Gradient (List.replicate (mapSize * mapSize).toNat (1 : α)) mapSize off
          GradientType.SQUARE)[0]? = some 0 := by
  obtain ⟨k, hk⟩ : ∃ k : ℕ, mapSize = ((2 * k : ℕ) : ℤ) := ⟨(mapSize / 2).toNat, by omega⟩
  subst hk
  have hk1 : 1 ≤ k := by omega
  have hcell : (((2 * k : ℕ) : ℤ) / 2 * ((2 * k : ℕ) : ℤ) + ((2 * k : ℕ) : ℤ) / 2).toNat =
      k * (2 * k) + k := by
    have h2 : ((2 * k : ℕ) : ℤ) / 2 = (k : ℤ) := by omega
    rw [h2]
    have : ((k : ℤ) * ((2 * k : ℕ) : ℤ) + (k : ℤ)) = ((k * (2 * k) + k : ℕ) : ℤ) := by
      push_cast; ring
    rw [this, Int.toNat_natCast]
  have hlen : (((2 * k : ℕ) : ℤ) * ((2 * k : ℕ) : ℤ)).toNat = 2 * k * (2 * k) := by
    have : (((2 * k : ℕ) : ℤ) * ((2 * k : ℕ) : ℤ)) = ((2 * k * (2 * k) : ℕ) : ℤ) := by
      push_cast; ring
    rw [this, Int.toNat_natCast]
  have hkpos : (0 : α) < (k : α) := by exact_mod_cast hk1
  have hhalf : (((2 * k : ℕ) : ℤ) : α) / 2 = (k : α) := by push_cast; ring
  have hlt : k * (2 * k) + k < 2 * k * (2 * k) := by nlinarith
  have hlt0 : 0 * (2 * k) + 0 < 2 * k * (2 * k) := by nlinarith
  constructor
  · rw [hcell, hlen, Gradient_getElem? (2 * k) _ off GradientType.SQUARE _ hlt,
      cellFactor_cell (2 * k) GradientType.SQUARE k k (by omega),
      List.getElem?_replicate, if_pos hlt]
    simp only [gradientDistance, hhalf, sub_self, abs_zero, max_self, zero_div, sub_zero,
      Option.map_some', one_mul]
  · have hg := Gradient_getElem? (2 * k) (List.replicate (2 * k * (2 * k)) (1 : α)) off
      GradientType.SQUARE (0 * (2 * k) + 0) hlt0
    rw [cellFactor_cell (2 * k) GradientType.SQUARE 0 0 (by omega),
      List.getElem?_replicate, if_pos hlt0] at hg
    simp only [Nat.zero_mul, Nat.add_zero] at hg
    rw [hlen, hg]
    simp only [gradientDistance, hhalf, Nat.cast_zero, zero_sub, abs_neg, max_self,
      abs_of_pos hkpos, div_self hkpos.ne', sub_self, Option.map_some', mul_zero]

/-- Witness of C12: `mapSize = 16`. -/
theorem gradient_square_centre_corner_witness :
    ((2 : ℤ) ≤ 16 ∧ (16 : ℤ) % 2 = 0) ∧
      ((Gradient (List.replicate ((16 : ℤ) * 16).toNat (1 : ℚ)) 16 (1 / 2)
            GradientType.SQUARE)[((16 : ℤ) / 2 * 16 + (16 : ℤ) / 2).toNat]? = some 1 ∧
        (Gradient (List.replicate ((16 : ℤ) * 16).toNat (1 : ℚ)) 16 (1 / 2)
            GradientType.SQUARE)[0]? = some 0) :=
  ⟨by decide, gradient_square_centre_corner 16 (1 / 2) (by decide) (by decide)⟩

/-- C13: for every `mapSize ≥ 1`, heightmap of `mapSize²` cells and cell `(x, y)` of the grid,
`GetNormal` completes (no lookup is out of range) and returns the vector
`(-dX, 1/20, -dY)` multiplied by a positive scalar, of Euclidean length `1` in exact arithmetic,
where `dX` and `dY` are the Sobel sums of the eight clamped neighbours; its `y` component is
strictly positive. -/
theorem getNormal_unit_vector (sqrt : α → α) (hs : IsSqrt sqrt) (mapData : List α)
    (mapSize x y : ℤ) (hm : 1 ≤ mapSize) (hlen : mapData.length = (mapSize * mapSize).toNat)
    (_hx0 : 0 ≤ x) (_hx1 : x < mapSize) (_hy0 : 0 ≤ y) (hy1 : y < mapSize) :
    ∃ (n : Vector3 α) (c : α),
      GetNormal sqrt mapData mapSize x y = some n ∧ 0 < c ∧
        n = { x := c * -(sobelX mapData mapSize x y), y := c * (1 / 20),
              z := c * -(sobelY mapData mapSize x y) } ∧
        n.x * n.x + n.y * n.y + n.z * n.z = 1 ∧
        sqrt (n.x * n.x + n.y * n.y + n.z * n.z) = 1 ∧ 0 < n.y := by
  have hq : (0 : α) <
      (-(sobelX mapData mapSize x y)) * (-(sobelX mapData mapSize x y)) + 1 / 20 * (1 / 20) +
        (-(sobelY mapData mapSize x y)) * (-(sobelY mapData mapSize x y)) := by
    nlinarith [mul_self_nonneg (sobelX mapData mapSize x y),
      mul_self_nonneg (sobelY mapData mapSize x y)]
  obtain ⟨c, hc, hval, hone⟩ := Vector3Normalize_unit sqrt hs
    { x := -(sobelX mapData mapSize x y), y := 1 / 20, z := -(sobelY mapData mapSize x y) } hq
  refine ⟨_, c, GetNormal_eq sqrt mapData mapSize x y hm hlen hy1, hc, hval, hone, ?_, ?_⟩
  · rw [hone]
    have h1 := hs.mul_self 1 zero_le_one
    have h2 := hs.nonneg (1 : α)
    have : sqrt (1 : α) * sqrt 1 = 1 * 1 := by rw [h1, one_mul]
    exact (mul_self_inj h2 zero_le_one).1 this
  · rw [hval]
    dsimp only
    positivity

/-- Witness of C13: the cell `(1, 1)` of the 2×2 heightmap `[0, 1, 2, 3]`, over the reals. -/
theorem getNormal_unit_vector_witness :
    (IsSqrt Real.sqrt ∧ (1 : ℤ) ≤ 2 ∧ [(0 : ℝ), 1, 2, 3].length = ((2 : ℤ) * 2).toNat ∧
        (0 : ℤ) ≤ 1 ∧ (1 : ℤ) < 2) ∧
      ∃ (n : Vector3 ℝ) (c : ℝ),
        GetNormal Real.sqrt [(0 : ℝ), 1, 2, 3] 2 1 1 = some n ∧ 0 < c ∧
          n = { x := c * -(sobelX [(0 : ℝ), 1, 2, 3] 2 1 1), y := c * (1 / 20),
                z := c * -(sobelY [(0 : ℝ), 1, 2, 3] 2 1 1) } ∧
          n.x * n.x + n.y * n.y + n.z * n.z = 1 ∧
          Real.sqrt (n.x * n.x + n.y * n.y + n.z * n.z) = 1 ∧ 0 < n.y :=
  ⟨⟨isSqrt_real, by decide, by decide, by decide, by decide⟩,
    getNormal_unit_vector Real.sqrt isSqrt_real [(0 : ℝ), 1, 2, 3] 2 1 1 (by decide)
      (by decide) (by decide) (by decide) (by decide) (by decide)⟩

/-- C14 (evaluation of the code at the failing input): on the 2×2 heightmap `[0, 0, 0, 0]`,
`GetNormal` for `(x, y) = (0, 2)` fails: the lookup of `r` (line 312) clamps its row with
`mapSize` and reads index `5`, outside `[0, 4)`, where the clamped neighbour is at index `3`; the
three lookups before it clamp with `mapSize - 1` and succeed. -/
theorem getNormal_fails_below_grid :
    GetNormal Real.sqrt [(0 : ℝ), 0, 0, 0] 2 0 2 = none ∧
      min (max (2 : ℤ) 0) 2 * 2 + min (max ((0 : ℤ) + 1) 0) (2 - 1) = 5 ∧
      clampCoord 2 2 * 2 + clampCoord 2 (0 + 1) = 3 ∧
      atIndex [(0 : ℝ), 0, 0, 0] 5 = none := by
  refine ⟨?_, by decide, by decide, ?_⟩
  · have e1 : min (max ((2 : ℤ) + 1) 0) (2 - 1) * 2 + min (max ((0 : ℤ) - 1) 0) (2 - 1) = 2 := by
      decide
    have e2 : min (max ((2 : ℤ) + 1) 0) (2 - 1) * 2 + min (max (0 : ℤ) 0) (2 - 1) = 2 := by
      decide
    have e3 : min (max ((2 : ℤ) + 1) 0) (2 - 1) * 2 + min (max ((0 : ℤ) + 1) 0) (2 - 1) = 3 := by
      decide
    have e4 : min (max (2 : ℤ) 0) (2 - 1) * 2 + min (max ((0 : ℤ) - 1) 0) (2 - 1) = 2 := by
      decide
    have e5 : min (max (2 : ℤ) 0) 2 * 2 + min (max ((0 : ℤ) + 1) 0) (2 - 1) = 5 := by decide
    unfold GetNormal
    rw [e1, e2, e3, e4, e5]
    simp [atIndex]
  · simp [atIndex]

end ClaimsGradient

section ClaimsSession

variable {α : Type} [LinearOrderedField α] [FloorRing α]

/-- C15: cache validity.  After any sequence `history` of `Erode` calls on the fresh singleton,
with the public members (among them `erosionRadius`) reassigned before each call, the next call
simulates its droplets with the singleton state whose brush tables are the ones
`InitializeBrushIndices` builds for that call's `mapSize` and `erosionRadius`.  Moreover, in
any state, `Initialize` stores the rebuilt tables and records `(mapSize, erosionRadius)` when
there is no table or the recorded radius or map size differs from the call's, and otherwise
leaves the tables and the recorded values as they are. -/
theorem cache_valid_in_every_call (sqrt : α → α) (history : List (ErodeCall α))
    (c : ErodeCall α) (em : ErosionMaker α) (mapSize : ℤ) (resetSeed : Bool) (now : ℕ) :
    (CacheFor sqrt
        (Erode sqrt (setPublic (erodeCalls sqrt GetInstance history) c.params) c.mapData
          c.mapSize c.dropletAmount c.resetSeed c.now c.rnd).1 c.mapSize ∧
      (Erode sqrt (setPublic (erodeCalls sqrt GetInstance history) c.params) c.mapData
          c.mapSize c.dropletAmount c.resetSeed c.now c.rnd).1.erosionRadius =
        c.params.erosionRadius ∧
      (Erode sqrt (setPublic (erodeCalls sqrt GetInstance history) c.params) c.mapData
          c.mapSize c.dropletAmount c.resetSeed c.now c.rnd).2 =
        erodeDroplets sqrt
          (Erode sqrt (setPublic (erodeCalls sqrt GetInstance history) c.params) c.mapData
            c.mapSize c.dropletAmount c.resetSeed c.now c.rnd).1
          c.mapSize c.rnd c.dropletAmount.toNat c.mapData) ∧
      ((em.erosionBrushIndices = none ∨ em.currentErosionRadius ≠ em.erosionRadius ∨
          em.currentMapSize ≠ mapSize) →
        (Initialize sqrt em mapSize resetSeed now).erosionBrushIndices =
            some (InitializeBrushIndices sqrt mapSize em.erosionRadius).1 ∧
          (Initialize sqrt em mapSize resetSeed now).erosionBrushWeights =
            some (InitializeBrushIndices sqrt mapSize em.erosionRadius).2 ∧
          (Initialize sqrt em mapSize resetSeed now).currentErosionRadius = em.erosionRadius ∧
          (Initialize sqrt em mapSize resetSeed now).currentMapSize = mapSize) ∧
      (¬ (em.erosionBrushIndices = none ∨ em.currentErosionRadius ≠ em.erosionRadius ∨
          em.currentMapSize ≠ mapSize) →
        (Initialize sqrt em mapSize resetSeed now).erosionBrushIndices =
            em.erosionBrushIndices ∧
          (Initialize sqrt em mapSize resetSeed now).erosionBrushWeights =
            em.erosionBrushWeights ∧
          (Initialize sqrt em mapSize resetSeed now).currentErosionRadius =
            em.currentErosionRadius ∧
          (Initialize sqrt em mapSize resetSeed now).currentMapSize = em.currentMapSize) := by
  have hv := setPublic_cacheValid sqrt (erodeCalls sqrt GetInstance history) c.params
    (erodeCalls_cacheValid sqrt history GetInstance (GetInstance_cacheValid sqrt))
  have hp := Initialize_private sqrt em mapSize resetSeed now
  refine ⟨⟨?_, ?_, rfl⟩, hp.1, hp.2⟩
  · exact Initialize_cacheFor sqrt _ c.mapSize c.resetSeed c.now hv
  · exact (Initialize_params sqrt _ c.mapSize c.resetSeed c.now).1

/-- Witness of C15: a state without tables takes the rebuilding path of `Initialize`. -/
theorem cache_valid_in_every_call_witness :
    (GetInstance : ErosionMaker ℝ).erosionBrushIndices = none ∧
      (Initialize Real.sqrt (GetInstance : ErosionMaker ℝ) 16 false 0).erosionBrushIndices =
        some (InitializeBrushIndices Real.sqrt 16 (GetInstance : ErosionMaker ℝ).erosionRadius).1 :=
  ⟨rfl,
    ((cache_valid_in_every_call Real.sqrt []
      { params := GetInstance, mapData := rampMap, mapSize := 16, dropletAmount := 1,
        resetSeed := false, now := 0, rnd := fun _ => 5 }
      GetInstance 16 false 0).2.1 (Or.inl rfl)).1⟩

/-- C17: for every heightmap and `mapSize`, `Erode` with `dropletAmount = 0` and
`resetSeed = false` returns the heightmap it was given; of the singleton only the brush tables
and the recorded `(currentMapSize, currentErosionRadius)` may differ afterwards: the recorded
seed and all public members are unchanged. -/
theorem erode_zero_droplets_frame (sqrt : α → α) (em : ErosionMaker α) (mapData : List α)
    (mapSize : ℤ) (now : ℕ) (rnd : ℕ → ℕ) :
    (Erode sqrt em mapData mapSize 0 false now rnd).2 = mapData ∧
      (Erode sqrt em mapData mapSize 0 false now rnd).1.currentSeed = em.currentSeed ∧
      (Erode sqrt em mapData mapSize 0 false now rnd).1.erosionRadius = em.erosionRadius ∧
      (Erode sqrt em mapData mapSize 0 false now rnd).1.inertia = em.inertia ∧
      (Erode sqrt em mapData mapSize 0 false now rnd).1.sedimentCapacityFactor =
        em.sedimentCapacityFactor ∧
      (Erode sqrt em mapData mapSize 0 false now rnd).1.minSedimentCapacity =
        em.minSedimentCapacity ∧
      (Erode sqrt em mapData mapSize 0 false now rnd).1.erodeSpeed = em.erodeSpeed ∧
      (Erode sqrt em mapData mapSize 0 false now rnd).1.depositSpeed = em.depositSpeed ∧
      (Erode sqrt em mapData mapSize 0 false now rnd).1.evaporateSpeed = em.evaporateSpeed ∧
      (Erode sqrt em mapData mapSize 0 false now rnd).1.gravity = em.gravity ∧
      (Erode sqrt em mapData mapSize 0 false now rnd).1.maxDropletLifetime =
        em.maxDropletLifetime ∧
      (Erode sqrt em mapData mapSize 0 false now rnd).1.initialWaterVolume =
        em.initialWaterVolume ∧
      (Erode sqrt em mapData mapSize 0 false now rnd).1.initialSpeed = em.initialSpeed := by
  have hp := Initialize_params sqrt em mapSize false now
  exact ⟨rfl, Initialize_seed sqrt em mapSize now, hp⟩

/-- C18: sampling stays in range.  For `mapSize ≥ 2` and a heightmap of `mapSize²` cells, every
pass through the body of the lifetime loop during `Erode` (any configuration, droplet count and
random stream) starts with a heightmap of `mapSize²` cells and a droplet position in
`[0, mapSize - 1)²`, so the four node indices of the first call of
`CalculateHeightAndGradient` and of the deposit writes lie in `[0, mapSize²)`; and when the
pass does not end at the `break`, the same holds for the moved position at which
`CalculateHeightAndGradient` is called the second time. -/
theorem sampling_stays_in_range (sqrt : α → α) (em : ErosionMaker α) (mapSize : ℤ)
    (rnd : ℕ → ℕ) (mapData0 m : List α) (d : Droplet α) (hm : 2 ≤ mapSize)
    (hlen : mapData0.length = (mapSize * mapSize).toNat)
    (h : LoopState sqrt em mapSize rnd mapData0 m d) :
    m.length = (mapSize * mapSize).toNat ∧
      InGrid mapSize d.posX d.posY ∧ NodesInRange mapSize d.posX d.posY ∧
      (¬ stepStops sqrt em m mapSize d →
        InGrid mapSize (stepPos sqrt em m mapSize d).1 (stepPos sqrt em m mapSize d).2 ∧
          NodesInRange mapSize (stepPos sqrt em m mapSize d).1
            (stepPos sqrt em m mapSize d).2) := by
  have hinv := loopState_inv sqrt em mapSize rnd mapData0 m d hm h
  refine ⟨hinv.1.trans hlen, hinv.2, inGrid_nodes mapSize _ _ hm hinv.2, ?_⟩
  intro hns
  have hp := not_stepStops_pos sqrt em m mapSize d hns
  exact ⟨hp, inGrid_nodes mapSize _ _ hm hp⟩

/-- Witness of C18: the second pass of the droplet spawned at `(5, 5)` on the ramp of scenario
B, with the default parameters, over the reals. -/
theorem sampling_stays_in_range_witness :
    ∃ (d1 : Droplet ℝ) (map1 : List ℝ),
      ((2 : ℤ) ≤ 16 ∧ (rampMap : List ℝ).length = ((16 : ℤ) * 16).toNat ∧
        LoopState Real.sqrt (GetInstance : ErosionMaker ℝ) 16 (fun _ => 5) rampMap map1 d1) ∧
      (map1.length = ((16 : ℤ) * 16).toNat ∧ InGrid 16 d1.posX d1.posY ∧
        NodesInRange 16 d1.posX d1.posY) :=
  have hspawn : spawnDroplet (GetInstance : ErosionMaker ℝ) 16 (fun _ => 5) 0 =
      dropletAt 5 5 0 := by
    unfold spawnDroplet dropletAt
    have e : Int.tmod ((5 : ℕ) : ℤ) (16 - 1) + 0 = 5 := by decide
    simp only [e]
    simp [GetInstance]
  have h0 : LoopState Real.sqrt (GetInstance : ErosionMaker ℝ) 16 (fun _ => 5) rampMap
      rampMap (dropletAt 5 5 0) := by
    have hs : LoopState Real.sqrt (GetInstance : ErosionMaker ℝ) 16 (fun _ => 5) rampMap
        (erodeDroplets Real.sqrt GetInstance 16 (fun _ => 5) 0 rampMap)
        (spawnDroplet GetInstance 16 (fun _ => 5) 0) := LoopState.spawn 0
    rw [hspawn] at hs
    exact hs
  let ⟨d1, map1, hd, _⟩ := (ramp_step Real.sqrt isSqrt_real (GetInstance : ErosionMaker ℝ)
    rfl rfl rfl 5 5 (by norm_num) (by norm_num)).2
  have h1 := LoopState.eroded rampMap map1 (dropletAt 5 5 0) d1 h0 hd
  have hr := sampling_stays_in_range Real.sqrt GetInstance 16 (fun _ => 5) rampMap map1 d1
    (by norm_num) rampMap_length h1
  ⟨d1, map1, ⟨by norm_num, rampMap_length, h1⟩, hr.1, hr.2.1, hr.2.2.1⟩

/-- C19 (evaluation of the code at the failing input): on the 2×2 heightmap `gentleMap` with
the default parameters, the droplet that `Erode` spawns at `(0, 0)` gets the direction
`(0.000095, 0)`, whose length `0.000095` is not above `0.0001`, so it is not normalised: the
pass is not ended by the stuck condition (nor by the edge test), and the position advances to
`(0.000095, 0)`, a distance of `0.000095` and not of `1`. -/
theorem unit_advance_counterexample :
    spawnDroplet (GetInstance : ErosionMaker ℝ) 2 (fun _ => 0) 0 = dropletAt 0 0 0 ∧
      ¬ ((stepDir Real.sqrt (GetInstance : ErosionMaker ℝ) gentleMap 2 (dropletAt 0 0 0)).1 = 0 ∧
        (stepDir Real.sqrt (GetInstance : ErosionMaker ℝ) gentleMap 2 (dropletAt 0 0 0)).2 = 0) ∧
      ¬ stepStops Real.sqrt (GetInstance : ErosionMaker ℝ) gentleMap 2 (dropletAt 0 0 0) ∧
      Real.sqrt
          (((stepPos Real.sqrt (GetInstance : ErosionMaker ℝ) gentleMap 2 (dropletAt 0 0 0)).1 -
              (dropletAt 0 0 0 : Droplet ℝ).posX) *
            ((stepPos Real.sqrt (GetInstance : ErosionMaker ℝ) gentleMap 2 (dropletAt 0 0 0)).1 -
              (dropletAt 0 0 0 : Droplet ℝ).posX) +
          ((stepPos Real.sqrt (GetInstance : ErosionMaker ℝ) gentleMap 2 (dropletAt 0 0 0)).2 -
              (dropletAt 0 0 0 : Droplet ℝ).posY) *
            ((stepPos Real.sqrt (GetInstance : ErosionMaker ℝ) gentleMap 2 (dropletAt 0 0 0)).2 -
              (dropletAt 0 0 0 : Droplet ℝ).posY)) ≠ 1 ∧
      stepLen Real.sqrt (GetInstance : ErosionMaker ℝ) gentleMap 2 (dropletAt 0 0 0) =
        19 / 200000 ∧
      stepPos Real.sqrt (GetInstance : ErosionMaker ℝ) gentleMap 2 (dropletAt 0 0 0) =
        (19 / 200000, 0) := by
  have hg := gentle_step Real.sqrt isSqrt_real (GetInstance : ErosionMaker ℝ) rfl
  have ha := (advance_length Real.sqrt isSqrt_real (GetInstance : ErosionMaker ℝ) gentleMap 2
    (dropletAt 0 0 0)).2 (by rw [hg.1]; norm_num)
  refine ⟨?_, ?_, hg.2.2.2, ?_, hg.1, hg.2.2.1⟩
  · unfold spawnDroplet dropletAt
    have e : Int.tmod ((0 : ℕ) : ℤ) (2 - 1) + 0 = 0 := by decide
    simp only [e]
    simp [GetInstance]
  · rw [hg.2.1]
    norm_num
  · rw [ha, hg.1]
    norm_num

/-- C20 (counterexample): with `erosionRadius = 0` every brush entry is empty.  On the ramp of
scenario B, with the other parameters at their defaults and the cache built by `Initialize`, the
step of the droplet at `(5, 5)` takes the erode branch with `amountToErode = 1/15`; the brush
entry of its cell is empty, so every brush cell holds its share, yet the heightmap is returned
as it was and the sediment gained is `0`, not `amountToErode`. -/
theorem erosion_gain_zero_at_radius_zero :
    (Initialize Real.sqrt { (GetInstance : ErosionMaker ℝ) with erosionRadius := 0 } 16 false
        0).erosionRadius = 0 ∧
      CacheFor Real.sqrt
        (Initialize Real.sqrt { (GetInstance : ErosionMaker ℝ) with erosionRadius := 0 } 16
          false 0) 16 ∧
      InGrid 16 (dropletAt 5 5 0 : Droplet ℝ).posX (dropletAt 5 5 0 : Droplet ℝ).posY ∧
      amountToErode
          (Initialize Real.sqrt { (GetInstance : ErosionMaker ℝ) with erosionRadius := 0 } 16
            false 0)
          (dropletAt 5 5 0)
          (stepDeltaHeight Real.sqrt
            (Initialize Real.sqrt { (GetInstance : ErosionMaker ℝ) with erosionRadius := 0 } 16
              false 0)
            rampMap 16 (dropletAt 5 5 0)) = 1 / 15 ∧
      entryAt
          ((Initialize Real.sqrt { (GetInstance : ErosionMaker ℝ) with erosionRadius := 0 } 16
            false 0).erosionBrushIndices.getD [])
          (truncInt (dropletAt 5 5 0 : Droplet ℝ).posY * 16 +
            truncInt (dropletAt 5 5 0 : Droplet ℝ).posX) = [] ∧
      (∃ (d1 : Droplet ℝ) (map1 : List ℝ),
        dropletStep Real.sqrt
            (Initialize Real.sqrt { (GetInstance : ErosionMaker ℝ) with erosionRadius := 0 } 16
              false 0)
            rampMap 16 (dropletAt 5 5 0) = StepResult.eroded d1 map1 ∧
          map1 = rampMap ∧ d1.sediment - (dropletAt 5 5 0 : Droplet ℝ).sediment = 0) ∧
      ¬ ∀ (d1 : Droplet ℝ) (map1 : List ℝ),
        dropletStep Real.sqrt
            (Initialize Real.sqrt { (GetInstance : ErosionMaker ℝ) with erosionRadius := 0 } 16
              false 0)
            rampMap 16 (dropletAt 5 5 0) = StepResult.eroded d1 map1 →
          (∀ k, k < (entryAt
                ((Initialize Real.sqrt { (GetInstance : ErosionMaker ℝ) with erosionRadius := 0 }
                  16 false 0).erosionBrushIndices.getD [])
                (truncInt (dropletAt 5 5 0 : Droplet ℝ).posY * 16 +
                  truncInt (dropletAt 5 5 0 : Droplet ℝ).posX)).length →
              amountToErode
                  (Initialize Real.sqrt
                    { (GetInstance : ErosionMaker ℝ) with erosionRadius := 0 } 16 false 0)
                  (dropletAt 5 5 0)
                  (stepDeltaHeight Real.sqrt
                    (Initialize Real.sqrt
                      { (GetInstance : ErosionMaker ℝ) with erosionRadius := 0 } 16 false 0)
                    rampMap 16 (dropletAt 5 5 0)) *
                (entryAt
                  ((Initialize Real.sqrt
                    { (GetInstance : ErosionMaker ℝ) with erosionRadius := 0 } 16 false
                    0).erosionBrushWeights.getD [])
                  (truncInt (dropletAt 5 5 0 : Droplet ℝ).posY * 16 +
                    truncInt (dropletAt 5 5 0 : Droplet ℝ).posX)).getD k 0 ≤
                readAt rampMap ((entryAt
                  ((Initialize Real.sqrt
                    { (GetInstance : ErosionMaker ℝ) with erosionRadius := 0 } 16 false
                    0).erosionBrushIndices.getD [])
                  (truncInt (dropletAt 5 5 0 : Droplet ℝ).posY * 16 +
                    truncInt (dropletAt 5 5 0 : Droplet ℝ).posX)).getD k 0)) →
          d1.sediment - (dropletAt 5 5 0 : Droplet ℝ).sediment =
            amountToErode
              (Initialize Real.sqrt { (GetInstance : ErosionMaker ℝ) with erosionRadius := 0 }
                16 false 0)
              (dropletAt 5 5 0)
              (stepDeltaHeight Real.sqrt
                (Initialize Real.sqrt
                  { (GetInstance : ErosionMaker ℝ) with erosionRadius := 0 } 16 false 0)
                rampMap 16 (dropletAt 5 5 0)) := by
  have hp := Initialize_params Real.sqrt
    ({ (GetInstance : ErosionMaker ℝ) with erosionRadius := 0 } : ErosionMaker ℝ) 16 false 0
  have hcf := Initialize_cacheFor Real.sqrt
    ({ (GetInstance : ErosionMaker ℝ) with erosionRadius := 0 } : ErosionMaker ℝ) 16 false 0
    (Or.inl rfl)
  generalize Initialize Real.sqrt
    ({ (GetInstance : ErosionMaker ℝ) with erosionRadius := 0 } : ErosionMaker ℝ) 16 false 0 =
      em1 at hp hcf ⊢
  obtain ⟨q1, q2, q3, q4, q5, _, _, q8, _⟩ := hp
  have hrad : em1.erosionRadius = 0 := q1
  have p2 : em1.inertia = 5 / 100 := q2
  have p3 : em1.sedimentCapacityFactor = 6 := q3
  have p4 : em1.minSedimentCapacity = 1 / 100 := q4
  have p5 : em1.erodeSpeed = 3 / 10 := q5
  have p8 : em1.gravity = 4 := q8
  clear q1 q2 q3 q4 q5 q8
  have hin : InGrid 16 (dropletAt 5 5 0 : Droplet ℝ).posX (dropletAt 5 5 0 : Droplet ℝ).posY := by
    unfold InGrid dropletAt
    norm_num
  have hamt := ramp_amountToErode Real.sqrt isSqrt_real em1 p2 p3 p4 p5
  have hent := cache_entries_empty Real.sqrt em1 16 (by rw [hrad]) hcf
    (truncInt (dropletAt 5 5 0 : Droplet ℝ).posY * 16 +
      truncInt (dropletAt 5 5 0 : Droplet ℝ).posX)
  obtain ⟨_, d1, map1, hd, _, _⟩ := ramp_step Real.sqrt isSqrt_real em1 p2 p8 p4 5 5
    (by norm_num) (by norm_num)
  have hnb := eroded_without_brush Real.sqrt em1 rampMap 16 (dropletAt 5 5 0) d1 map1
    (by rw [hrad]) hcf hd
  refine ⟨hrad, hcf, hin, hamt, hent.1, ⟨d1, map1, hd, hnb.1, by rw [hnb.2, sub_self]⟩, ?_⟩
  intro hall
  have hgain := hall d1 map1 hd (by
    intro k hk
    rw [hent.1] at hk
    exact absurd hk (Nat.not_lt_zero k))
  rw [hnb.2, sub_self, hamt] at hgain
  norm_num at hgain

/-- C20 (amended): erosion is capped by the downward height change.  On a heightmap of
`mapSize²` cells, with the cache built for `mapSize`, `erodeSpeed ≥ 0` and the droplet in
`[0, mapSize - 1)²`, every step that takes the erode branch has
`0 ≤ amountToErode ≤ -deltaHeight`; the total height removed over all cells equals the sediment
gained and is at most `amountToErode`; and it equals `amountToErode` when `erosionRadius ≥ 1`
and the height of every brush cell is at least its weighted share `amountToErode * weight`. -/
theorem erosion_capped_by_descent (sqrt : α → α) (hs : IsSqrt sqrt) (em : ErosionMaker α)
    (mapData : List α) (mapSize : ℤ) (d d1 : Droplet α) (map1 : List α) (hm : 2 ≤ mapSize)
    (hc : CacheFor sqrt em mapSize)
    (hlen : mapData.length = (mapSize * mapSize).toNat) (he : 0 ≤ em.erodeSpeed)
    (hpos : InGrid mapSize d.posX d.posY)
    (h : dropletStep sqrt em mapData mapSize d = StepResult.eroded d1 map1) :
    (0 ≤ amountToErode em d (stepDeltaHeight sqrt em mapData mapSize d) ∧
        amountToErode em d (stepDeltaHeight sqrt em mapData mapSize d) ≤
          -stepDeltaHeight sqrt em mapData mapSize d) ∧
      (List.zipWith (fun a b => a - b) mapData map1).sum = d1.sediment - d.sediment ∧
      d1.sediment - d.sediment ≤ amountToErode em d (stepDeltaHeight sqrt em mapData mapSize d) ∧
      (1 ≤ em.erosionRadius →
        (∀ k, k < (entryAt (em.erosionBrushIndices.getD [])
            (truncInt d.posY * mapSize + truncInt d.posX)).length →
          amountToErode em d (stepDeltaHeight sqrt em mapData mapSize d) *
              (entryAt (em.erosionBrushWeights.getD [])
                (truncInt d.posY * mapSize + truncInt d.posX)).getD k 0 ≤
            readAt mapData ((entryAt (em.erosionBrushIndices.getD [])
              (truncInt d.posY * mapSize + truncInt d.posX)).getD k 0)) →
        d1.sediment - d.sediment =
          amountToErode em d (stepDeltaHeight sqrt em mapData mapSize d)) := by
  have hb := (dropletStep_eroded sqrt em mapData mapSize d d1 map1 h).2.1
  have hnn := amountToErode_nonneg em d _ he hb
  by_cases hr : 1 ≤ em.erosionRadius
  · have hg := eroded_gain sqrt hs em mapData mapSize d d1 map1 (by omega) hr hc hpos h
    have hcons := eroded_conserves sqrt em mapData mapSize d d1 map1 (by omega) (by omega) hc
      hlen h
    exact ⟨⟨hnn, min_le_right _ _⟩, hcons.2.1.symm, hg.1, fun _ => hg.2⟩
  · have hnb := eroded_without_brush sqrt em mapData mapSize d d1 map1 (by omega) hc h
    refine ⟨⟨hnn, min_le_right _ _⟩, ?_, ?_, fun h1 => absurd h1 hr⟩
    · rw [hnb.1, hnb.2, sum_zipWith_sub _ _ rfl, sub_self, sub_self]
    · rw [hnb.2, sub_self]
      exact hnn

/-- Witness of C20 (amended): the first step of the droplet spawned at `(5, 5)` on the ramp of
scenario B, with the default parameters (radius 6), over the reals. -/
theorem erosion_capped_by_descent_witness :
    ∃ (d1 : Droplet ℝ) (map1 : List ℝ),
      (IsSqrt Real.sqrt ∧
        CacheFor Real.sqrt (Initialize Real.sqrt (GetInstance : ErosionMaker ℝ) 16 false 0) 16 ∧
        InGrid 16 (dropletAt 5 5 0 : Droplet ℝ).posX (dropletAt 5 5 0 : Droplet ℝ).posY ∧
        dropletStep Real.sqrt (Initialize Real.sqrt GetInstance 16 false 0) rampMap 16
          (dropletAt 5 5 0) = StepResult.eroded d1 map1) ∧
      d1.sediment - (dropletAt 5 5 0 : Droplet ℝ).sediment ≤
        amountToErode (Initialize Real.sqrt (GetInstance : ErosionMaker ℝ) 16 false 0)
          (dropletAt 5 5 0)
          (stepDeltaHeight Real.sqrt (Initialize Real.sqrt GetInstance 16 false 0) rampMap 16
            (dropletAt 5 5 0)) :=
  have hp := Initialize_params Real.sqrt (GetInstance : ErosionMaker ℝ) 16 false 0
  have hcf := Initialize_cacheFor Real.sqrt (GetInstance : ErosionMaker ℝ) 16 false 0
    (GetInstance_cacheValid Real.sqrt)
  have hin : InGrid 16 (dropletAt 5 5 0 : Droplet ℝ).posX (dropletAt 5 5 0 : Droplet ℝ).posY := by
    unfold InGrid dropletAt
    norm_num
  let ⟨d1, map1, hd, _⟩ := (ramp_step Real.sqrt isSqrt_real
    (Initialize Real.sqrt (GetInstance : ErosionMaker ℝ) 16 false 0)
    (by rw [hp.2.1]; rfl) (by rw [hp.2.2.2.2.2.2.2.1]; rfl) (by rw [hp.2.2.2.1]; rfl)
    5 5 (by norm_num) (by norm_num)).2
  ⟨d1, map1, ⟨isSqrt_real, hcf, hin, hd⟩,
    (erosion_capped_by_descent Real.sqrt isSqrt_real _ rampMap 16 (dropletAt 5 5 0) d1 map1
      (by norm_num) hcf rampMap_length
      (by rw [hp.2.2.2.2.1]; norm_num [GetInstance]) hin hd).2.2.1⟩

/-- C16 (counterexample): with `erosionRadius = 8` on the 16×16 ramp of scenario B, so that
`2 * radius < mapSize` is violated, `Erode` with one droplet (lifetime 1, spawned at `(5, 5)`)
is not rejected: afterwards the singleton holds the table `InitializeBrushIndices 16 8` built
by the call, and the heightmap returned differs from the one given. -/
theorem invalid_radius_not_rejected :
    ¬ (2 * ({ (GetInstance : ErosionMaker ℝ) with
          erosionRadius := 8, maxDropletLifetime := 1 } : ErosionMaker ℝ).erosionRadius < 16) ∧
      (Erode Real.sqrt
          { (GetInstance : ErosionMaker ℝ) with erosionRadius := 8, maxDropletLifetime := 1 }
          rampMap 16 1 false 0 (fun _ => 5)).1.erosionBrushIndices =
        some (InitializeBrushIndices Real.sqrt 16 8).1 ∧
      (Erode Real.sqrt
          { (GetInstance : ErosionMaker ℝ) with erosionRadius := 8, maxDropletLifetime := 1 }
          rampMap 16 1 false 0 (fun _ => 5)).2 ≠ rampMap := by
  have hp := Initialize_params Real.sqrt
    ({ (GetInstance : ErosionMaker ℝ) with erosionRadius := 8, maxDropletLifetime := 1 } :
      ErosionMaker ℝ) 16 false 0
  have hcf := Initialize_cacheFor Real.sqrt
    ({ (GetInstance : ErosionMaker ℝ) with erosionRadius := 8, maxDropletLifetime := 1 } :
      ErosionMaker ℝ) 16 false 0 (Or.inl rfl)
  generalize hem : Initialize Real.sqrt
    ({ (GetInstance : ErosionMaker ℝ) with erosionRadius := 8, maxDropletLifetime := 1 } :
      ErosionMaker ℝ) 16 false 0 = em1 at hp hcf
  obtain ⟨q1, q2, _, q4, q5, _, _, q8, q9, q10, q11⟩ := hp
  have hrad : em1.erosionRadius = 8 := q1
  have p2 : em1.inertia = 5 / 100 := q2
  have p4 : em1.minSedimentCapacity = 1 / 100 := q4
  have p5 : em1.erodeSpeed = 3 / 10 := q5
  have p8 : em1.gravity = 4 := q8
  have p9 : em1.maxDropletLifetime = 1 := q9
  have p10 : em1.initialWaterVolume = 1 := q10
  have p11 : em1.initialSpeed = 1 := q11
  clear q1 q2 q4 q5 q8 q9 q10 q11
  have hspawn : spawnDroplet em1 16 (fun _ => 5) 0 = dropletAt 5 5 0 := by
    unfold spawnDroplet dropletAt
    rw [p10, p11]
    have e : Int.tmod ((5 : ℕ) : ℤ) (16 - 1) + 0 = 5 := by decide
    simp only [e]
    simp
  obtain ⟨_, d1, map1, hd, _, _⟩ := ramp_step Real.sqrt isSqrt_real em1 p2 p8 p4 5 5
    (by norm_num) (by norm_num)
  have h2 := (ramp_move Real.sqrt isSqrt_real em1 p2 5 5 0 (by norm_num) (by norm_num)).2.1
  have hin : InGrid 16 (dropletAt 5 5 0 : Droplet ℝ).posX (dropletAt 5 5 0 : Droplet ℝ).posY := by
    unfold InGrid dropletAt
    norm_num
  have hdh : stepDeltaHeight Real.sqrt em1 rampMap 16 (dropletAt 5 5 0) < 0 := by
    rw [h2]
    norm_num
  have hb := (dropletStep_eroded Real.sqrt em1 rampMap 16 (dropletAt 5 5 0) d1 map1 hd).2.1
  have hes : 0 < em1.erodeSpeed := by rw [p5]; norm_num
  have hapos : 0 < amountToErode em1 (dropletAt 5 5 0)
      (stepDeltaHeight Real.sqrt em1 rampMap 16 (dropletAt 5 5 0)) := by
    unfold amountToErode
    have hcap : em1.minSedimentCapacity ≤ sedimentCapacity em1 (dropletAt 5 5 0)
        (stepDeltaHeight Real.sqrt em1 rampMap 16 (dropletAt 5 5 0)) := le_max_right _ _
    rw [p4] at hcap
    have hs0 : (dropletAt 5 5 0 : Droplet ℝ).sediment = 0 := rfl
    rw [hs0, sub_zero]
    refine lt_min (mul_pos (lt_of_lt_of_le (by norm_num) hcap) hes) (by linarith)
  have hale : amountToErode em1 (dropletAt 5 5 0)
      (stepDeltaHeight Real.sqrt em1 rampMap 16 (dropletAt 5 5 0)) ≤ 1 / 15 := by
    have h1 : amountToErode em1 (dropletAt 5 5 0)
        (stepDeltaHeight Real.sqrt em1 rampMap 16 (dropletAt 5 5 0)) ≤
        -stepDeltaHeight Real.sqrt em1 rampMap 16 (dropletAt 5 5 0) := min_le_right _ _
    linarith
  have hnode : truncInt (dropletAt 5 5 0 : Droplet ℝ).posY * 16 +
      truncInt (dropletAt 5 5 0 : Droplet ℝ).posX = 5 * 16 + 5 := by
    unfold dropletAt
    dsimp only
    rw [truncInt_natCast]
    norm_num
  have hentry := cache_entry_at Real.sqrt em1 16 (by norm_num) (by rw [hrad]; norm_num) hcf 5 5
    (by norm_num) (by norm_num) (by norm_num) (by norm_num)
  rw [hrad] at hentry
  have hgain := (eroded_gain Real.sqrt isSqrt_real em1 rampMap 16 (dropletAt 5 5 0) d1 map1
    (by norm_num) (by rw [hrad]; norm_num) hcf hin hd).2 (by
      rw [hnode, hentry.1, hentry.2]
      intro k hk
      have hw := naiveBrushWeights_normalized Real.sqrt isSqrt_real 16 8 (by norm_num) 5 5
        (by norm_num) (by norm_num) (by norm_num) (by norm_num)
      have hklen : k < (naiveBrushWeights Real.sqrt 16 8 5 5).length := by
        rw [naiveBrush_lengths]; exact hk
      have hmem := getD_mem_of_lt (naiveBrushWeights Real.sqrt 16 8 5 5) k 0 hklen
      have hw1 : (naiveBrushWeights Real.sqrt 16 8 5 5).getD k 0 ≤ 1 := by
        rw [← hw.2]
        exact List.single_le_sum (fun x hx => (hw.1 x hx).le) _ hmem
      have hh := ramp_brush_heights (α := ℝ) _
        (getD_mem_of_lt (naiveBrushIndices 16 8 5 5) k 0 hk)
      calc amountToErode em1 (dropletAt 5 5 0)
            (stepDeltaHeight Real.sqrt em1 rampMap 16 (dropletAt 5 5 0)) *
            (naiveBrushWeights Real.sqrt 16 8 5 5).getD k 0
          ≤ amountToErode em1 (dropletAt 5 5 0)
            (stepDeltaHeight Real.sqrt em1 rampMap 16 (dropletAt 5 5 0)) * 1 :=
            mul_le_mul_of_nonneg_left hw1 hapos.le
        _ ≤ 1 / 15 := by rw [mul_one]; exact hale
        _ ≤ _ := hh)
  have hcons := eroded_conserves Real.sqrt em1 rampMap 16 (dropletAt 5 5 0) d1 map1
    (by norm_num) (by rw [hrad]; norm_num) hcf rampMap_length hd
  have hsum : (rampMap : List ℝ).sum - map1.sum > 0 := by
    rw [← sum_zipWith_sub _ _ hcons.1.symm, ← hcons.2.1, hgain]
    exact hapos
  refine ⟨by norm_num, ?_, ?_⟩
  · unfold Erode
    dsimp only
    rw [hem, hcf.1, hrad]
  · unfold Erode
    dsimp only
    rw [hem]
    have e1 : (1 : ℤ).toNat = 1 := by decide
    rw [e1, erode_one_step Real.sqrt em1 rampMap 16 (fun _ => 5) d1 map1 p9
      (by rw [hspawn]; exact hd)]
    intro heq
    rw [heq] at hsum
    simp at hsum

/-- C16 (amended): building the brush cache, and therefore `Erode`, with a radius that violates
`2 * radius < mapSize` is not rejected; no precondition failure exists.  For `mapSize ≥ 2` and
`erosionRadius ≥ 1` with `2 * erosionRadius ≥ mapSize`, every cell is recomputed as a border
cell, the table stores for every cell of the grid its clipped naive brush, the singleton holds
this table after `Erode`, and `Erode` simulates the droplets on it. -/
theorem erode_accepts_any_radius (sqrt : α → α) (em : ErosionMaker α) (mapData : List α)
    (mapSize dropletAmount : ℤ) (resetSeed : Bool) (now : ℕ) (rnd : ℕ → ℕ) (cx cy : ℤ)
    (i : ℕ) (hv : CacheValid sqrt em) (hm : 2 ≤ mapSize) (hr : 1 ≤ em.erosionRadius)
    (hbig : ¬ 2 * em.erosionRadius < mapSize) (hx0 : 0 ≤ cx) (hx1 : cx < mapSize)
    (hy0 : 0 ≤ cy) (hy1 : cy < mapSize) :
    recomputed mapSize em.erosionRadius i ∧
      (InitializeBrushIndices sqrt mapSize em.erosionRadius).1[(cy * mapSize + cx).toNat]? =
        some (naiveBrushIndices mapSize em.erosionRadius cx cy) ∧
      (InitializeBrushIndices sqrt mapSize em.erosionRadius).2[(cy * mapSize + cx).toNat]? =
        some (naiveBrushWeights sqrt mapSize em.erosionRadius cx cy) ∧
      (Erode sqrt em mapData mapSize dropletAmount resetSeed now rnd).1.erosionBrushIndices =
        some (InitializeBrushIndices sqrt mapSize em.erosionRadius).1 ∧
      (Erode sqrt em mapData mapSize dropletAmount resetSeed now rnd).1.erosionBrushWeights =
        some (InitializeBrushIndices sqrt mapSize em.erosionRadius).2 ∧
      (Erode sqrt em mapData mapSize dropletAmount resetSeed now rnd).2 =
        erodeDroplets sqrt (Erode sqrt em mapData mapSize dropletAmount resetSeed now rnd).1
          mapSize rnd dropletAmount.toNat mapData := by
  have hcf := Initialize_cacheFor sqrt em mapSize resetSeed now hv
  have hp := (Initialize_params sqrt em mapSize resetSeed now).1
  have he := brush_entry_at sqrt mapSize em.erosionRadius (by omega) (by omega) cx cy hx0 hx1
    hy0 hy1
  refine ⟨no_interior_cell mapSize em.erosionRadius (by omega) hbig i, he.1, he.2, ?_, ?_, rfl⟩
  · have := hcf.1
    rw [hp] at this
    exact this
  · have := hcf.2
    rw [hp] at this
    exact this

/-- Witness of C16 (amended): radius 8 on a 16×16 map, the cell `(5, 5)`, over the reals. -/
theorem erode_accepts_any_radius_witness :
    (CacheValid Real.sqrt
          ({ (GetInstance : ErosionMaker ℝ) with erosionRadius := 8 } : ErosionMaker ℝ) ∧
        (2 : ℤ) ≤ 16 ∧
        ¬ 2 * ({ (GetInstance : ErosionMaker ℝ) with erosionRadius := 8 } :
          ErosionMaker ℝ).erosionRadius < 16) ∧
      (Erode Real.sqrt { (GetInstance : ErosionMaker ℝ) with erosionRadius := 8 } rampMap 16 1
          false 0 (fun _ => 5)).1.erosionBrushIndices =
        some (InitializeBrushIndices Real.sqrt 16
          ({ (GetInstance : ErosionMaker ℝ) with erosionRadius := 8 } :
            ErosionMaker ℝ).erosionRadius).1 :=
  ⟨⟨Or.inl rfl, by norm_num, by norm_num⟩,
    (erode_accepts_any_radius Real.sqrt
      { (GetInstance : ErosionMaker ℝ) with erosionRadius := 8 } rampMap 16 1 false 0
      (fun _ => 5) 5 5 0 (Or.inl rfl) (by norm_num) (by norm_num) (by norm_num) (by norm_num)
      (by norm_num) (by norm_num) (by norm_num)).2.2.2.1⟩

end ClaimsSession

section ClaimsEdges

variable {α : Type} [LinearOrderedField α]

/-- C24: the SQUARE falloff is not symmetric about the grid.  For every `mapSize ≥ 2` (even or
odd) and every cell `(x, y)` of the grid, `Gradient` with type SQUARE, which measures
distances from `(mapSize / 2, mapSize / 2)` with `radius = mapSize / 2`, multiplies the cell by
exactly `0` when it lies in row `0` or column `0`, and by exactly `2 / mapSize`, which is not
zero, when it lies in the last row or the last column and not in row `0` or column `0`; the
corner `(mapSize - 1, mapSize - 1)` is such a cell. -/
theorem gradient_square_asymmetric (mapData : List α) (mapSize : ℤ) (off : α) (x y : ℕ)
    (hm : 2 ≤ mapSize) (hx : (x : ℤ) < mapSize) (hy : (y : ℤ) < mapSize) :
    ((x = 0 ∨ y = 0) →
        1 - (gradientDistance mapSize GradientType.SQUARE x y : α) = 0 ∧
          (Gradient mapData mapSize off GradientType.SQUARE)[
              ((y : ℤ) * mapSize + (x : ℤ)).toNat]? =
            (mapData[((y : ℤ) * mapSize + (x : ℤ)).toNat]?).map (fun v => v * 0)) ∧
      (((x : ℤ) = mapSize - 1 ∨ (y : ℤ) = mapSize - 1) → x ≠ 0 → y ≠ 0 →
        1 - (gradientDistance mapSize GradientType.SQUARE x y : α) = 2 / (mapSize : α) ∧
          (2 : α) / (mapSize : α) ≠ 0 ∧
          (Gradient mapData mapSize off GradientType.SQUARE)[
              ((y : ℤ) * mapSize + (x : ℤ)).toNat]? =
            (mapData[((y : ℤ) * mapSize + (x : ℤ)).toNat]?).map
              (fun v => v * (2 / (mapSize : α)))) ∧
      ((mapSize - 1).toNat ≠ 0 ∧ ((mapSize - 1).toNat : ℤ) = mapSize - 1) := by
  obtain ⟨n, rfl⟩ := Int.eq_ofNat_of_zero_le (by omega : 0 ≤ mapSize)
  have hn : 2 ≤ n := by omega
  have hx' : x < n := by omega
  have hy' : y < n := by omega
  have hidx : ((y : ℤ) * (n : ℤ) + (x : ℤ)).toNat = y * n + x := by
    have : ((y : ℤ) * (n : ℤ) + (x : ℤ)) = ((y * n + x : ℕ) : ℤ) := by push_cast; ring
    rw [this, Int.toNat_natCast]
  have hlt : y * n + x < n * n := by
    calc y * n + x < y * n + n := by omega
      _ = (y + 1) * n := by ring
      _ ≤ n * n := Nat.mul_le_mul_right n (by omega)
  have hget := Gradient_getElem? n mapData off GradientType.SQUARE _ hlt
  rw [cellFactor_cell n GradientType.SQUARE x y hx'] at hget
  have hn2 : (2 : α) ≤ (n : α) := by exact_mod_cast hn
  refine ⟨fun h => ?_, fun h hx0 hy0 => ?_, by omega, by omega⟩
  · have hd := square_distance_first (α := α) n hn x y hx' hy' h
    rw [hidx, hget, hd, sub_self]
    exact ⟨rfl, rfl⟩
  · have hd := square_distance_last (α := α) n hn x y hx' hy' (by omega) (by omega) (by omega)
    have he : 1 - (1 - 2 / (n : α)) = 2 / (n : α) := by ring
    rw [hidx, hget, hd, he, Int.cast_natCast]
    exact ⟨rfl, div_ne_zero two_ne_zero (by linarith), rfl⟩

/-- Witness of C24: the corner `(15, 15)` of a 16×16 map, over the rationals. -/
theorem gradient_square_asymmetric_witness :
    ((2 : ℤ) ≤ 16 ∧ ((15 : ℕ) : ℤ) < 16) ∧
      (1 - (gradientDistance 16 GradientType.SQUARE 15 15 : ℚ) = 2 / ((16 : ℤ) : ℚ) ∧
        (2 : ℚ) / ((16 : ℤ) : ℚ) ≠ 0) :=
  ⟨by decide,
    ((gradient_square_asymmetric (List.replicate 256 (1 : ℚ)) 16 (1 / 2) 15 15 (by decide)
      (by decide) (by decide)).2.1 (Or.inl (by decide)) (by decide) (by decide)).1,
    ((gradient_square_asymmetric (List.replicate 256 (1 : ℚ)) 16 (1 / 2) 15 15 (by decide)
      (by decide) (by decide)).2.1 (Or.inl (by decide)) (by decide) (by decide)).2.1⟩

end ClaimsEdges

section ClaimsFinal

variable {α : Type} [LinearOrderedField α] [FloorRing α]

/-- C23: droplets always spawn on grid nodes.  For every `mapSize ≥ 2`, every droplet number
and every stream of random outputs, the spawn position computed by `Erode` is a pair of
integers of `{0, ..., mapSize - 2}`, the node `(nodeX, nodeY)` of the first step is that pair,
and the in-cell offsets `cellOffsetX` and `cellOffsetY` of the first step are both exactly
`0`. -/
theorem droplets_spawn_on_nodes (em : ErosionMaker α) (mapSize : ℤ) (rnd : ℕ → ℕ)
    (iteration : ℕ) (hm : 2 ≤ mapSize) :
    ∃ nx ny : ℤ, (0 ≤ nx ∧ nx ≤ mapSize - 2) ∧ (0 ≤ ny ∧ ny ≤ mapSize - 2) ∧
      (spawnDroplet em mapSize rnd iteration).posX = (nx : α) ∧
      (spawnDroplet em mapSize rnd iteration).posY = (ny : α) ∧
      truncInt (spawnDroplet em mapSize rnd iteration).posX = nx ∧
      truncInt (spawnDroplet em mapSize rnd iteration).posY = ny ∧
      (spawnDroplet em mapSize rnd iteration).posX -
          ((truncInt (spawnDroplet em mapSize rnd iteration).posX : ℤ) : α) = 0 ∧
      (spawnDroplet em mapSize rnd iteration).posY -
          ((truncInt (spawnDroplet em mapSize rnd iteration).posY : ℤ) : α) = 0 := by
  have hx0 := Int.tmod_nonneg (mapSize - 1) (Int.natCast_nonneg (rnd (2 * iteration)))
  have hx1 := Int.tmod_lt_of_pos (rnd (2 * iteration) : ℤ) (by omega : 0 < mapSize - 1)
  have hy0 := Int.tmod_nonneg (mapSize - 1) (Int.natCast_nonneg (rnd (2 * iteration + 1)))
  have hy1 := Int.tmod_lt_of_pos (rnd (2 * iteration + 1) : ℤ) (by omega : 0 < mapSize - 1)
  have tx := truncInt_intCast (α := α) (Int.tmod (rnd (2 * iteration) : ℤ) (mapSize - 1) + 0)
    (by omega)
  have ty := truncInt_intCast (α := α)
    (Int.tmod (rnd (2 * iteration + 1) : ℤ) (mapSize - 1) + 0) (by omega)
  refine ⟨Int.tmod (rnd (2 * iteration) : ℤ) (mapSize - 1) + 0,
    Int.tmod (rnd (2 * iteration + 1) : ℤ) (mapSize - 1) + 0, ⟨by omega, by omega⟩,
    ⟨by omega, by omega⟩, rfl, rfl, tx, ty, ?_, ?_⟩
  · unfold spawnDroplet
    dsimp only
    rw [tx, sub_self]
  · unfold spawnDroplet
    dsimp only
    rw [ty, sub_self]

/-- Witness of C23: the first droplet on a 16×16 map when `rand()` returns `5`, with the
default parameters, over the reals. -/
theorem droplets_spawn_on_nodes_witness :
    (2 : ℤ) ≤ 16 ∧
      ∃ nx ny : ℤ, (0 ≤ nx ∧ nx ≤ 16 - 2) ∧ (0 ≤ ny ∧ ny ≤ 16 - 2) ∧
        (spawnDroplet (GetInstance : ErosionMaker ℝ) 16 (fun _ => 5) 0).posX = (nx : ℝ) ∧
        (spawnDroplet (GetInstance : ErosionMaker ℝ) 16 (fun _ => 5) 0).posY = (ny : ℝ) ∧
        truncInt (spawnDroplet (GetInstance : ErosionMaker ℝ) 16 (fun _ => 5) 0).posX = nx ∧
        truncInt (spawnDroplet (GetInstance : ErosionMaker ℝ) 16 (fun _ => 5) 0).posY = ny ∧
        (spawnDroplet (GetInstance : ErosionMaker ℝ) 16 (fun _ => 5) 0).posX -
            ((truncInt (spawnDroplet (GetInstance : ErosionMaker ℝ) 16 (fun _ => 5) 0).posX :
              ℤ) : ℝ) = 0 ∧
        (spawnDroplet (GetInstance : ErosionMaker ℝ) 16 (fun _ => 5) 0).posY -
            ((truncInt (spawnDroplet (GetInstance : ErosionMaker ℝ) 16 (fun _ => 5) 0).posY :
              ℤ) : ℝ) = 0 :=
  ⟨by decide, droplets_spawn_on_nodes GetInstance 16 (fun _ => 5) 0 (by decide)⟩

/-- C21: every brush index is a valid cell and the scratch arrays never overflow.  For
`mapSize ≥ 1`, `radius ≥ 1` and every cell index `i < mapSize²`, border or interior, the entry
`InitializeBrushIndices` stores for `i` holds only indices of `[0, mapSize²)`, and it has at
most `(2 * radius - 1)²` elements, which is at most `4 * radius²`, the size of `xOffsets`,
`yOffsets` and `weights`.  Inside the neighbour scan of any cell, started with scratch vectors
of that size, each write finds `addIndex` below that size, and the vectors keep their size.
Hence every index the brush loop of the erode branch takes from the table held by the
singleton during `Erode` lies in `[0, mapSize²)`. -/
theorem brush_indices_in_range (sqrt : α → α) (em : ErosionMaker α) (mapData : List α)
    (mapSize radius dropletAmount : ℤ) (resetSeed : Bool) (now : ℕ) (rnd : ℕ → ℕ) (i : ℕ)
    (hv : CacheValid sqrt em) (hm : 1 ≤ mapSize) (hr : 1 ≤ radius)
    (hre : em.erosionRadius = radius) (hi : i < (mapSize * mapSize).toNat) :
    (∃ e w, (InitializeBrushIndices sqrt mapSize radius).1[i]? = some e ∧
        (InitializeBrushIndices sqrt mapSize radius).2[i]? = some w ∧
        (∀ n ∈ e, 0 ≤ n ∧ n < mapSize * mapSize) ∧
        e.length ≤ ((2 * radius - 1) * (2 * radius - 1)).toNat ∧ w.length = e.length) ∧
      (2 * radius - 1) * (2 * radius - 1) ≤ radius * radius * 4 ∧
      (∀ (s : BrushScratch α) (cx cy : ℤ) (done rest : List (ℤ × ℤ)) (o : ℤ × ℤ),
        s.xOffsets.length = (radius * radius * 4).toNat →
        s.yOffsets.length = (radius * radius * 4).toNat →
        s.weights.length = (radius * radius * 4).toNat →
        squareOffsets radius = done ++ o :: rest →
        inBrush mapSize radius cx cy o = true →
        scanBrush sqrt mapSize radius cx cy s =
            scanPrefix sqrt mapSize radius cx cy s (squareOffsets radius) ∧
          (scanPrefix sqrt mapSize radius cx cy s done).addIndex <
            (radius * radius * 4).toNat ∧
          (scanPrefix sqrt mapSize radius cx cy s done).xOffsets.length =
            (radius * radius * 4).toNat ∧
          (scanPrefix sqrt mapSize radius cx cy s done).yOffsets.length =
            (radius * radius * 4).toNat ∧
          (scanPrefix sqrt mapSize radius cx cy s done).weights.length =
            (radius * radius * 4).toNat) ∧
      (∀ (dropletIndex : ℤ) (brushPointIndex : ℕ),
        brushPointIndex <
            (entryAt ((Erode sqrt em mapData mapSize dropletAmount resetSeed now
              rnd).1.erosionBrushIndices.getD []) dropletIndex).length →
          0 ≤ (entryAt ((Erode sqrt em mapData mapSize dropletAmount resetSeed now
              rnd).1.erosionBrushIndices.getD []) dropletIndex).getD brushPointIndex 0 ∧
            (entryAt ((Erode sqrt em mapData mapSize dropletAmount resetSeed now
              rnd).1.erosionBrushIndices.getD []) dropletIndex).getD brushPointIndex 0 <
              mapSize * mapSize) := by
  have hcell := cell_in_grid mapSize hm i hi
  have htab := InitializeBrushIndices_eq sqrt mapSize radius hm (by omega)
  refine ⟨⟨naiveBrushIndices mapSize radius (Int.tmod (i : ℤ) mapSize)
      (Int.tdiv (i : ℤ) mapSize),
    naiveBrushWeights sqrt mapSize radius (Int.tmod (i : ℤ) mapSize)
      (Int.tdiv (i : ℤ) mapSize), ?_, ?_, naiveBrushIndices_range mapSize radius _ _, ?_,
    naiveBrush_lengths sqrt mapSize radius _ _⟩, by nlinarith, ?_, ?_⟩
  · rw [htab]
    simp only [List.getElem?_map, List.getElem?_range hi, Option.map_some']
  · rw [htab]
    simp only [List.getElem?_map, List.getElem?_range hi, Option.map_some']
  · unfold naiveBrushIndices
    rw [List.length_map]
    exact naiveOffsets_length_le_square mapSize radius _ _ hr
  · intro s cx cy done rest o hx hy hw hsplit ho
    exact ⟨scanBrush_eq_scanPrefix sqrt mapSize radius cx cy s,
      scanPrefix_room sqrt mapSize radius cx cy (by omega) s hx hy hw done rest o hsplit ho⟩
  · intro dropletIndex brushPointIndex hk
    have hcf := Initialize_cacheFor sqrt em mapSize resetSeed now hv
    have hp := (Initialize_params sqrt em mapSize resetSeed now).1
    exact cache_indices_range sqrt (Initialize sqrt em mapSize resetSeed now) mapSize hm
      (by rw [hp, hre]; omega) hcf dropletIndex _ (getD_mem_of_lt _ _ _ hk)

/-- Witness of C21: the interior cell `(8, 8)` (index 136) of a 16×16 map with the default
radius 6, over the reals. -/
theorem brush_indices_in_range_witness :
    (CacheValid Real.sqrt (GetInstance : ErosionMaker ℝ) ∧ (1 : ℤ) ≤ 16 ∧ (1 : ℤ) ≤ 6 ∧
        (GetInstance : ErosionMaker ℝ).erosionRadius = 6 ∧ 136 < ((16 : ℤ) * 16).toNat) ∧
      ∃ e w, (InitializeBrushIndices Real.sqrt 16 6).1[136]? = some e ∧
        (InitializeBrushIndices Real.sqrt 16 6).2[136]? = some w ∧
        (∀ n ∈ e, 0 ≤ n ∧ n < (16 : ℤ) * 16) ∧
        e.length ≤ ((2 * (6 : ℤ) - 1) * (2 * 6 - 1)).toNat ∧ w.length = e.length :=
  ⟨⟨GetInstance_cacheValid Real.sqrt, by decide, by decide, rfl, by decide⟩,
    (brush_indices_in_range Real.sqrt (GetInstance : ErosionMaker ℝ) rampMap 16 6 1 false 0
      (fun _ => 5) 136 (GetInstance_cacheValid Real.sqrt) (by decide) (by decide) rfl
      (by decide)).1⟩

/-- C22: carried sediment is never negative.  For `mapSize ≥ 2`, a heightmap of `mapSize²`
cells that are all `≥ 0`, `erodeSpeed ≥ 0`, `0 ≤ depositSpeed ≤ 1` and
`minSedimentCapacity ≥ 0` (any radius), at the start of every pass through the body of the
lifetime loop during `Erode` the droplet's sediment is `≥ 0`; a pass through the deposit branch
computes `amountToDeposit ≥ 0` and ends with sediment `≥ 0`; a pass through the erode branch
computes `deltaSediment ≥ 0` at every brush point and ends with sediment `≥ 0`. -/
theorem sediment_never_negative (sqrt : α → α) (hs : IsSqrt sqrt) (em : ErosionMaker α)
    (hv : CacheValid sqrt em) (mapData0 m : List α) (mapSize : ℤ) (resetSeed : Bool) (now : ℕ)
    (rnd : ℕ → ℕ) (d : Droplet α) (hm : 2 ≤ mapSize)
    (_hlen : mapData0.length = (mapSize * mapSize).toNat) (h0 : ∀ x ∈ mapData0, 0 ≤ x)
    (he : 0 ≤ em.erodeSpeed) (hd0 : 0 ≤ em.depositSpeed) (hd1 : em.depositSpeed ≤ 1)
    (hc : 0 ≤ em.minSedimentCapacity)
    (h : LoopState sqrt (Initialize sqrt em mapSize resetSeed now) mapSize rnd mapData0 m d) :
    0 ≤ d.sediment ∧
      (∀ d1 map1,
        dropletStep sqrt (Initialize sqrt em mapSize resetSeed now) m mapSize d =
            StepResult.deposited d1 map1 →
          0 ≤ amountToDeposit (Initialize sqrt em mapSize resetSeed now) d
              (stepDeltaHeight sqrt (Initialize sqrt em mapSize resetSeed now) m mapSize d) ∧
            0 ≤ d1.sediment) ∧
      (∀ d1 map1,
        dropletStep sqrt (Initialize sqrt em mapSize resetSeed now) m mapSize d =
            StepResult.eroded d1 map1 →
          0 ≤ d1.sediment ∧
            ∀ brushPointIndex,
              brushPointIndex <
                  (entryAt ((Initialize sqrt em mapSize resetSeed now).erosionBrushIndices.getD
                    []) (truncInt d.posY * mapSize + truncInt d.posX)).length →
                0 ≤ deltaSediment
                  (entryAt ((Initialize sqrt em mapSize resetSeed now).erosionBrushIndices.getD
                    []) (truncInt d.posY * mapSize + truncInt d.posX))
                  (entryAt ((Initialize sqrt em mapSize resetSeed now).erosionBrushWeights.getD
                    []) (truncInt d.posY * mapSize + truncInt d.posX))
                  (amountToErode (Initialize sqrt em mapSize resetSeed now) d
                    (stepDeltaHeight sqrt (Initialize sqrt em mapSize resetSeed now) m mapSize
                      d))
                  ((List.range brushPointIndex).foldl
                    (erodePoint
                      (entryAt ((Initialize sqrt em mapSize resetSeed
                        now).erosionBrushIndices.getD [])
                        (truncInt d.posY * mapSize + truncInt d.posX))
                      (entryAt ((Initialize sqrt em mapSize resetSeed
                        now).erosionBrushWeights.getD [])
                        (truncInt d.posY * mapSize + truncInt d.posX))
                      (amountToErode (Initialize sqrt em mapSize resetSeed now) d
                        (stepDeltaHeight sqrt (Initialize sqrt em mapSize resetSeed now) m
                          mapSize d)))
                    (m, d.sediment))
                  brushPointIndex) := by
  obtain ⟨_, _, _, p4, p5, p6, _⟩ := Initialize_params sqrt em mapSize resetSeed now
  have hcf := Initialize_cacheFor sqrt em mapSize resetSeed now hv
  have hw := cache_weights_pos_all sqrt hs (Initialize sqrt em mapSize resetSeed now) mapSize
    (by omega) hcf
  have he' : 0 ≤ (Initialize sqrt em mapSize resetSeed now).erodeSpeed := by rw [p5]; exact he
  have hd0' : 0 ≤ (Initialize sqrt em mapSize resetSeed now).depositSpeed := by
    rw [p6]; exact hd0
  have hd1' : (Initialize sqrt em mapSize resetSeed now).depositSpeed ≤ 1 := by
    rw [p6]; exact hd1
  have hc' : 0 ≤ (Initialize sqrt em mapSize resetSeed now).minSedimentCapacity := by
    rw [p4]; exact hc
  have hinv := loopState_stepInv sqrt _ mapSize rnd mapData0 m d he' hd0' hd1' hc' hw h0 h
  have hstep := dropletStep_inv sqrt _ m mapSize d he' hd0' hd1' hc' hw hinv
  refine ⟨hinv.2.2.2, fun d1 map1 hd => ?_, fun d1 map1 hd => ?_⟩
  · have hb := (dropletStep_deposited sqrt _ m mapSize d d1 map1 hd).2.1
    exact ⟨(amountToDeposit_bounds _ d _ hinv.2.2.2 hd0' hd1' hc' hb).1,
      (hstep.1 d1 map1 hd).2.2.2⟩
  · have hb := (dropletStep_eroded sqrt _ m mapSize d d1 map1 hd).2.1
    refine ⟨(hstep.2 d1 map1 hd).2.2.2, fun k _ => ?_⟩
    exact deltaSediment_nonneg _ _ _ _ k (erodePrefix_nonneg _ _ _ m d.sediment hinv.1 k)
      (mul_nonneg (amountToErode_nonneg _ d _ he' hb)
        (getD_nonneg_of_forall _ k (fun w hw' => (hw _ w hw').le)))

/-- Witness of C22: the first droplet on the ramp of scenario B, spawned at `(5, 5)`, with the
default parameters, over the reals. -/
theorem sediment_never_negative_witness :
    (IsSqrt Real.sqrt ∧ CacheValid Real.sqrt (GetInstance : ErosionMaker ℝ) ∧
        (rampMap : List ℝ).length = ((16 : ℤ) * 16).toNat ∧
        (∀ x ∈ (rampMap : List ℝ), 0 ≤ x) ∧
        LoopState Real.sqrt (Initialize Real.sqrt (GetInstance : ErosionMaker ℝ) 16 false 0) 16
          (fun _ => 5) rampMap
          (erodeDroplets Real.sqrt (Initialize Real.sqrt GetInstance 16 false 0) 16
            (fun _ => 5) 0 rampMap)
          (spawnDroplet (Initialize Real.sqrt GetInstance 16 false 0) 16 (fun _ => 5) 0)) ∧
      0 ≤ (spawnDroplet (Initialize Real.sqrt (GetInstance : ErosionMaker ℝ) 16 false 0) 16
        (fun _ => 5) 0).sediment :=
  have hl : LoopState Real.sqrt (Initialize Real.sqrt (GetInstance : ErosionMaker ℝ) 16 false 0)
      16 (fun _ => 5) rampMap
      (erodeDroplets Real.sqrt (Initialize Real.sqrt GetInstance 16 false 0) 16
        (fun _ => 5) 0 rampMap)
      (spawnDroplet (Initialize Real.sqrt GetInstance 16 false 0) 16 (fun _ => 5) 0) :=
    LoopState.spawn 0
  ⟨⟨isSqrt_real, GetInstance_cacheValid Real.sqrt, rampMap_length, rampMap_nonneg, hl⟩,
    (sediment_never_negative Real.sqrt isSqrt_real (GetInstance : ErosionMaker ℝ)
      (GetInstance_cacheValid Real.sqrt) rampMap _ 16 false 0 (fun _ => 5) _ (by norm_num)
      rampMap_length rampMap_nonneg (by norm_num [GetInstance]) (by norm_num [GetInstance])
      (by norm_num [GetInstance]) (by norm_num [GetInstance]) hl).1⟩

end ClaimsFinal
end ErosionSpec
